import Mathlib

/-!
# go-struct-initializer: a shallow embedding of `structinitializer.go`

The package fills the zero-valued fields of a struct with defaults read from
struct tags, using Go's `reflect` package.  The embedding follows the source
function by function.

* `Ty` models `reflect.Type` as a finite tree (the type graph is acyclic, as
  the specification assumes in its section 5), `StructField` models
  `reflect.StructField`, `Val` models the data behind a `reflect.Value`.
* A `Value` is a type together with data and the read-only flag of `reflect`
  (`flagStickyRO`): the flag is set on a value obtained through a field that
  is not exported, every field of such a value inherits it, and a setter
  panics on it.  A field is exported when its name starts with an upper-case
  letter (names are taken to start with an ASCII character).  The flag an
  embedded field that is not exported gets (`flagEmbedRO`) is not passed on by
  `Value.Field` to the fields below, and the source never writes to an
  embedded field itself, so the embedding does not carry it.  The values the
  source makes itself (`reflect.ValueOf(inf).Elem()`, `reflect.New`) are
  addressable and not read-only.
* A pointer is modelled by its pointee contents.  The source never reads or
  writes through a pointer it finds in a field: it only binds freshly allocated
  cells, so the contents seen through a pointer cannot go stale.
* Every function that mutates a slot returns the new data of that slot together
  with the Go `error` it returns (`none` is `nil`).
* `Res.panic` records a run-time panic raised by `reflect` (for instance
  `NumField` of a non-struct type); `Res.diverge` records that the recursion
  budget of the embedding was exhausted, which `initialiseFuel_total` shows
  never happens with the budget used by the closed definitions.
* Integers of the platform-dependent kinds `int`, `uint`, `uintptr` are 64 bits
  wide.
* The argument of `Initialise` is an `Interface`: the nil interface, on which
  `reflect.TypeOf(inf).Kind()` panics, or a dynamic type with data of that
  type.
-/

namespace StructInitializer

/-! ## Error model (source lines 10-51) -/

def ERROR_NOT_A_POINTER : String := "NotAPointer"
def ERROR_NOT_IMPLEMENT : String := "NotImplement"
def ERROR_POINTE_TO_NON_STRUCT : String := "PointToNonStruct"
def ERROR_TYPE_CONVERSION_FAILED : String := "TypeConversionFailed"
def ERROR_MULTI_ERRORS_FOUND : String := "MultiErrorsFound"

/-- The source's `Error` struct. -/
structure Error where
  Reason : String
  Message : String
  Stack : String
  deriving DecidableEq, Repr

/-- The source's `NewError`: a non-nil `error`. -/
def NewError (reason message stack : String) : Option Error :=
  some ⟨reason, message, stack⟩

/-- The method `(*Error).Error`. -/
def Error.Error (e : Error) : String :=
  if e.Stack = "" then
    e.Reason ++ ": " ++ e.Message
  else
    e.Reason ++ ":(" ++ e.Stack ++ ") " ++ e.Message

/-- Go's `strings.Join`. -/
def Join : List String → String → String
  | [], _ => ""
  | [a], _ => a
  | a :: b :: rest, sep => a ++ sep ++ Join (b :: rest) sep

/-- The source's `mergedError`. -/
def mergedError (errors : List Error) (stackName : String) : Option Error :=
  match errors with
  | [] => none
  | [e] => some e
  | _ =>
    let points := errors.map (fun err => "* " ++ err.Error)
    some ⟨ERROR_MULTI_ERRORS_FOUND, Join points "\n", stackName⟩

/-! ## Types, struct tags and values (the part of `reflect` the source uses) -/

/-- Go's `reflect.Kind`. -/
inductive Kind
  | Invalid | Bool | Int | Int8 | Int16 | Int32 | Int64
  | Uint | Uint8 | Uint16 | Uint32 | Uint64 | Uintptr
  | Float32 | Float64 | Complex64 | Complex128
  | Array | Chan | Func | Interface | Map | Ptr | Slice | String | Struct
  | UnsafePointer
  deriving DecidableEq, Repr

/-- The signed integer kinds. -/
inductive IntKind
  | Int | Int8 | Int16 | Int32 | Int64
  deriving DecidableEq, Repr

/-- The unsigned integer kinds. -/
inductive UintKind
  | Uint | Uint8 | Uint16 | Uint32 | Uint64 | Uintptr
  deriving DecidableEq, Repr

/-- The kinds the source has no setter for. -/
inductive OtherKind
  | Bool | Float32 | Float64 | Complex64 | Complex128
  | Array | Chan | Func | Interface | Map | Slice | UnsafePointer
  deriving DecidableEq, Repr

def IntKind.bits : IntKind → Nat
  | .Int => 64 | .Int8 => 8 | .Int16 => 16 | .Int32 => 32 | .Int64 => 64

def UintKind.bits : UintKind → Nat
  | .Uint => 64 | .Uint8 => 8 | .Uint16 => 16 | .Uint32 => 32 | .Uint64 => 64
  | .Uintptr => 64

def IntKind.Kind : IntKind → Kind
  | .Int => .Int | .Int8 => .Int8 | .Int16 => .Int16 | .Int32 => .Int32
  | .Int64 => .Int64

def UintKind.Kind : UintKind → Kind
  | .Uint => .Uint | .Uint8 => .Uint8 | .Uint16 => .Uint16 | .Uint32 => .Uint32
  | .Uint64 => .Uint64 | .Uintptr => .Uintptr

def OtherKind.Kind : OtherKind → Kind
  | .Bool => .Bool | .Float32 => .Float32 | .Float64 => .Float64
  | .Complex64 => .Complex64 | .Complex128 => .Complex128 | .Array => .Array
  | .Chan => .Chan | .Func => .Func | .Interface => .Interface | .Map => .Map
  | .Slice => .Slice | .UnsafePointer => .UnsafePointer

/-- Go's `reflect.StructTag`, already split into its key/value pairs. -/
abbrev StructTag := List (String × String)

/-- Go's `StructTag.Get`: the value of the first pair with the key, else `""`. -/
def StructTag.Get : StructTag → String → String
  | [], _ => ""
  | (k, v) :: rest, key => if k = key then v else StructTag.Get rest key

mutual
/-- Go's `reflect.Type`, as far as the source looks into it. -/
inductive Ty
  | int (k : IntKind)
  | uint (k : UintKind)
  | string
  | ptr (elem : Ty)
  | struct (name : String) (fields : List StructField)
  | other (k : OtherKind)
/-- Go's `reflect.StructField`. -/
inductive StructField
  | mk (Name : String) (Typ : Ty) (Tag : StructTag) (Anonymous : Bool)
end

def StructField.Name : StructField → String
  | .mk n _ _ _ => n

def StructField.Typ : StructField → Ty
  | .mk _ t _ _ => t

def StructField.Tag : StructField → StructTag
  | .mk _ _ t _ => t

def StructField.Anonymous : StructField → Bool
  | .mk _ _ _ a => a

/-- Go's `Type.Kind`. -/
def Ty.Kind : Ty → Kind
  | .int k => k.Kind
  | .uint k => k.Kind
  | .string => .String
  | .ptr _ => .Ptr
  | .struct _ _ => .Struct
  | .other k => k.Kind

/-- Go's `Type.Name`, used by the source on struct types only. -/
def Ty.Name : Ty → String
  | .struct name _ => name
  | _ => ""

/-- The data behind a `reflect.Value`.  `other` carries an uninterpreted
payload: the source never looks at values of the unsupported kinds. -/
inductive Val
  | int (i : Int)
  | uint (n : Nat)
  | str (s : String)
  | ptr (p : Option Val)
  | struct (fs : List Val)
  | other (payload : Nat)

mutual
/-- The zero value of a type: the contents of `reflect.New(typ)`. -/
def Ty.zero : Ty → Val
  | .int _ => .int 0
  | .uint _ => .uint 0
  | .string => .str ""
  | .ptr _ => .ptr none
  | .struct _ fields => .struct (zeroFields fields)
  | .other _ => .other 0
/-- The zero values of the fields of a struct type. -/
def zeroFields : List StructField → List Val
  | [] => []
  | f :: fs => zeroField f :: zeroFields fs
/-- The zero value of one field. -/
def zeroField : StructField → Val
  | .mk _ t _ _ => t.zero
end

mutual
/-- The number of nodes of a type: the recursion budget that suffices for it. -/
def Ty.size : Ty → Nat
  | .int _ => 1
  | .uint _ => 1
  | .string => 1
  | .ptr e => 1 + e.size
  | .struct _ fields => 1 + sizeFields fields
  | .other _ => 1
/-- The number of nodes of the fields of a struct type. -/
def sizeFields : List StructField → Nat
  | [] => 0
  | f :: fs => sizeField f + sizeFields fs
/-- The number of nodes of one field. -/
def sizeField : StructField → Nat
  | .mk _ t _ _ => 1 + t.size
end

/-- The range of a signed integer of `bits` bits. -/
def inIntRange (bits : Nat) (i : Int) : Prop :=
  -(2 : Int) ^ (bits - 1) ≤ i ∧ i < (2 : Int) ^ (bits - 1)

instance (bits : Nat) (i : Int) : Decidable (inIntRange bits i) := by
  unfold inIntRange; exact inferInstance

mutual
/-- Says that `v` is a value of type `t`. -/
def Val.HasType : Val → Ty → Prop
  | .int i, .int k => inIntRange k.bits i
  | .uint n, .uint k => n < 2 ^ k.bits
  | .str _, .string => True
  | .ptr none, .ptr _ => True
  | .ptr (some v), .ptr elem => Val.HasType v elem
  | .struct vs, .struct _ fields => HasTypes vs fields
  | .other _, .other _ => True
  | _, _ => False
/-- Says that the values `vs` are the fields of a struct with these fields. -/
def HasTypes : List Val → List StructField → Prop
  | [], [] => True
  | v :: vs, .mk _ t _ _ :: fs => Val.HasType v t ∧ HasTypes vs fs
  | _, _ => False
end

/-- Go's rule for an exported name: it starts with an upper-case letter. -/
def isExported (name : String) : Bool :=
  match name.data with
  | c :: _ => c.isUpper
  | [] => false

/-- A `reflect.Value`: a type, the data of that type, and the read-only flag
`ro`, set on a value obtained through a field that is not exported. -/
structure Value where
  typ : Ty
  data : Val
  ro : Bool

/-- The outcome of running a piece of the source. -/
inductive Res (α : Type)
  | ret (a : α)
  | panic
  | diverge

/-! ## `strconv`, base 10 -/

/-- The value of a run of decimal digits, `none` when a byte is not a digit. -/
def parseDigits : List Char → Nat → Option Nat
  | [], acc => some acc
  | c :: cs, acc =>
    if c.isDigit then parseDigits cs (acc * 10 + (c.toNat - 48)) else none

/-- Go's `strconv.ParseUint(s, 10, bitSize)`; `none` stands for a non-nil
error (a syntax error or a value out of range). -/
def ParseUint (s : String) (bitSize : Nat) : Option Nat :=
  if s = "" then none
  else
    match parseDigits s.data 0 with
    | none => none
    | some n => if n < 2 ^ bitSize then some n else none

/-- The variable `neg` of `strconv.ParseInt`: the text starts with `-`. -/
def isNegative (s : String) : Bool := s.data.head? = some '-'

/-- The text `strconv.ParseInt` hands to `ParseUint`: the text without one
leading sign. -/
def unsignedPart (s : String) : List Char :=
  if s.data.head? = some '+' ∨ s.data.head? = some '-' then s.data.tail else s.data

/-- The end of `strconv.ParseInt`: the test of the unsigned value `un` against
the cutoff `1 << (bitSize - 1)`, and the sign. -/
def cutoffCheck (neg : Bool) (un bitSize : Nat) : Option Int :=
  if neg = false ∧ un ≥ 2 ^ (bitSize - 1) then none
  else if neg = true ∧ un > 2 ^ (bitSize - 1) then none
  else some (if neg then -(un : Int) else (un : Int))

/-- Go's `strconv.ParseInt(s, 10, bitSize)`; `none` stands for a non-nil
error. -/
def ParseInt (s : String) (bitSize : Nat) : Option Int :=
  if s = "" then none
  else if unsignedPart s = [] then none
  else
    match parseDigits (unsignedPart s) 0 with
    | none => none
    | some un => cutoffCheck (isNegative s) un bitSize

/-! ## `reflect.Value` operations -/

/-- Conversion of a 64-bit value to a signed integer of `bits` bits, as the
assignment in `reflect.Value.SetInt` does: the low `bits` bits are kept. -/
def wrapInt (bits : Nat) (x : Int) : Int :=
  (x + 2 ^ (bits - 1)) % 2 ^ bits - 2 ^ (bits - 1)

/-- Conversion of a 64-bit value to an unsigned integer of `bits` bits. -/
def wrapUint (bits : Nat) (x : Nat) : Nat :=
  x % 2 ^ bits

/-- Go's `Value.Int`: panics unless the value is of a signed integer kind. -/
def Value.Int (v : Value) : Res ℤ :=
  match v.typ, v.data with
  | .int _, .int i => .ret i
  | _, _ => .panic

/-- Go's `Value.SetInt`: the new data of the slot; panics on a read-only
value (`mustBeAssignable`). -/
def Value.SetInt (v : Value) (x : ℤ) : Res Val :=
  if v.ro then .panic
  else
    match v.typ with
    | .int k => .ret (.int (wrapInt k.bits x))
    | _ => .panic

/-- Go's `Value.Uint`. -/
def Value.Uint (v : Value) : Res ℕ :=
  match v.typ, v.data with
  | .uint _, .uint n => .ret n
  | _, _ => .panic

/-- Go's `Value.SetUint`: the new data of the slot; panics on a read-only
value. -/
def Value.SetUint (v : Value) (x : ℕ) : Res Val :=
  if v.ro then .panic
  else
    match v.typ with
    | .uint k => .ret (.uint (wrapUint k.bits x))
    | _ => .panic

/-- Go's `string` type. -/
abbrev GoString : Type := String

/-- Go's `Value.String` on a value of kind `String`. -/
def Value.String (v : Value) : Res GoString :=
  match v.typ, v.data with
  | .string, .str s => .ret s
  | _, _ => .panic

/-- Go's `Value.SetString`: the new data of the slot; panics on a read-only
value. -/
def Value.SetString (v : Value) (x : GoString) : Res Val :=
  if v.ro then .panic
  else
    match v.typ with
    | .string => .ret (.str x)
    | _ => .panic

/-- Go's `Value.Set` with a pointer to a freshly allocated cell: the new data
of the slot; panics on a read-only value. -/
def Value.Set (v : Value) (pointee : Val) : Res Val :=
  if v.ro then .panic else .ret (.ptr (some pointee))

/-- Go's `Type.Elem` on a pointer type. -/
def Ty.Elem : Ty → Res Ty
  | .ptr elem => .ret elem
  | _ => .panic

/-- The fields of a struct type; `none` for any other type, on which
`Type.NumField` panics. -/
def Ty.fields? : Ty → Option (List StructField)
  | .struct _ fields => some fields
  | _ => none

/-- The data found in a struct value by following field indices. -/
def Val.get : List Nat → Val → Option Val
  | [], v => some v
  | i :: path, .struct vs =>
    match vs[i]? with
    | some w => Val.get path w
    | none => none
  | _ :: _, _ => none

/-- Replaces the element of index `i` of a list by its image under `f`. -/
def updateAt (f : Val → Val) : Nat → List Val → List Val
  | _, [] => []
  | 0, v :: vs => f v :: vs
  | i + 1, v :: vs => v :: updateAt f i vs

/-- Writes `new` into the slot reached in a struct value by following field
indices. -/
def Val.set : List Nat → Val → Val → Val
  | [], new, _ => new
  | i :: path, new, .struct vs => .struct (updateAt (Val.set path new) i vs)
  | _ :: _, _, v => v

/-! ## The initialiser (source lines 53-243) -/

/-- The source's `InitialiserConfig`. -/
structure InitialiserConfig where
  TagName : String

/-- The source's `Initialiser`. -/
structure Initialiser where
  config : InitialiserConfig

/-- The source's `NewStructInitialiser`. -/
def NewStructInitialiser : Initialiser :=
  { config := { TagName := "default" } }

/-- The method `initialiseInt`. -/
def Initialiser.initialiseInt (_self : Initialiser) (stackName tag : String)
    (val : Value) : Res (Val × Option Error) :=
  if tag ≠ "" then
    match ParseInt tag 64 with
    | none =>
      .ret (val.data, NewError ERROR_TYPE_CONVERSION_FAILED
        ("\"" ++ tag ++ "\" can't convert to int64") stackName)
    | some i =>
      match val.Int with
      | .ret cur =>
        if cur = 0 then
          match val.SetInt i with
          | .ret new => .ret (new, none)
          | .panic => .panic
          | .diverge => .diverge
        else .ret (val.data, none)
      | .panic => .panic
      | .diverge => .diverge
  else .ret (val.data, none)

/-- The method `initialiseUint`. -/
def Initialiser.initialiseUint (_self : Initialiser) (stackName tag : String)
    (val : Value) : Res (Val × Option Error) :=
  if tag ≠ "" then
    match ParseUint tag 64 with
    | none =>
      .ret (val.data, NewError ERROR_TYPE_CONVERSION_FAILED
        ("\"" ++ tag ++ "\" can't convert to uint64") stackName)
    | some i =>
      match val.Uint with
      | .ret cur =>
        if cur = 0 then
          match val.SetUint i with
          | .ret new => .ret (new, none)
          | .panic => .panic
          | .diverge => .diverge
        else .ret (val.data, none)
      | .panic => .panic
      | .diverge => .diverge
  else .ret (val.data, none)

/-- The method `initialiseString`. -/
def Initialiser.initialiseString (_self : Initialiser) (_stackName tag : String)
    (val : Value) : Res (Val × Option Error) :=
  if tag ≠ "" then
    match val.String with
    | .ret cur =>
      if cur = "" then
        match val.SetString tag with
        | .ret new => .ret (new, none)
        | .panic => .panic
        | .diverge => .diverge
      else .ret (val.data, none)
    | .panic => .panic
    | .diverge => .diverge
  else .ret (val.data, none)

mutual
/-- The method `checkStructHasDefaultValue`.  The source calls it on struct
types only (on any other type `NumField` would panic). -/
def Initialiser.checkStructHasDefaultValue (self : Initialiser) : Ty → Bool
  | .struct _ fields => self.checkFields fields
  | _ => false
/-- The loop of `checkStructHasDefaultValue` over the fields from index `i`. -/
def Initialiser.checkFields (self : Initialiser) : List StructField → Bool
  | [] => false
  | f :: rest => self.checkField f || self.checkFields rest
/-- One turn of the loop of `checkStructHasDefaultValue`: does it return
`true` at this field? -/
def Initialiser.checkField (self : Initialiser) : StructField → Bool
  | .mk _ t tag _ =>
    decide (tag.Get self.config.TagName ≠ "") ||
      (decide (t.Kind = Kind.Struct) && self.checkStructHasDefaultValue t)
end

/-- The type of the method `initialise`, which `initialisePtr` and
`initialiseStruct` call back. -/
abbrev Dispatch : Type := String → String → Value → Res (Val × Option Error)

/-- The method `initialisePtr`, calling back `initialise` as `rec`. -/
def initialisePtrStep (rec : Dispatch) (self : Initialiser)
    (stackName tag : String) (val : Value) : Res (Val × Option Error) :=
  if tag = "-" then .ret (val.data, none)
  else
    match val.typ.Elem with
    | .ret typ =>
      if tag = "" ∧ (typ.Kind ≠ Kind.Struct ∨ ¬ self.checkStructHasDefaultValue typ) then
        .ret (val.data, none)
      else
        -- realVal := reflect.New(typ)
        match rec stackName tag ⟨typ, typ.zero, false⟩ with
        | .ret (_, some err) => .ret (val.data, some err)
        | .ret (pointee, none) =>
          match val.Set pointee with
          | .ret new => .ret (new, none)
          | .panic => .panic
          | .diverge => .diverge
        | .panic => .panic
        | .diverge => .diverge
    | .panic => .panic
    | .diverge => .diverge

/-- The fields of a struct value still to be walked: a handle (the path of
field indices from the struct the walk started at) and the handle's type.
Every handle of the queue carries the read-only flag of the struct the walk
started at: the queue holds embedded fields only, and `Value.Field` passes the
flag of the struct on to them unchanged. -/
abbrev Queue : Type := List (List Nat × Ty)

/-- The field path `fieldName` computed in the inner loop of
`initialiseStruct`. -/
def fieldPath (stackName name : String) : String :=
  if stackName ≠ "" then stackName ++ "." ++ name else name

/-- The inner loop of `initialiseStruct` over the fields from index `i` of the
struct at `path`, whose read-only flag is `ro`: the struct the walk started
at, the queue and the errors, all three after the loop.  `structVal.Field(i)`
is read-only when the struct is, or when the field is not exported. -/
def fieldsLoop (rec : Dispatch) (self : Initialiser) (stackName : String) (ro : Bool)
    (path : List Nat) :
    List StructField → Nat → Val → Queue → List Error →
      Res (Val × Queue × List Error)
  | [], _, root, structs, errors => .ret (root, structs, errors)
  | structField :: rest, i, root, structs, errors =>
    let defaultTag := structField.Tag.Get self.config.TagName
    if structField.Anonymous then
      fieldsLoop rec self stackName ro path rest (i + 1) root
        (structs ++ [(path ++ [i], structField.Typ)]) errors
    else
      let fieldName := fieldPath stackName structField.Name
      match Val.get (path ++ [i]) root with
      | none => .panic
      | some cur =>
        match rec fieldName defaultTag
            ⟨structField.Typ, cur, ro || !isExported structField.Name⟩ with
        | .ret (new, err) =>
          fieldsLoop rec self stackName ro path rest (i + 1)
            (Val.set (path ++ [i]) new root) structs (errors ++ err.toList)
        | .panic => .panic
        | .diverge => .diverge

/-- The outer loop of `initialiseStruct` over the queue `structs`, with a
budget of `fuel` turns. -/
def structsLoop (rec : Dispatch) (self : Initialiser) (stackName : String) (ro : Bool) :
    Nat → Val → Queue → List Error → Res (Val × List Error)
  | _, root, [], errors => .ret (root, errors)
  | 0, _, _ :: _, _ => .diverge
  | fuel + 1, root, (path, structTyp) :: structs, errors =>
    match structTyp.fields? with
    | none => .panic
    | some fields =>
      match fieldsLoop rec self stackName ro path fields 0 root structs errors with
      | .ret (root1, structs1, errors1) =>
        structsLoop rec self stackName ro fuel root1 structs1 errors1
      | .panic => .panic
      | .diverge => .diverge

/-- The method `initialiseStruct`, calling back `initialise` as `rec`. -/
def initialiseStructStep (rec : Dispatch) (self : Initialiser) (fuel : Nat)
    (stackName : String) (structVal : Value) : Res (Val × Option Error) :=
  match structsLoop rec self stackName structVal.ro fuel structVal.data
      [([], structVal.typ)] [] with
  | .ret (root, errors) => .ret (root, mergedError errors stackName)
  | .panic => .panic
  | .diverge => .diverge

/-- The method `initialise` with a recursion budget. -/
def initialiseFuel (self : Initialiser) : Nat → Dispatch
  | 0, _, _, _ => .diverge
  | fuel + 1, stackName, tag, val =>
    let typ := val.typ
    let kind := typ.Kind
    if kind = Kind.Struct then
      initialiseStructStep (initialiseFuel self fuel) self (fuel + 1) stackName val
    else
      match kind with
      | .Int | .Int8 | .Int16 | .Int32 | .Int64 =>
        self.initialiseInt stackName tag val
      | .Uint | .Uint8 | .Uint16 | .Uint32 | .Uint64 | .Uintptr =>
        self.initialiseUint stackName tag val
      | .String => self.initialiseString stackName tag val
      | .Ptr => initialisePtrStep (initialiseFuel self fuel) self stackName tag val
      | _ => .ret (val.data, NewError ERROR_NOT_IMPLEMENT "not implement" stackName)

/-- The method `initialise`. -/
def Initialiser.initialise (self : Initialiser) (stackName tag : String)
    (val : Value) : Res (Val × Option Error) :=
  initialiseFuel self val.typ.size stackName tag val

/-- The method `initialisePtr`. -/
def Initialiser.initialisePtr (self : Initialiser) (stackName tag : String)
    (val : Value) : Res (Val × Option Error) :=
  initialisePtrStep self.initialise self stackName tag val

/-- The method `initialiseStruct`. -/
def Initialiser.initialiseStruct (self : Initialiser) (stackName : String)
    (structVal : Value) : Res (Val × Option Error) :=
  initialiseStructStep self.initialise self structVal.typ.size stackName structVal

/-- Go's `Value.Elem` on a pointer: the pointee, `none` (the zero `Value`, of
kind `Invalid`) for a nil pointer.  The pointee is read-only when the pointer
is. -/
def Value.Elem (v : Value) : Res (Option Value) :=
  match v.typ, v.data with
  | .ptr _, .ptr none => .ret none
  | .ptr elem, .ptr (some d) => .ret (some ⟨elem, d, v.ro⟩)
  | _, _ => .panic

/-- Go's `Value.Kind`, the zero `Value` included. -/
def kindOf : Option Value → Kind
  | none => .Invalid
  | some v => v.typ.Kind

/-- A Go argument of type `interface{}`: the nil interface, or a dynamic type
with data of that type. -/
inductive Interface
  | nil
  | of (typ : Ty) (data : Val)

/-- Go's `reflect.ValueOf` on an interface that holds a value: the value is
not read-only. -/
def ValueOf (typ : Ty) (data : Val) : Value := ⟨typ, data, false⟩

/-- The method `Initialise`.  `typeString` is `reflect`'s rendering of a type
(`%s` of a `reflect.Type`), which the embedding leaves abstract.  On the nil
interface `reflect.TypeOf` returns the nil `Type`, on which `typ.Kind()`
panics.  The result is the new data of `inf` (a pointer, by its contents) and
the returned error. -/
def Initialiser.Initialise (self : Initialiser) (typeString : Ty → String) :
    Interface → Res (Val × Option Error)
  | .nil => .panic
  | .of typ data =>
    let kind := typ.Kind
    if kind ≠ Kind.Ptr then
      .ret (data,
        NewError ERROR_NOT_A_POINTER (typeString typ ++ " not a pointer") "")
    else
      match (ValueOf typ data).Elem with
      | .ret val =>
        let kind := kindOf val
        if kind ≠ Kind.Struct then
          .ret (data,
            NewError ERROR_POINTE_TO_NON_STRUCT
              (typeString typ ++ " point to non struct") "")
        else
          match val with
          | none => .panic
          | some val =>
            match self.initialiseStruct val.typ.Name val with
            | .ret (pointee, err) => .ret (.ptr (some pointee), err)
            | .panic => .panic
            | .diverge => .diverge
      | .panic => .panic
      | .diverge => .diverge

/-- The source's `InitializeStruct`. -/
def InitializeStruct (typeString : Ty → String) (struct_ : Interface) :
    Res (Val × Option Error) :=
  NewStructInitialiser.Initialise typeString struct_

end StructInitializer

namespace StructInitializer

/-! ## The structs of the source's tests -/

/-- The tag `default:"..."`. -/
def defaultTag (v : String) : StructTag := [("default", v)]

def TNormStruct : Ty :=
  .struct "TNormStruct" [.mk "AInt" (.int .Int) [] false, .mk "AStr" .string [] false]

def TStruct : Ty :=
  .struct "TStruct"
    [.mk "AInt" (.int .Int) (defaultTag "10") false,
     .mk "AStr" .string (defaultTag "hello") false]

def TWrongStruct : Ty :=
  .struct "TWrongStruct"
    [.mk "AInt" (.int .Int) (defaultTag "hhhhh") false,
     .mk "AStr" .string (defaultTag "hello") false]

def TEmbeddStruct : Ty :=
  .struct "TEmbeddStruct"
    [.mk "AStruct" TStruct [] false, .mk "AInt" (.int .Int) (defaultTag "101") false]

def TEmbeddStruct2 : Ty :=
  .struct "TEmbeddStruct2"
    [.mk "AStruct" TStruct [] false, .mk "AInt" (.int .Int) [] false]

def TAnonymousStruct : Ty :=
  .struct "TAnonymousStruct"
    [.mk "TStruct" TStruct [] true, .mk "AUint" (.uint .Uint16) (defaultTag "20") false]

def TPointerStruct : Ty :=
  .struct "TPointerStruct"
    [.mk "AStructPtr" (.ptr TStruct) [] false,
     .mk "AIntPtr" (.ptr (.int .Int32)) (defaultTag "20") false,
     .mk "AStrPtr" (.ptr .string) (defaultTag "-") false,
     .mk "AUintPtr" (.ptr (.uint .Uint)) [] false,
     .mk "ANormStruct" (.ptr TNormStruct) [] false]

/-- The interface value `&x` for `x` of type `typ` with data `data`. -/
def addressOf (typ : Ty) (data : Val) : Interface := .of (.ptr typ) (.ptr (some data))

end StructInitializer

namespace StructInitializer

/-! ## Further structs, used as examples -/

/-- A struct with a pointer to a struct whose defaults do not parse:
`struct { P *TWrongStruct }`. -/
def TWrongPointer : Ty :=
  .struct "TWrongPointer" [.mk "P" (.ptr TWrongStruct) [] false]

end StructInitializer

namespace StructInitializer

/-- A struct with two fields whose tags do not parse:
`struct { A int "default:\"x\""; B uint8 "default:\"-1\"" }`. -/
def TTwoWrong : Ty :=
  .struct "TTwoWrong"
    [.mk "A" (.int .Int) (defaultTag "x") false,
     .mk "B" (.uint .Uint8) (defaultTag "-1") false]

end StructInitializer

namespace StructInitializer

/-! ## Notions used to state the properties -/

/-- Says that `rec'` agrees with `rec` wherever `rec` stays within its budget. -/
def Extends (rec rec' : Dispatch) : Prop :=
  ∀ (s t : String) (v : Value), rec s t v ≠ .diverge → rec' s t v = rec s t v

/-- Says that `rec` stays within its budget on every type of at most `bound`
nodes. -/
def TotalUpTo (rec : Dispatch) (bound : Nat) : Prop :=
  ∀ (s t : String) (v : Value), v.typ.size ≤ bound → rec s t v ≠ .diverge

/-- The handles the inner loop of `initialiseStruct` appends to the queue: the
anonymous fields, from index `i`, of the struct at `path`. -/
def anonymousOf (path : List Nat) : List StructField → Nat → Queue
  | [], _ => []
  | f :: rest, i =>
    if f.Anonymous then (path ++ [i], f.Typ) :: anonymousOf path rest (i + 1)
    else anonymousOf path rest (i + 1)

/-- The number of nodes of the types in a queue. -/
def queueSize : Queue → Nat
  | [] => 0
  | (_, t) :: rest => t.size + queueSize rest

end StructInitializer

namespace StructInitializer

/-! ## What a run does, read off the type

The walker of `initialiseStruct` visits slots in the order of its queue.  The
functions of this section describe the result of a run by recursion on the
type; `initialise_run` proves that the code computes them. -/

/-- Applies `g` to the slot reached in a struct value by following field indices. -/
def Val.modify : List Nat → (Val → Val) → Val → Val
  | [], g, v => g v
  | i :: path, g, .struct vs => .struct (updateAt (Val.modify path g) i vs)
  | _ :: _, _, v => v

/-- Says that neither path is a prefix of the other: the two handles denote
disjoint parts of the struct. -/
def Apart (p q : List Nat) : Prop := ¬ p <+: q ∧ ¬ q <+: p

/-- A dispatch of the walker: the handle of a field that is not anonymous, and
the field. -/
abbrev Slot : Type := List Nat × StructField

/-- The dispatches of one run of the inner loop of `initialiseStruct`: the
fields, from index `i`, of the struct at `path` that are not anonymous. -/
def namedOf (path : List Nat) : List StructField → Nat → List Slot
  | [], _ => []
  | f :: rest, i =>
    if f.Anonymous then namedOf path rest (i + 1)
    else (path ++ [i], f) :: namedOf path rest (i + 1)

/-- The dispatches of the outer loop of `initialiseStruct`, in order, for a
queue; `none` when a handle of the queue is not a struct, or when `fuel`
turns do not empty the queue. -/
def dispatchOrder : Nat → Queue → Option (List Slot)
  | _, [] => some []
  | 0, _ :: _ => none
  | fuel + 1, (path, t) :: rest =>
    match t.fields? with
    | none => none
    | some fields =>
      match dispatchOrder fuel (rest ++ anonymousOf path fields 0) with
      | none => none
      | some slots => some (namedOf path fields 0 ++ slots)

/-- The walker's work on a list of dispatches, in a struct whose read-only
flag is `ro`: each slot is read, handed to `rec`, and written back; the errors
are collected in order. -/
def dispatchAll (rec : Dispatch) (self : Initialiser) (stackName : String) (ro : Bool) :
    List Slot → Val → List Error → Res (Val × List Error)
  | [], root, errors => .ret (root, errors)
  | (p, f) :: rest, root, errors =>
    match Val.get p root with
    | none => .panic
    | some cur =>
      match rec (fieldPath stackName f.Name) (f.Tag.Get self.config.TagName)
          ⟨f.Typ, cur, ro || !isExported f.Name⟩ with
      | .ret (new, err) =>
        dispatchAll rec self stackName ro rest (Val.set p new root) (errors ++ err.toList)
      | .panic => .panic
      | .diverge => .diverge

/-- The handles of the anonymous fields of the struct behind a handle. -/
def embeddedIn (h : List Nat × Ty) : Queue :=
  match h.2.fields? with
  | some fields => anonymousOf h.1 fields 0
  | none => []

/-- The fields of the struct behind a handle that are not anonymous, in
declaration order. -/
def declaredIn (h : List Nat × Ty) : List Slot :=
  match h.2.fields? with
  | some fields => namedOf h.1 fields 0
  | none => []

/-- The breadth-first order over `depth` levels of embedding: first the
declared fields of the structs of the queue, then those of the structs they
embed, and so on. -/
def levelOrder : Nat → Queue → List Slot
  | 0, _ => []
  | depth + 1, structs =>
    structs.flatMap declaredIn ++ levelOrder depth (structs.flatMap embeddedIn)

/-- Says whether the pointer setter, for this pointee type and tag, allocates
a pointee (its third outcome). -/
def Initialiser.allocates (self : Initialiser) (elem : Ty) (tag : String) : Bool :=
  decide (tag ≠ "-") &&
    !(decide (tag = "") &&
      (decide (elem.Kind ≠ Kind.Struct) || !self.checkStructHasDefaultValue elem))

mutual
/-- Says whether the walk of a value of this type meets no anonymous field
that is not a struct (on which `NumField` panics). -/
def Initialiser.safe (self : Initialiser) : Ty → String → Bool
  | .ptr elem, tag => !self.allocates elem tag || self.safe elem tag
  | .struct _ fields, _ => self.safeFields fields
  | _, _ => true
/-- The same, for the fields of a struct. -/
def Initialiser.safeFields (self : Initialiser) : List StructField → Bool
  | [] => true
  | f :: rest => self.safeField f && self.safeFields rest
/-- The same, for one field. -/
def Initialiser.safeField (self : Initialiser) : StructField → Bool
  | .mk _ t tag anon =>
    if anon then decide (t.Kind = Kind.Struct) && self.safe t ""
    else self.safe t (tag.Get self.config.TagName)
end

mutual
/-- Says whether a run on a value of this type with this tag returns an error. -/
def Initialiser.fails (self : Initialiser) : Ty → String → Bool
  | .int _, tag => decide (tag ≠ "") && (ParseInt tag 64).isNone
  | .uint _, tag => decide (tag ≠ "") && (ParseUint tag 64).isNone
  | .string, _ => false
  | .ptr elem, tag => self.allocates elem tag && self.fails elem tag
  | .struct _ fields, _ => self.failsFields fields
  | .other _, _ => true
/-- The same, for the fields of a struct. -/
def Initialiser.failsFields (self : Initialiser) : List StructField → Bool
  | [] => false
  | f :: rest => self.failsField f || self.failsFields rest
/-- The same, for one field. -/
def Initialiser.failsField (self : Initialiser) : StructField → Bool
  | .mk _ t tag anon =>
    if anon then self.fails t "" else self.fails t (tag.Get self.config.TagName)
end

mutual
/-- The data a run leaves in a slot of this type with this tag. -/
def Initialiser.fill (self : Initialiser) : Ty → String → Val → Val
  | .int k, tag, .int i =>
    match ParseInt tag 64 with
    | some p => if i = 0 then .int (wrapInt k.bits p) else .int i
    | none => .int i
  | .uint k, tag, .uint n =>
    match ParseUint tag 64 with
    | some p => if n = 0 then .uint (wrapUint k.bits p) else .uint n
    | none => .uint n
  | .string, tag, .str s => if tag ≠ "" ∧ s = "" then .str tag else .str s
  | .ptr elem, tag, v =>
    if self.allocates elem tag && !self.fails elem tag then
      .ptr (some (self.fill elem tag elem.zero))
    else v
  | .struct _ fields, _, .struct vs => .struct (self.fillFields fields vs)
  | _, _, v => v
/-- The same, for the fields of a struct. -/
def Initialiser.fillFields (self : Initialiser) : List StructField → List Val → List Val
  | f :: fs, v :: vs => self.fillField f v :: self.fillFields fs vs
  | _, vs => vs
/-- The same, for one field. -/
def Initialiser.fillField (self : Initialiser) : StructField → Val → Val
  | .mk _ t tag anon, v =>
    if anon then self.fill t "" v else self.fill t (tag.Get self.config.TagName) v
end

/-- The error a run on a value of this type returns when it returns, read off
the type with a budget of `fuel` levels of nesting: the error of the setter
for a field of an integer or unsupported kind, the error of the pointee for a
pointer the run allocates, and for a struct the merge of the errors of its
dispatches in breadth-first order. -/
def Initialiser.errorFuel (self : Initialiser) : Nat → String → String → Ty → Option Error
  | 0, _, _, _ => none
  | _ + 1, s, tag, .int _ =>
    if tag ≠ "" ∧ ParseInt tag 64 = none then
      some ⟨ERROR_TYPE_CONVERSION_FAILED, "\"" ++ tag ++ "\" can't convert to int64", s⟩
    else none
  | _ + 1, s, tag, .uint _ =>
    if tag ≠ "" ∧ ParseUint tag 64 = none then
      some ⟨ERROR_TYPE_CONVERSION_FAILED, "\"" ++ tag ++ "\" can't convert to uint64", s⟩
    else none
  | _ + 1, _, _, .string => none
  | _ + 1, s, _, .other _ => some ⟨ERROR_NOT_IMPLEMENT, "not implement", s⟩
  | fuel + 1, s, tag, .ptr elem =>
    if self.allocates elem tag then self.errorFuel fuel s tag elem else none
  | fuel + 1, s, _, .struct name fields =>
    mergedError
      ((levelOrder (fuel + 1) [([], .struct name fields)]).flatMap (fun sl =>
        (self.errorFuel fuel (fieldPath s sl.2.Name) (sl.2.Tag.Get self.config.TagName)
          sl.2.Typ).toList)) s

/-- The error a run on a value of this type returns when it returns (it does
not depend on the data, see `initialise_run`). -/
def Initialiser.errorOf (self : Initialiser) (stackName tag : String) (typ : Ty) :
    Option Error :=
  self.errorFuel typ.size stackName tag typ

mutual
/-- Says whether a run on this value returns: it meets no anonymous field that
is not a struct, and it writes to no slot that is read-only.  `ro` is the
read-only flag of the value. -/
def Initialiser.runs (self : Initialiser) : Bool → Ty → String → Val → Bool
  | ro, .int _, tag, .int i =>
    !(ro && decide (tag ≠ "") && (ParseInt tag 64).isSome && decide (i = 0))
  | ro, .uint _, tag, .uint n =>
    !(ro && decide (tag ≠ "") && (ParseUint tag 64).isSome && decide (n = 0))
  | ro, .string, tag, .str s => !(ro && decide (tag ≠ "") && decide (s = ""))
  | ro, .ptr elem, tag, _ =>
    !self.allocates elem tag ||
      (self.runs false elem tag elem.zero && (self.fails elem tag || !ro))
  | ro, .struct _ fields, _, .struct vs => self.runsFields ro fields vs
  | _, _, _, _ => true
/-- The same, for the fields of a struct with read-only flag `ro`. -/
def Initialiser.runsFields (self : Initialiser) :
    Bool → List StructField → List Val → Bool
  | ro, f :: fs, v :: vs => self.runsField ro f v && self.runsFields ro fs vs
  | _, _, _ => true
/-- The same, for one field. -/
def Initialiser.runsField (self : Initialiser) : Bool → StructField → Val → Bool
  | ro, .mk n t tag anon, v =>
    if anon then decide (t.Kind = Kind.Struct) && self.runs ro t "" v
    else self.runs (ro || !isExported n) t (tag.Get self.config.TagName) v
end

/-- Says whether the dispatch of a slot of a struct with read-only flag `ro`
returns, for the value the slot holds in `root`. -/
def Initialiser.slotRuns (self : Initialiser) (ro : Bool) (root : Val) (s : Slot) : Bool :=
  match Val.get s.1 root with
  | some v => self.runs (ro || !isExported s.2.Name) s.2.Typ (s.2.Tag.Get self.config.TagName) v
  | none => true

mutual
/-- The dispatches of a walk of a struct with these fields, field by field in
declaration order, an anonymous struct being entered on the spot; the paths
start at index `i`. -/
def slotsOfFields : List StructField → Nat → List Slot
  | [], _ => []
  | f :: rest, i =>
    (slotsOfField f).map (fun s => (i :: s.1, s.2)) ++ slotsOfFields rest (i + 1)
/-- The dispatches below one field, with paths relative to the field. -/
def slotsOfField : StructField → List Slot
  | .mk n t tag anon => if anon then slotsOf t else [([], .mk n t tag anon)]
/-- The dispatches of a walk of a struct type, with paths relative to it. -/
def slotsOf : Ty → List Slot
  | .struct _ fields => slotsOfFields fields 0
  | _ => []
end

/-- What the dispatch of a slot leaves in it. -/
def Initialiser.fillSlot (self : Initialiser) (s : Slot) : Val → Val :=
  Val.modify s.1 (self.fill s.2.Typ (s.2.Tag.Get self.config.TagName))

/-- What the dispatches of a list of slots leave in a struct, taken in order. -/
def Initialiser.fillSlots (self : Initialiser) (slots : List Slot) (root : Val) : Val :=
  slots.foldl (fun r s => self.fillSlot s r) root

end StructInitializer

namespace StructInitializer

/-- A slot seen from the struct the walk started at, for a slot given relative
to the struct at `p`. -/
def relocate (p : List Nat) (s : Slot) : Slot := (p ++ s.1, s.2)

/-- The dispatches below a handle of the queue. -/
def slotsUnder (h : List Nat × Ty) : List Slot := (slotsOf h.2).map (relocate h.1)

end StructInitializer

namespace StructInitializer

/-! ## Plain structs (claim C1) -/

mutual
/-- Says that a field of this type, tag and anonymity is admitted in a plain
struct: a signed-integer, unsigned-integer or string field whose tag, when not
empty, parses as the setter parses it (`strconv` at 64 bits), or a struct
field, named or embedded, whose fields are admitted in turn. -/
def Initialiser.plainSlot (self : Initialiser) : Ty → String → Bool → Bool
  | .int _, tag, anon => !anon && (decide (tag = "") || (ParseInt tag 64).isSome)
  | .uint _, tag, anon => !anon && (decide (tag = "") || (ParseUint tag 64).isSome)
  | .string, _, anon => !anon
  | .struct _ fields, _, _ => self.plainFields fields
  | _, _, _ => false
/-- Says that the fields are those of a plain struct. -/
def Initialiser.plainFields (self : Initialiser) : List StructField → Bool
  | [] => true
  | f :: rest => self.plainField f && self.plainFields rest
/-- Says that the field is admitted in a plain struct: it is of an admitted
type, and it is exported unless it is embedded. -/
def Initialiser.plainField (self : Initialiser) : StructField → Bool
  | .mk n t tag anon =>
    (anon || isExported n) && self.plainSlot t (tag.Get self.config.TagName) anon
end

mutual
/-- The defaults of a plain type: a tagged integer holds the parsed value of
its tag converted to the width of its kind, a tagged string holds its tag; an
untagged scalar holds zero. -/
def Initialiser.defaults (self : Initialiser) : Ty → String → Val
  | .int k, tag =>
    match ParseInt tag 64 with
    | some p => .int (wrapInt k.bits p)
    | none => .int 0
  | .uint k, tag =>
    match ParseUint tag 64 with
    | some p => .uint (wrapUint k.bits p)
    | none => .uint 0
  | .string, tag => .str tag
  | .struct _ fields, _ => .struct (self.defaultsFields fields)
  | .ptr _, _ => .ptr none
  | .other _, _ => .other 0
/-- The defaults of the fields of a plain struct. -/
def Initialiser.defaultsFields (self : Initialiser) : List StructField → List Val
  | [] => []
  | f :: rest => self.defaultsField f :: self.defaultsFields rest
/-- The default of one field. -/
def Initialiser.defaultsField (self : Initialiser) : StructField → Val
  | .mk _ t tag _ => self.defaults t (tag.Get self.config.TagName)
end

end StructInitializer

namespace StructInitializer

/-- Says that a struct type has a default tag that is reachable: on one of its
fields, or on a field reached by descending through struct-kinded fields. -/
inductive Initialiser.HasReachableTag (self : Initialiser) : Ty → Prop
  | tagged {name : String} {fields : List StructField} (f : StructField) :
    f ∈ fields → f.Tag.Get self.config.TagName ≠ "" →
    Initialiser.HasReachableTag self (.struct name fields)
  | nested {name : String} {fields : List StructField} (f : StructField) :
    f ∈ fields → f.Typ.Kind = Kind.Struct → Initialiser.HasReachableTag self f.Typ →
    Initialiser.HasReachableTag self (.struct name fields)

end StructInitializer

namespace StructInitializer

/-! ## Failing fields (claim C9) -/

mutual
/-- The failing fields met by a run on a value of this type, each as the error
its setter returns (reason, message, field path): found directly, in nested
and embedded structs, and behind the pointers the run allocates. -/
def Initialiser.leaves (self : Initialiser) : Ty → String → String → List Error
  | .int _, s, tag =>
    if tag ≠ "" ∧ ParseInt tag 64 = none then
      [⟨ERROR_TYPE_CONVERSION_FAILED, "\"" ++ tag ++ "\" can't convert to int64", s⟩]
    else []
  | .uint _, s, tag =>
    if tag ≠ "" ∧ ParseUint tag 64 = none then
      [⟨ERROR_TYPE_CONVERSION_FAILED, "\"" ++ tag ++ "\" can't convert to uint64", s⟩]
    else []
  | .string, _, _ => []
  | .other _, s, _ => [⟨ERROR_NOT_IMPLEMENT, "not implement", s⟩]
  | .ptr elem, s, tag => if self.allocates elem tag then self.leaves elem s tag else []
  | .struct _ fields, s, _ => self.leavesFields fields s
/-- The failing fields among the fields of a struct with path `s`. -/
def Initialiser.leavesFields (self : Initialiser) : List StructField → String → List Error
  | [], _ => []
  | f :: rest, s => self.leavesField f s ++ self.leavesFields rest s
/-- The failing fields at or below one field of a struct with path `s`. -/
def Initialiser.leavesField (self : Initialiser) : StructField → String → List Error
  | .mk n t tag anon, s =>
    if anon then self.leaves t s ""
    else self.leaves t (fieldPath s n) (tag.Get self.config.TagName)
end

/-- Says that the text `small` occurs in the text `big`. -/
def Contains (big small : String) : Prop := small.data <:+: big.data

/-- Says how the error `err` of a run reports the failing fields `failing`:
no error when no field fails, the field's own error when one field fails, and
an error with reason `MultiErrorsFound` whose message contains the path of
every failing field when two or more fail. -/
def Reports (failing : List Error) (err : Option Error) : Prop :=
  (failing = [] ∧ err = none) ∨
  (∃ e, failing = [e] ∧ err = some e) ∨
  (2 ≤ failing.length ∧ ∃ E, err = some E ∧ E.Reason = ERROR_MULTI_ERRORS_FOUND ∧
    ∀ e ∈ failing, Contains E.Message e.Stack)

end StructInitializer

namespace StructInitializer

/-! ## The outcome of a run, without the data (claim C18) -/

/-- The error part of an outcome: what the caller of `Initialise` receives. -/
def Res.errorPart : Res (Val × Option Error) → Res (Option Error)
  | .ret (_, err) => .ret err
  | .panic => .panic
  | .diverge => .diverge

/-! ## Embedded structs written out (claim C12) -/

mutual
/-- The fields of a struct once the fields of every embedded struct are
declared directly on it, in place of the embedded struct, at every depth. -/
def flattenFields : List StructField → List StructField
  | [] => []
  | f :: rest => flattenField f ++ flattenFields rest
/-- The fields that stand for one field: the field itself, or the fields of
the struct it embeds. -/
def flattenField : StructField → List StructField
  | .mk n t tag anon => if anon then flattenEmbedded t n tag else [.mk n t tag false]
/-- The fields that stand for an anonymous field of this type. -/
def flattenEmbedded : Ty → String → StructTag → List StructField
  | .struct _ fields, _, _ => flattenFields fields
  | .int k, n, tag => [.mk n (.int k) tag true]
  | .uint k, n, tag => [.mk n (.uint k) tag true]
  | .string, n, tag => [.mk n .string tag true]
  | .ptr e, n, tag => [.mk n (.ptr e) tag true]
  | .other k, n, tag => [.mk n (.other k) tag true]
end

mutual
/-- The values of the fields of `flattenFields`, taken from the values of a
struct with the given fields. -/
def flattenVals : List StructField → List Val → List Val
  | f :: fs, v :: vs => flattenVal f v ++ flattenVals fs vs
  | _, _ => []
/-- The values that stand for the value of one field. -/
def flattenVal : StructField → Val → List Val
  | .mk _ t _ anon, v => if anon then flattenEmbeddedVal t v else [v]
/-- The values that stand for the value of an anonymous field of this type. -/
def flattenEmbeddedVal : Ty → Val → List Val
  | .struct _ fields, .struct vs => flattenVals fields vs
  | _, v => [v]
end

/-! ## The walker's order (claims C16 and C17) -/

/-- A callback for the walker that changes nothing and returns, as an error,
a record of the dispatch: the tag as message and the field path as path
label. -/
def recordDispatch : Dispatch :=
  fun stackName tag val => .ret (val.data, some ⟨"dispatch", tag, stackName⟩)

/-- The record `recordDispatch` leaves for a slot dispatched by a walker with
path prefix `stackName`. -/
def Initialiser.recordOf (self : Initialiser) (stackName : String) (s : Slot) : Error :=
  ⟨"dispatch", s.2.Tag.Get self.config.TagName, fieldPath stackName s.2.Name⟩

/-! ## A struct without its failing fields (claim C20) -/

mutual
/-- The fields of a struct without the fields whose dispatch returns an
error; an embedded struct stays, without its failing fields. -/
def Initialiser.pruneFields (self : Initialiser) : List StructField → List StructField
  | [] => []
  | f :: rest => self.pruneField f ++ self.pruneFields rest
/-- One field, dropped when its dispatch returns an error. -/
def Initialiser.pruneField (self : Initialiser) : StructField → List StructField
  | .mk n t tag anon =>
    if anon then [.mk n (self.pruneEmbedded t) tag true]
    else if self.fails t (tag.Get self.config.TagName) then []
    else [.mk n t tag false]
/-- The type of an embedded struct without its failing fields. -/
def Initialiser.pruneEmbedded (self : Initialiser) : Ty → Ty
  | .struct name fields => .struct name (self.pruneFields fields)
  | .int k => .int k
  | .uint k => .uint k
  | .string => .string
  | .ptr e => .ptr e
  | .other k => .other k
end

mutual
/-- The values of the fields that `pruneFields` keeps. -/
def Initialiser.pruneVals (self : Initialiser) : List StructField → List Val → List Val
  | f :: fs, v :: vs => self.pruneVal f v ++ self.pruneVals fs vs
  | _, _ => []
/-- The value of one field, dropped with the field. -/
def Initialiser.pruneVal (self : Initialiser) : StructField → Val → List Val
  | .mk _ t tag anon, v =>
    if anon then [self.pruneEmbeddedVal t v]
    else if self.fails t (tag.Get self.config.TagName) then []
    else [v]
/-- The value of an embedded struct without its failing fields. -/
def Initialiser.pruneEmbeddedVal (self : Initialiser) : Ty → Val → Val
  | .struct _ fields, .struct vs => .struct (self.pruneVals fields vs)
  | _, v => v
end

end StructInitializer

namespace StructInitializer

/-! ## Further notions and structs for the dispatch and the pointer setter -/

/-- The kinds the switch of `initialise` has a setter for. -/
def handledKinds : List Kind :=
  [.Struct, .Int, .Int8, .Int16, .Int32, .Int64,
   .Uint, .Uint8, .Uint16, .Uint32, .Uint64, .Uintptr, .String, .Ptr]

/-- A struct whose field is not exported:
`struct { aInt int "default:\"10\"" }`. -/
def TUnexported : Ty :=
  .struct "TUnexported" [.mk "aInt" (.int .Int) (defaultTag "10") false]

/-- A struct with a narrow field whose default does not fit it:
`struct { A int8 "default:\"300\"" }`. -/
def TNarrow : Ty :=
  .struct "TNarrow" [.mk "A" (.int .Int8) (defaultTag "300") false]

/-- A struct that embeds a pointer, next to a field whose tag does not parse:
`struct { *TStruct; A int "default:\"x\"" }`. -/
def TEmbeddedPointer : Ty :=
  .struct "TEmbeddedPointer"
    [.mk "TStruct" (.ptr TStruct) [] true, .mk "A" (.int .Int) (defaultTag "x") false]

/-- A struct with a field of a kind without a setter, which embeds a pointer:
`struct { B bool; *TStruct }`. -/
def TBoolEmbeddedPointer : Ty :=
  .struct "TBoolEmbeddedPointer"
    [.mk "B" (.other .Bool) [] false, .mk "TStruct" (.ptr TStruct) [] true]

/-- A struct that embeds a pointer before a struct:
`struct { *TStruct; Inner }` with `type Inner struct { X int "default:\"1\"" }`. -/
def TPointerThenStruct : Ty :=
  .struct "TPointerThenStruct"
    [.mk "TStruct" (.ptr TStruct) [] true,
     .mk "Inner" (.struct "Inner" [.mk "X" (.int .Int) (defaultTag "1") false]) [] true]

/-- A struct with a failing field inside a named struct field, which embeds a
pointer: `type T struct { A struct { B int "default:\"x\"" }; *TStruct }`. -/
def TNestedEmbeddedPointer : Ty :=
  .struct "T"
    [.mk "A" (.struct "" [.mk "B" (.int .Int) (defaultTag "x") false]) [] false,
     .mk "TStruct" (.ptr TStruct) [] true]

/-- A struct with a field of a kind without a setter and no tag:
`struct { B bool; S string "default:\"s\"" }`. -/
def TBoolStruct : Ty :=
  .struct "TBoolStruct"
    [.mk "B" (.other .Bool) [] false, .mk "S" .string (defaultTag "s") false]

/-- A struct whose only default is the zero value of its field:
`struct { A int "default:\"0\"" }`. -/
def TZeroDefault : Ty :=
  .struct "TZeroDefault" [.mk "A" (.int .Int) (defaultTag "0") false]

/-- A struct whose only tag opts a pointer field out:
`struct { P *int "default:\"-\"" }`. -/
def TOptOutOnly : Ty :=
  .struct "TOptOutOnly" [.mk "P" (.ptr (.int .Int)) (defaultTag "-") false]

/-- A struct with a named nested struct whose field does not parse:
`type T struct { A struct { B int "default:\"x\"" } }`. -/
def TNested : Ty :=
  .struct "T"
    [.mk "A" (.struct "" [.mk "B" (.int .Int) (defaultTag "x") false]) [] false]

/-- A struct that embeds a struct embedding a struct, with failing fields at
every level:
`type Inner struct { X int "default:\"1\""; Y int "default:\"y\"" }`,
`type Middle struct { Inner; M uint "default:\"m\"" }`,
`type Outer struct { Middle; A int "default:\"a\""; B string "default:\"b\"" }`. -/
def TInner : Ty :=
  .struct "Inner"
    [.mk "X" (.int .Int) (defaultTag "1") false,
     .mk "Y" (.int .Int) (defaultTag "y") false]

def TMiddle : Ty :=
  .struct "Middle"
    [.mk "Inner" TInner [] true, .mk "M" (.uint .Uint) (defaultTag "m") false]

def TOuter : Ty :=
  .struct "Outer"
    [.mk "Middle" TMiddle [] true,
     .mk "A" (.int .Int) (defaultTag "a") false,
     .mk "B" .string (defaultTag "b") false]

end StructInitializer

namespace StructInitializer

/-! ## One turn of each loop -/

theorem fieldsLoop_nil (rec : Dispatch) (self : Initialiser) (stackName : String)
    (ro : Bool) (path : List Nat) (i : Nat) (root : Val) (structs : Queue) (errors : List Error) :
    fieldsLoop rec self stackName ro path [] i root structs errors =
      .ret (root, structs, errors) := rfl

theorem fieldsLoop_anonymous (rec : Dispatch) (self : Initialiser) (stackName : String)
    (ro : Bool) (path : List Nat) (f : StructField) (rest : List StructField) (i : Nat) (root : Val)
    (structs : Queue) (errors : List Error) (ha : f.Anonymous = true) :
    fieldsLoop rec self stackName ro path (f :: rest) i root structs errors =
      fieldsLoop rec self stackName ro path rest (i + 1) root
        (structs ++ [(path ++ [i], f.Typ)]) errors := by
  rw [fieldsLoop]
  simp only [ha, if_true]

theorem fieldsLoop_named (rec : Dispatch) (self : Initialiser) (stackName : String)
    (ro : Bool) (path : List Nat) (f : StructField) (rest : List StructField) (i : Nat) (root : Val)
    (structs : Queue) (errors : List Error) (ha : f.Anonymous = false) :
    fieldsLoop rec self stackName ro path (f :: rest) i root structs errors =
      match Val.get (path ++ [i]) root with
      | none => .panic
      | some cur =>
        match rec (fieldPath stackName f.Name) (f.Tag.Get self.config.TagName)
            ⟨f.Typ, cur, ro || !isExported f.Name⟩ with
        | .ret (new, err) =>
          fieldsLoop rec self stackName ro path rest (i + 1)
            (Val.set (path ++ [i]) new root) structs (errors ++ err.toList)
        | .panic => .panic
        | .diverge => .diverge := by
  rw [fieldsLoop]
  simp only [ha, Bool.false_eq_true, if_false]

theorem structsLoop_nil (rec : Dispatch) (self : Initialiser) (stackName : String)
    (ro : Bool) (fuel : Nat) (root : Val) (errors : List Error) :
    structsLoop rec self stackName ro fuel root [] errors = .ret (root, errors) := by
  cases fuel <;> rfl

theorem structsLoop_cons (rec : Dispatch) (self : Initialiser) (stackName : String)
    (ro : Bool) (fuel : Nat) (root : Val) (path : List Nat) (structTyp : Ty) (structs : Queue)
    (errors : List Error) :
    structsLoop rec self stackName ro (fuel + 1) root ((path, structTyp) :: structs) errors =
      match structTyp.fields? with
      | none => .panic
      | some fields =>
        match fieldsLoop rec self stackName ro path fields 0 root structs errors with
        | .ret (root1, structs1, errors1) =>
          structsLoop rec self stackName ro fuel root1 structs1 errors1
        | .panic => .panic
        | .diverge => .diverge := rfl

/-! ## The recursion budget never runs out -/

theorem Ty.size_pos (t : Ty) : 0 < t.size := by
  cases t <;> simp [Ty.size]

theorem fieldsLoop_ext {rec rec' : Dispatch} (h : Extends rec rec')
    (self : Initialiser) (stackName : String) (ro : Bool) (path : List Nat) :
    ∀ (fields : List StructField) (i : Nat) (root : Val) (structs : Queue)
      (errors : List Error),
      fieldsLoop rec self stackName ro path fields i root structs errors ≠ .diverge →
      fieldsLoop rec' self stackName ro path fields i root structs errors =
        fieldsLoop rec self stackName ro path fields i root structs errors := by
  intro fields
  induction fields with
  | nil => intro i root structs errors _; rfl
  | cons f rest ih =>
    intro i root structs errors hne
    cases ha : f.Anonymous with
    | true =>
      simp only [fieldsLoop_anonymous _ _ _ _ _ _ _ _ _ _ _ ha] at hne ⊢
      exact ih _ _ _ _ hne
    | false =>
      simp only [fieldsLoop_named _ _ _ _ _ _ _ _ _ _ _ ha] at hne ⊢
      cases hg : Val.get (path ++ [i]) root with
      | none => rfl
      | some cur =>
        simp only [hg] at hne ⊢
        cases hr : rec (fieldPath stackName f.Name) (f.Tag.Get self.config.TagName)
            ⟨f.Typ, cur, ro || !isExported f.Name⟩ with
        | diverge => simp [hr] at hne
        | panic =>
          rw [h _ _ _ (by rw [hr]; exact fun h => nomatch h), hr]
        | ret out =>
          rw [h _ _ _ (by rw [hr]; exact fun h => nomatch h), hr]
          simp only [hr] at hne
          obtain ⟨new, err⟩ := out
          exact ih _ _ _ _ hne

theorem structsLoop_ext {rec rec' : Dispatch} (h : Extends rec rec')
    (self : Initialiser) (stackName : String) (ro : Bool) :
    ∀ (fuel fuel' : Nat) (root : Val) (structs : Queue) (errors : List Error),
      fuel ≤ fuel' →
      structsLoop rec self stackName ro fuel root structs errors ≠ .diverge →
      structsLoop rec' self stackName ro fuel' root structs errors =
        structsLoop rec self stackName ro fuel root structs errors := by
  intro fuel
  induction fuel with
  | zero =>
    intro fuel' root structs errors _ hne
    cases structs with
    | nil => rw [structsLoop_nil, structsLoop_nil]
    | cons a rest => exact absurd rfl hne
  | succ n ih =>
    intro fuel' root structs errors hle hne
    cases structs with
    | nil => rw [structsLoop_nil, structsLoop_nil]
    | cons a rest =>
      obtain ⟨path, structTyp⟩ := a
      obtain ⟨m, rfl⟩ : ∃ m, fuel' = m + 1 := ⟨fuel' - 1, by omega⟩
      simp only [structsLoop_cons] at hne ⊢
      cases hf : structTyp.fields? with
      | none => rfl
      | some fields =>
        simp only [hf] at hne ⊢
        cases hl : fieldsLoop rec self stackName ro path fields 0 root rest errors with
        | diverge => simp [hl] at hne
        | panic =>
          rw [fieldsLoop_ext h _ _ _ _ _ _ _ _ _ (by rw [hl]; exact fun h => nomatch h), hl]
        | ret out =>
          rw [fieldsLoop_ext h _ _ _ _ _ _ _ _ _ (by rw [hl]; exact fun h => nomatch h), hl]
          simp only [hl] at hne
          obtain ⟨root1, structs1, errors1⟩ := out
          exact ih _ _ _ _ (by omega) hne

theorem initialisePtrStep_ext {rec rec' : Dispatch} (h : Extends rec rec')
    (self : Initialiser) (stackName tag : String) (val : Value)
    (hne : initialisePtrStep rec self stackName tag val ≠ .diverge) :
    initialisePtrStep rec' self stackName tag val =
      initialisePtrStep rec self stackName tag val := by
  unfold initialisePtrStep at hne ⊢
  by_cases ht : tag = "-"
  · simp only [ht, if_true]
  · simp only [ht, if_false] at hne ⊢
    cases he : val.typ.Elem with
    | panic => rfl
    | diverge => rfl
    | ret typ =>
      simp only [he] at hne ⊢
      by_cases hc : tag = "" ∧ (typ.Kind ≠ Kind.Struct ∨
          ¬ self.checkStructHasDefaultValue typ = true)
      · simp only [hc, and_self, if_true]
      · simp only [hc, if_false] at hne ⊢
        cases hr : rec stackName tag ⟨typ, typ.zero, false⟩ with
        | diverge => simp [hr] at hne
        | panic => rw [h _ _ _ (by rw [hr]; exact fun h => nomatch h), hr]
        | ret out => rw [h _ _ _ (by rw [hr]; exact fun h => nomatch h), hr]

theorem initialiseStructStep_ext {rec rec' : Dispatch} (h : Extends rec rec')
    (self : Initialiser) (fuel fuel' : Nat) (hle : fuel ≤ fuel')
    (stackName : String) (val : Value)
    (hne : initialiseStructStep rec self fuel stackName val ≠ .diverge) :
    initialiseStructStep rec' self fuel' stackName val =
      initialiseStructStep rec self fuel stackName val := by
  unfold initialiseStructStep at hne ⊢
  cases hl : structsLoop rec self stackName val.ro fuel val.data [([], val.typ)] [] with
  | diverge => simp [hl] at hne
  | panic =>
    rw [structsLoop_ext h _ _ _ _ _ _ _ _ hle (by rw [hl]; exact fun h => nomatch h), hl]
  | ret out =>
    rw [structsLoop_ext h _ _ _ _ _ _ _ _ hle (by rw [hl]; exact fun h => nomatch h), hl]

end StructInitializer

namespace StructInitializer

theorem initialiseFuel_int (self : Initialiser) (n : Nat) (s t : String) (k : IntKind)
    (d : Val) (ro : Bool) :
    initialiseFuel self (n + 1) s t ⟨.int k, d, ro⟩ =
      self.initialiseInt s t ⟨.int k, d, ro⟩ := by
  cases k <;> rfl

theorem initialiseFuel_uint (self : Initialiser) (n : Nat) (s t : String) (k : UintKind)
    (d : Val) (ro : Bool) :
    initialiseFuel self (n + 1) s t ⟨.uint k, d, ro⟩ =
      self.initialiseUint s t ⟨.uint k, d, ro⟩ := by
  cases k <;> rfl

theorem initialiseFuel_string (self : Initialiser) (n : Nat) (s t : String) (d : Val)
    (ro : Bool) :
    initialiseFuel self (n + 1) s t ⟨.string, d, ro⟩ =
      self.initialiseString s t ⟨.string, d, ro⟩ :=
  rfl

theorem initialiseFuel_ptr (self : Initialiser) (n : Nat) (s t : String) (elem : Ty)
    (d : Val) (ro : Bool) :
    initialiseFuel self (n + 1) s t ⟨.ptr elem, d, ro⟩ =
      initialisePtrStep (initialiseFuel self n) self s t ⟨.ptr elem, d, ro⟩ := rfl

theorem initialiseFuel_struct (self : Initialiser) (n : Nat) (s t : String)
    (name : String) (fields : List StructField) (d : Val) (ro : Bool) :
    initialiseFuel self (n + 1) s t ⟨.struct name fields, d, ro⟩ =
      initialiseStructStep (initialiseFuel self n) self (n + 1) s
        ⟨.struct name fields, d, ro⟩ := rfl

theorem initialiseFuel_other (self : Initialiser) (n : Nat) (s t : String)
    (k : OtherKind) (d : Val) (ro : Bool) :
    initialiseFuel self (n + 1) s t ⟨.other k, d, ro⟩ =
      .ret (d, some ⟨ERROR_NOT_IMPLEMENT, "not implement", s⟩) := by
  cases k <;> rfl

theorem Value.Int_ne_diverge (v : Value) : v.Int ≠ .diverge := by
  unfold Value.Int; split <;> simp

theorem Value.SetInt_ne_diverge (v : Value) (x : ℤ) : v.SetInt x ≠ .diverge := by
  unfold Value.SetInt; repeat' split
  all_goals simp

theorem Value.Uint_ne_diverge (v : Value) : v.Uint ≠ .diverge := by
  unfold Value.Uint; split <;> simp

theorem Value.SetUint_ne_diverge (v : Value) (x : ℕ) : v.SetUint x ≠ .diverge := by
  unfold Value.SetUint; repeat' split
  all_goals simp

theorem Value.String_ne_diverge (v : Value) : v.String ≠ .diverge := by
  unfold Value.String; split <;> simp

theorem Value.SetString_ne_diverge (v : Value) (x : GoString) :
    v.SetString x ≠ .diverge := by
  unfold Value.SetString; repeat' split
  all_goals simp

theorem initialiseInt_ne_diverge (self : Initialiser) (s t : String) (v : Value) :
    self.initialiseInt s t v ≠ .diverge := by
  unfold Initialiser.initialiseInt
  repeat' split
  all_goals simp
  all_goals rename_i h
  all_goals first
    | exact absurd h (Value.Int_ne_diverge _)
    | exact absurd h (Value.SetInt_ne_diverge _ _)

theorem initialiseUint_ne_diverge (self : Initialiser) (s t : String) (v : Value) :
    self.initialiseUint s t v ≠ .diverge := by
  unfold Initialiser.initialiseUint
  repeat' split
  all_goals simp
  all_goals rename_i h
  all_goals first
    | exact absurd h (Value.Uint_ne_diverge _)
    | exact absurd h (Value.SetUint_ne_diverge _ _)

theorem initialiseString_ne_diverge (self : Initialiser) (s t : String) (v : Value) :
    self.initialiseString s t v ≠ .diverge := by
  unfold Initialiser.initialiseString
  repeat' split
  all_goals simp
  all_goals rename_i h
  all_goals first
    | exact absurd h (Value.String_ne_diverge _)
    | exact absurd h (Value.SetString_ne_diverge _ _)

theorem initialiseFuel_mono (self : Initialiser) :
    ∀ n m : Nat, n ≤ m → Extends (initialiseFuel self n) (initialiseFuel self m) := by
  intro n
  induction n with
  | zero => intro m _ s t v hne; exact absurd rfl hne
  | succ n ih =>
    intro m hle s t v hne
    obtain ⟨m, rfl⟩ : ∃ k, m = k + 1 := ⟨m - 1, by omega⟩
    have hnm : n ≤ m := by omega
    obtain ⟨typ, d, ro⟩ := v
    cases typ with
    | int k => rw [initialiseFuel_int, initialiseFuel_int]
    | uint k => rw [initialiseFuel_uint, initialiseFuel_uint]
    | string => rw [initialiseFuel_string, initialiseFuel_string]
    | other k => rw [initialiseFuel_other, initialiseFuel_other]
    | ptr elem =>
      rw [initialiseFuel_ptr] at hne ⊢
      rw [initialiseFuel_ptr]
      exact initialisePtrStep_ext (ih m hnm) self s t _ hne
    | struct name fields =>
      rw [initialiseFuel_struct] at hne ⊢
      rw [initialiseFuel_struct]
      exact initialiseStructStep_ext (ih m hnm) self _ _ (by omega) s _ hne

theorem fieldsLoop_queue (rec : Dispatch) (self : Initialiser) (stackName : String)
    (ro : Bool) (path : List Nat) :
    ∀ (fields : List StructField) (i : Nat) (root : Val) (structs : Queue)
      (errors : List Error) (root1 : Val) (structs1 : Queue) (errors1 : List Error),
      fieldsLoop rec self stackName ro path fields i root structs errors =
        .ret (root1, structs1, errors1) →
      structs1 = structs ++ anonymousOf path fields i := by
  intro fields
  induction fields with
  | nil =>
    intro i root structs errors root1 structs1 errors1 h
    rw [fieldsLoop_nil] at h
    injection h with h
    injection h with _ h
    injection h with h _
    simp [anonymousOf, h]
  | cons f rest ih =>
    intro i root structs errors root1 structs1 errors1 h
    cases ha : f.Anonymous with
    | true =>
      rw [fieldsLoop_anonymous _ _ _ _ _ _ _ _ _ _ _ ha] at h
      rw [ih _ _ _ _ _ _ _ h]
      simp [anonymousOf, ha]
    | false =>
      rw [fieldsLoop_named _ _ _ _ _ _ _ _ _ _ _ ha] at h
      cases hg : Val.get (path ++ [i]) root with
      | none => simp [hg] at h
      | some cur =>
        simp only [hg] at h
        cases hr : rec (fieldPath stackName f.Name) (f.Tag.Get self.config.TagName)
            ⟨f.Typ, cur, ro || !isExported f.Name⟩ with
        | diverge => simp [hr] at h
        | panic => simp [hr] at h
        | ret out =>
          obtain ⟨new, err⟩ := out
          simp only [hr] at h
          rw [ih _ _ _ _ _ _ _ h]
          simp [anonymousOf, ha]

theorem sizeField_eq (f : StructField) : sizeField f = 1 + f.Typ.size := by
  cases f; rfl

theorem queueSize_append (a b : Queue) : queueSize (a ++ b) = queueSize a + queueSize b := by
  induction a with
  | nil => simp [queueSize]
  | cons x rest ih =>
    obtain ⟨p, t⟩ := x
    simp [queueSize, ih, Nat.add_assoc]

theorem queueSize_anonymousOf (path : List Nat) :
    ∀ (fields : List StructField) (i : Nat),
      queueSize (anonymousOf path fields i) ≤ sizeFields fields := by
  intro fields
  induction fields with
  | nil => intro i; simp [anonymousOf, queueSize]
  | cons f rest ih =>
    intro i
    have := ih (i + 1)
    cases ha : f.Anonymous <;>
      simp [anonymousOf, ha, queueSize, sizeFields, sizeField_eq] <;> omega

theorem fieldsLoop_total {rec : Dispatch} {bound : Nat} (h : TotalUpTo rec bound)
    (self : Initialiser) (stackName : String) (ro : Bool) (path : List Nat) :
    ∀ (fields : List StructField) (i : Nat) (root : Val) (structs : Queue)
      (errors : List Error), sizeFields fields ≤ bound + 1 →
      fieldsLoop rec self stackName ro path fields i root structs errors ≠ .diverge := by
  intro fields
  induction fields with
  | nil => intro i root structs errors _; exact fun h => nomatch h
  | cons f rest ih =>
    intro i root structs errors hsize
    simp only [sizeFields, sizeField_eq] at hsize
    cases ha : f.Anonymous with
    | true =>
      rw [fieldsLoop_anonymous _ _ _ _ _ _ _ _ _ _ _ ha]
      exact ih _ _ _ _ (by omega)
    | false =>
      rw [fieldsLoop_named _ _ _ _ _ _ _ _ _ _ _ ha]
      cases hg : Val.get (path ++ [i]) root with
      | none => exact fun h => nomatch h
      | some cur =>
        simp only
        have hrec := h (fieldPath stackName f.Name) (f.Tag.Get self.config.TagName)
          ⟨f.Typ, cur, ro || !isExported f.Name⟩ (by show f.Typ.size ≤ bound; omega)
        cases hr : rec (fieldPath stackName f.Name) (f.Tag.Get self.config.TagName)
            ⟨f.Typ, cur, ro || !isExported f.Name⟩ with
        | diverge => exact absurd hr hrec
        | panic => exact fun h => nomatch h
        | ret out =>
          obtain ⟨new, err⟩ := out
          exact ih _ _ _ _ (by omega)

theorem structsLoop_total {rec : Dispatch} {bound : Nat} (h : TotalUpTo rec bound)
    (self : Initialiser) (stackName : String) (ro : Bool) :
    ∀ (fuel : Nat) (root : Val) (structs : Queue) (errors : List Error),
      queueSize structs ≤ fuel → fuel ≤ bound + 1 →
      structsLoop rec self stackName ro fuel root structs errors ≠ .diverge := by
  intro fuel
  induction fuel with
  | zero =>
    intro root structs errors hq _
    cases structs with
    | nil => rw [structsLoop_nil]; exact fun h => nomatch h
    | cons a rest =>
      obtain ⟨p, t⟩ := a
      have := Ty.size_pos t
      simp only [queueSize] at hq
      omega
  | succ n ih =>
    intro root structs errors hq hb
    cases structs with
    | nil => rw [structsLoop_nil]; exact fun h => nomatch h
    | cons a rest =>
      obtain ⟨p, t⟩ := a
      rw [structsLoop_cons]
      cases t with
      | struct name fields =>
        simp only [Ty.fields?]
        simp only [queueSize, Ty.size] at hq
        have hfl := fieldsLoop_total h self stackName ro p fields 0 root rest errors
          (by omega)
        cases hl : fieldsLoop rec self stackName ro p fields 0 root rest errors with
        | diverge => exact absurd hl hfl
        | panic => exact fun h => nomatch h
        | ret out =>
          obtain ⟨root1, structs1, errors1⟩ := out
          have hq1 := fieldsLoop_queue _ _ _ _ _ _ _ _ _ _ _ _ _ hl
          have := queueSize_anonymousOf p fields 0
          exact ih _ _ _ (by rw [hq1, queueSize_append]; omega) (by omega)
      | _ => exact fun h => nomatch h

theorem initialisePtrStep_total {rec : Dispatch} {bound : Nat} (h : TotalUpTo rec bound)
    (self : Initialiser) (s t : String) (v : Value) (hv : v.typ.size ≤ bound + 1) :
    initialisePtrStep rec self s t v ≠ .diverge := by
  unfold initialisePtrStep
  by_cases ht : t = "-"
  · simp only [ht, if_true]; exact fun h => nomatch h
  · simp only [ht, if_false]
    obtain ⟨typ, d, ro⟩ := v
    cases typ with
    | ptr elem =>
      simp only [Ty.Elem]
      split
      · exact fun h => nomatch h
      · have hrec := h s t ⟨elem, elem.zero, false⟩ (by
          simp only [Ty.size] at hv; show elem.size ≤ bound; omega)
        cases hr : rec s t ⟨elem, elem.zero, false⟩ with
        | diverge => exact absurd hr hrec
        | panic => exact fun h => nomatch h
        | ret out =>
          obtain ⟨p, e⟩ := out
          cases e with
          | some e => exact fun h => nomatch h
          | none =>
            cases ro <;> simp [Value.Set]
    | _ => exact fun h => nomatch h

/-- The budget `n` suffices for every type of at most `n` nodes. -/
theorem initialiseFuel_total (self : Initialiser) :
    ∀ n : Nat, TotalUpTo (initialiseFuel self n) n := by
  intro n
  induction n with
  | zero =>
    intro s t v hv
    have := Ty.size_pos v.typ
    omega
  | succ n ih =>
    intro s t v hv
    obtain ⟨typ, d, ro⟩ := v
    cases typ with
    | int k => rw [initialiseFuel_int]; exact initialiseInt_ne_diverge _ _ _ _
    | uint k => rw [initialiseFuel_uint]; exact initialiseUint_ne_diverge _ _ _ _
    | string => rw [initialiseFuel_string]; exact initialiseString_ne_diverge _ _ _ _
    | other k => rw [initialiseFuel_other]; exact fun h => nomatch h
    | ptr elem =>
      rw [initialiseFuel_ptr]
      exact initialisePtrStep_total ih self s t _ hv
    | struct name fields =>
      rw [initialiseFuel_struct]
      unfold initialiseStructStep
      have hl := structsLoop_total ih self s ro (n + 1) d [([], Ty.struct name fields)] []
        (by simpa [queueSize] using hv) (le_refl _)
      cases hr : structsLoop (initialiseFuel self n) self s ro (n + 1) d
          [([], Ty.struct name fields)] [] with
      | diverge => exact absurd hr hl
      | panic => exact fun h => nomatch h
      | ret out => exact fun h => nomatch h

end StructInitializer

namespace StructInitializer

/-! ## The closed definitions satisfy the source's equations -/

theorem initialise_ne_diverge (self : Initialiser) (s t : String) (v : Value) :
    self.initialise s t v ≠ .diverge :=
  initialiseFuel_total self v.typ.size s t v (le_refl _)

theorem initialiseFuel_eq (self : Initialiser) (n : Nat) (s t : String) (v : Value)
    (h : v.typ.size ≤ n) : initialiseFuel self n s t v = self.initialise s t v :=
  initialiseFuel_mono self v.typ.size n h s t v (initialise_ne_diverge self s t v)

theorem extends_initialise (self : Initialiser) (n : Nat) :
    Extends (initialiseFuel self n) self.initialise := by
  intro s t v hne
  by_cases h : v.typ.size ≤ n
  · exact (initialiseFuel_eq self n s t v h).symm
  · exact initialiseFuel_mono self n v.typ.size (by omega) s t v hne

theorem initialise_int (self : Initialiser) (s t : String) (k : IntKind) (d : Val)
    (ro : Bool) :
    self.initialise s t ⟨.int k, d, ro⟩ = self.initialiseInt s t ⟨.int k, d, ro⟩ :=
  initialiseFuel_int self 0 s t k d ro

theorem initialise_uint (self : Initialiser) (s t : String) (k : UintKind) (d : Val)
    (ro : Bool) :
    self.initialise s t ⟨.uint k, d, ro⟩ = self.initialiseUint s t ⟨.uint k, d, ro⟩ :=
  initialiseFuel_uint self 0 s t k d ro

theorem initialise_string (self : Initialiser) (s t : String) (d : Val)
    (ro : Bool) :
    self.initialise s t ⟨.string, d, ro⟩ = self.initialiseString s t ⟨.string, d, ro⟩ :=
  rfl

theorem initialise_other (self : Initialiser) (s t : String) (k : OtherKind) (d : Val)
    (ro : Bool) :
    self.initialise s t ⟨.other k, d, ro⟩ =
      .ret (d, some ⟨ERROR_NOT_IMPLEMENT, "not implement", s⟩) :=
  initialiseFuel_other self 0 s t k d ro

/-- On a pointer, `initialise` is `initialisePtr`. -/
theorem initialise_ptr (self : Initialiser) (s t : String) (elem : Ty) (d : Val)
    (ro : Bool) :
    self.initialise s t ⟨.ptr elem, d, ro⟩ = self.initialisePtr s t ⟨.ptr elem, d, ro⟩ := by
  have h1 : self.initialise s t ⟨.ptr elem, d, ro⟩ =
      initialiseFuel self (elem.size + 1) s t ⟨.ptr elem, d, ro⟩ :=
    (initialiseFuel_eq self _ s t _ (by simp [Ty.size]; omega)).symm
  rw [h1, initialiseFuel_ptr]
  have hne : initialisePtrStep (initialiseFuel self elem.size) self s t ⟨.ptr elem, d, ro⟩ ≠
      .diverge :=
    initialisePtrStep_total (initialiseFuel_total self elem.size) self s t _
      (by simp [Ty.size]; omega)
  exact (initialisePtrStep_ext (extends_initialise self elem.size) self s t _ hne).symm

/-- On a struct, `initialise` is `initialiseStruct`. -/
theorem initialise_struct (self : Initialiser) (s t : String) (name : String)
    (fields : List StructField) (d : Val)
    (ro : Bool) :
    self.initialise s t ⟨.struct name fields, d, ro⟩ =
      self.initialiseStruct s ⟨.struct name fields, d, ro⟩ := by
  have hsz : (Ty.struct name fields).size = sizeFields fields + 1 := by
    simp [Ty.size]; omega
  have h1 : self.initialise s t ⟨.struct name fields, d, ro⟩ =
      initialiseFuel self (sizeFields fields + 1) s t ⟨.struct name fields, d, ro⟩ :=
    (initialiseFuel_eq self _ s t _ (by rw [hsz])).symm
  rw [h1, initialiseFuel_struct]
  have hne : initialiseStructStep (initialiseFuel self (sizeFields fields)) self
      (sizeFields fields + 1) s ⟨.struct name fields, d, ro⟩ ≠ .diverge := by
    have := initialiseFuel_total self (sizeFields fields + 1) s t
      ⟨.struct name fields, d, ro⟩ (by rw [hsz])
    rwa [initialiseFuel_struct] at this
  have := initialiseStructStep_ext (extends_initialise self (sizeFields fields)) self
    _ _ (le_refl _) s _ hne
  rw [← this]
  unfold Initialiser.initialiseStruct
  rw [hsz]

theorem initialisePtr_ne_diverge (self : Initialiser) (s t : String) (v : Value) :
    self.initialisePtr s t v ≠ .diverge := by
  unfold Initialiser.initialisePtr initialisePtrStep
  by_cases ht : t = "-"
  · simp [ht]
  · simp only [ht, if_false]
    obtain ⟨typ, d, ro⟩ := v
    cases typ with
    | ptr elem =>
      simp only [Ty.Elem]
      split
      · simp
      · have hrec := initialise_ne_diverge self s t ⟨elem, elem.zero, false⟩
        cases hr : self.initialise s t ⟨elem, elem.zero, false⟩ with
        | diverge => exact absurd hr hrec
        | panic => simp
        | ret out =>
          obtain ⟨p, e⟩ := out
          cases e <;> cases ro <;> simp [Value.Set]
    | _ => simp [Ty.Elem]

end StructInitializer

namespace StructInitializer

/-! ## Handles: reading and writing through paths -/

theorem updateAt_updateAt (g h : Val → Val) :
    ∀ (i : Nat) (vs : List Val),
      updateAt g i (updateAt h i vs) = updateAt (fun v => g (h v)) i vs := by
  intro i
  induction i with
  | zero => intro vs; cases vs <;> simp [updateAt]
  | succ i ih => intro vs; cases vs <;> simp [updateAt, ih]

theorem updateAt_comm (g h : Val → Val) :
    ∀ (i j : Nat) (vs : List Val), i ≠ j →
      updateAt g i (updateAt h j vs) = updateAt h j (updateAt g i vs) := by
  intro i
  induction i with
  | zero =>
    intro j vs hij
    cases vs with
    | nil => simp [updateAt]
    | cons v vs =>
      cases j with
      | zero => exact absurd rfl hij
      | succ j => simp [updateAt]
  | succ i ih =>
    intro j vs hij
    cases vs with
    | nil => simp [updateAt]
    | cons v vs =>
      cases j with
      | zero => simp [updateAt]
      | succ j => simp [updateAt, ih j vs (by omega)]

theorem get?_updateAt_same (g : Val → Val) :
    ∀ (i : Nat) (vs : List Val), (updateAt g i vs)[i]? = vs[i]?.map g := by
  intro i
  induction i with
  | zero => intro vs; cases vs <;> simp [updateAt]
  | succ i ih => intro vs; cases vs <;> simp [updateAt, ih]

theorem get?_updateAt_ne (g : Val → Val) :
    ∀ (i j : Nat) (vs : List Val), i ≠ j → (updateAt g i vs)[j]? = vs[j]? := by
  intro i
  induction i with
  | zero =>
    intro j vs hij
    cases vs with
    | nil => simp [updateAt]
    | cons v vs =>
      cases j with
      | zero => exact absurd rfl hij
      | succ j => simp [updateAt]
  | succ i ih =>
    intro j vs hij
    cases vs with
    | nil => simp [updateAt]
    | cons v vs =>
      cases j with
      | zero => simp [updateAt]
      | succ j => simp [updateAt, ih j vs (by omega)]

theorem updateAt_congr (g h : Val → Val) :
    ∀ (i : Nat) (vs : List Val), (∀ v, vs[i]? = some v → g v = h v) →
      updateAt g i vs = updateAt h i vs := by
  intro i
  induction i with
  | zero =>
    intro vs hv
    cases vs with
    | nil => simp [updateAt]
    | cons v vs => simp [updateAt, hv v (by simp)]
  | succ i ih =>
    intro vs hv
    cases vs with
    | nil => simp [updateAt]
    | cons v vs =>
      simp only [updateAt]
      rw [ih vs (fun w hw => hv w (by simpa using hw))]

theorem updateAt_length_append (g : Val → Val) (v : Val) (post : List Val) :
    ∀ pre : List Val,
      updateAt g pre.length (pre ++ v :: post) = pre ++ g v :: post := by
  intro pre
  induction pre with
  | nil => simp [updateAt]
  | cons a pre ih => simp [updateAt, ih]

theorem Apart.symm {p q : List Nat} (h : Apart p q) : Apart q p := ⟨h.2, h.1⟩

theorem apart_cons_cons (i : Nat) (p q : List Nat) :
    Apart (i :: p) (i :: q) ↔ Apart p q := by
  simp [Apart, List.cons_prefix_cons]

theorem apart_cons_of_ne {i j : Nat} (h : i ≠ j) (p q : List Nat) :
    Apart (i :: p) (j :: q) := by
  simp [Apart, List.cons_prefix_cons, h, Ne.symm h]

theorem not_apart_nil_left (q : List Nat) : ¬ Apart [] q := by
  simp [Apart]

theorem not_apart_nil_right (p : List Nat) : ¬ Apart p [] := by
  simp [Apart]

theorem Val.set_eq_modify (g : Val → Val) :
    ∀ (p : List Nat) (root cur : Val), Val.get p root = some cur →
      Val.set p (g cur) root = Val.modify p g root := by
  intro p
  induction p with
  | nil =>
    intro root cur h
    simp only [Val.get, Option.some.injEq] at h
    simp [Val.set, Val.modify, h]
  | cons i p ih =>
    intro root cur h
    cases root with
    | struct vs =>
      simp only [Val.set, Val.modify]
      congr 1
      apply updateAt_congr
      intro w hw
      simp only [Val.get, hw] at h
      exact ih w cur h
    | _ => simp [Val.get] at h

theorem Val.modify_comm (g h : Val → Val) :
    ∀ (p q : List Nat) (root : Val), Apart p q →
      Val.modify p g (Val.modify q h root) = Val.modify q h (Val.modify p g root) := by
  intro p
  induction p with
  | nil => intro q root hpq; exact absurd hpq (not_apart_nil_left q)
  | cons i p ih =>
    intro q root hpq
    cases q with
    | nil => exact absurd hpq (not_apart_nil_right _)
    | cons j q =>
      cases root with
      | struct vs =>
        simp only [Val.modify]
        congr 1
        by_cases hij : i = j
        · subst hij
          rw [updateAt_updateAt, updateAt_updateAt]
          congr 1
          funext v
          exact ih q v ((apart_cons_cons i p q).1 hpq)
        · exact updateAt_comm _ _ i j vs hij
      | _ => simp [Val.modify]

theorem Val.get_modify_apart (h : Val → Val) :
    ∀ (p q : List Nat) (root : Val), Apart p q →
      Val.get p (Val.modify q h root) = Val.get p root := by
  intro p
  induction p with
  | nil => intro q root hpq; exact absurd hpq (not_apart_nil_left q)
  | cons i p ih =>
    intro q root hpq
    cases q with
    | nil => exact absurd hpq (not_apart_nil_right _)
    | cons j q =>
      cases root with
      | struct vs =>
        simp only [Val.modify, Val.get]
        by_cases hij : i = j
        · subst hij
          rw [get?_updateAt_same]
          cases hw : vs[i]? with
          | none => simp
          | some w =>
            simp only [Option.map_some']
            exact ih q w ((apart_cons_cons i p q).1 hpq)
        · rw [get?_updateAt_ne _ j i vs (Ne.symm hij)]
      | _ => simp [Val.modify, Val.get]

end StructInitializer

namespace StructInitializer

/-! ## The walker is a fold over its dispatch order -/

theorem dispatchAll_append (rec : Dispatch) (self : Initialiser) (stackName : String)
    (ro : Bool) :
    ∀ (a b : List Slot) (root : Val) (errors : List Error),
      dispatchAll rec self stackName ro (a ++ b) root errors =
        match dispatchAll rec self stackName ro a root errors with
        | .ret (root1, errors1) => dispatchAll rec self stackName ro b root1 errors1
        | .panic => .panic
        | .diverge => .diverge := by
  intro a
  induction a with
  | nil => intro b root errors; rfl
  | cons s a ih =>
    intro b root errors
    obtain ⟨p, f⟩ := s
    simp only [List.cons_append, dispatchAll]
    cases Val.get p root with
    | none => rfl
    | some cur =>
      simp only
      cases rec (fieldPath stackName f.Name) (f.Tag.Get self.config.TagName)
          ⟨f.Typ, cur, ro || !isExported f.Name⟩ with
      | diverge => rfl
      | panic => rfl
      | ret out =>
        obtain ⟨new, err⟩ := out
        exact ih _ _ _

theorem fieldsLoop_eq_dispatchAll (rec : Dispatch) (self : Initialiser)
    (stackName : String) (ro : Bool) (path : List Nat) :
    ∀ (fields : List StructField) (i : Nat) (root : Val) (structs : Queue)
      (errors : List Error),
      fieldsLoop rec self stackName ro path fields i root structs errors =
        match dispatchAll rec self stackName ro (namedOf path fields i) root errors with
        | .ret (root1, errors1) =>
          .ret (root1, structs ++ anonymousOf path fields i, errors1)
        | .panic => .panic
        | .diverge => .diverge := by
  intro fields
  induction fields with
  | nil => intro i root structs errors; simp [fieldsLoop, namedOf, anonymousOf, dispatchAll]
  | cons f rest ih =>
    intro i root structs errors
    cases ha : f.Anonymous with
    | true =>
      rw [fieldsLoop_anonymous _ _ _ _ _ _ _ _ _ _ _ ha, ih]
      simp [namedOf, anonymousOf, ha]
    | false =>
      rw [fieldsLoop_named _ _ _ _ _ _ _ _ _ _ _ ha]
      simp only [namedOf, anonymousOf, ha, Bool.false_eq_true, if_false, dispatchAll]
      cases Val.get (path ++ [i]) root with
      | none => rfl
      | some cur =>
        simp only
        cases rec (fieldPath stackName f.Name) (f.Tag.Get self.config.TagName)
            ⟨f.Typ, cur, ro || !isExported f.Name⟩ with
        | diverge => rfl
        | panic => rfl
        | ret out =>
          obtain ⟨new, err⟩ := out
          exact ih _ _ _ _

/-- The outer loop of `initialiseStruct` performs the dispatches of
`dispatchOrder`, in that order. -/
theorem structsLoop_eq_dispatchAll (rec : Dispatch) (self : Initialiser)
    (stackName : String) (ro : Bool) :
    ∀ (fuel : Nat) (root : Val) (structs : Queue) (errors : List Error)
      (slots : List Slot), dispatchOrder fuel structs = some slots →
      structsLoop rec self stackName ro fuel root structs errors =
        dispatchAll rec self stackName ro slots root errors := by
  intro fuel
  induction fuel with
  | zero =>
    intro root structs errors slots h
    cases structs with
    | nil =>
      simp only [dispatchOrder, Option.some.injEq] at h
      subst h
      rfl
    | cons a rest => simp [dispatchOrder] at h
  | succ n ih =>
    intro root structs errors slots h
    cases structs with
    | nil =>
      simp only [dispatchOrder, Option.some.injEq] at h
      subst h
      rfl
    | cons a rest =>
      obtain ⟨path, t⟩ := a
      rw [structsLoop_cons]
      simp only [dispatchOrder] at h
      cases hf : t.fields? with
      | none => simp [hf] at h
      | some fields =>
        simp only [hf] at h ⊢
        cases hd : dispatchOrder n (rest ++ anonymousOf path fields 0) with
        | none => simp [hd] at h
        | some slots1 =>
          simp only [hd, Option.some.injEq] at h
          subst h
          rw [fieldsLoop_eq_dispatchAll, dispatchAll_append]
          cases dispatchAll rec self stackName ro (namedOf path fields 0) root errors with
          | diverge => rfl
          | panic => rfl
          | ret out =>
            obtain ⟨root1, errors1⟩ := out
            exact ih _ _ _ _ hd

end StructInitializer

namespace StructInitializer

/-! ## The dispatch order visits the slots of the struct, each once -/

theorem slotsOf_struct (name : String) (fields : List StructField) :
    slotsOf (.struct name fields) = slotsOfFields fields 0 := by
  rw [slotsOf]

theorem slotsOfFields_cons_anonymous (n : String) (t : Ty) (tag : StructTag)
    (rest : List StructField) (i : Nat) :
    slotsOfFields (.mk n t tag true :: rest) i =
      (slotsOf t).map (fun s => (i :: s.1, s.2)) ++ slotsOfFields rest (i + 1) := by
  rw [slotsOfFields, slotsOfField]
  simp

theorem slotsOfFields_cons_named (n : String) (t : Ty) (tag : StructTag)
    (rest : List StructField) (i : Nat) :
    slotsOfFields (.mk n t tag false :: rest) i =
      ([i], .mk n t tag false) :: slotsOfFields rest (i + 1) := by
  rw [slotsOfFields, slotsOfField]
  simp

theorem slotsOfFields_nil (i : Nat) : slotsOfFields [] i = [] := by
  rw [slotsOfFields]

theorem dispatch_step_perm (path : List Nat) :
    ∀ (fields : List StructField) (i : Nat),
      (namedOf path fields i ++ (anonymousOf path fields i).flatMap slotsUnder).Perm
        ((slotsOfFields fields i).map (relocate path)) := by
  intro fields
  induction fields with
  | nil => intro i; simp [namedOf, anonymousOf, slotsOfFields_nil]
  | cons f rest ih =>
    intro i
    obtain ⟨n, t, tag, anon⟩ := f
    cases anon with
    | true =>
      rw [slotsOfFields_cons_anonymous]
      simp only [namedOf, anonymousOf, StructField.Anonymous, if_true, StructField.Typ,
        List.flatMap_cons, List.map_append, List.map_map]
      have hA : slotsUnder (path ++ [i], t) =
          List.map (relocate path ∘ fun s => (i :: s.1, s.2)) (slotsOf t) := by
        simp only [slotsUnder]
        apply List.map_congr_left
        intro s _
        simp [relocate]
      rw [hA, ← List.append_assoc]
      refine (List.perm_append_comm.append_right _).trans ?_
      rw [List.append_assoc]
      exact (ih (i + 1)).append_left _
    | false =>
      rw [slotsOfFields_cons_named]
      simp only [namedOf, anonymousOf, StructField.Anonymous, Bool.false_eq_true,
        if_false, List.cons_append, List.map_cons, relocate]
      exact (ih (i + 1)).cons _

theorem fields?_eq_some {t : Ty} {fields : List StructField}
    (h : t.fields? = some fields) : ∃ name, t = .struct name fields := by
  cases t <;> simp [Ty.fields?] at h
  exact ⟨_, by rw [h]⟩

/-- The dispatch order is a rearrangement of the slots below the handles of the
queue. -/
theorem dispatchOrder_perm :
    ∀ (fuel : Nat) (structs : Queue) (slots : List Slot),
      dispatchOrder fuel structs = some slots →
      slots.Perm (structs.flatMap slotsUnder) := by
  intro fuel
  induction fuel with
  | zero =>
    intro structs slots h
    cases structs with
    | nil => simp only [dispatchOrder, Option.some.injEq] at h; subst h; simp
    | cons a rest => simp [dispatchOrder] at h
  | succ n ih =>
    intro structs slots h
    cases structs with
    | nil => simp only [dispatchOrder, Option.some.injEq] at h; subst h; simp
    | cons a rest =>
      obtain ⟨path, t⟩ := a
      simp only [dispatchOrder] at h
      cases hf : t.fields? with
      | none => simp [hf] at h
      | some fields =>
        simp only [hf] at h
        obtain ⟨name, rfl⟩ := fields?_eq_some hf
        cases hd : dispatchOrder n (rest ++ anonymousOf path fields 0) with
        | none => simp [hd] at h
        | some slots1 =>
          simp only [hd, Option.some.injEq] at h
          subst h
          have h1 := ih _ _ hd
          rw [List.flatMap_append] at h1
          have h2 := dispatch_step_perm path fields 0
          simp only [List.flatMap_cons]
          have h3 : slotsUnder (path, Ty.struct name fields) =
              (slotsOfFields fields 0).map (relocate path) := by
            simp [slotsUnder, slotsOf_struct]
          rw [h3]
          refine (h1.append_left _).trans ?_
          refine (List.perm_append_comm.append_left _).trans ?_
          rw [← List.append_assoc]
          exact h2.append_right _

/-! ## The walker's order is the breadth-first order -/

theorem levelOrder_nil : ∀ depth : Nat, levelOrder depth [] = []
  | 0 => rfl
  | depth + 1 => by
    rw [levelOrder, List.flatMap_nil, List.flatMap_nil, levelOrder_nil depth]
    rfl

/-- The walker works off the structs at the front of its queue before the
structs they embed. -/
theorem dispatchOrder_front :
    ∀ (q : Queue) (n : Nat) (q' : Queue) (slots : List Slot),
      dispatchOrder n (q ++ q') = some slots →
      ∃ (m : Nat) (slots' : List Slot), m + q.length ≤ n ∧
        dispatchOrder m (q' ++ q.flatMap embeddedIn) = some slots' ∧
        slots = q.flatMap declaredIn ++ slots' := by
  intro q
  induction q with
  | nil =>
    intro n q' slots h
    exact ⟨n, slots, by simp, by simpa using h, by simp⟩
  | cons a q1 ih =>
    intro n q' slots h
    obtain ⟨path, t⟩ := a
    cases n with
    | zero => simp [dispatchOrder] at h
    | succ k =>
      change dispatchOrder (k + 1) ((path, t) :: (q1 ++ q')) = some slots at h
      rw [dispatchOrder] at h
      cases hf : t.fields? with
      | none => simp [hf] at h
      | some fields =>
        simp only [hf] at h
        rw [List.append_assoc] at h
        cases hd : dispatchOrder k (q1 ++ (q' ++ anonymousOf path fields 0)) with
        | none => rw [hd] at h; cases h
        | some slots1 =>
          rw [hd] at h
          simp only [Option.some.injEq] at h
          obtain ⟨m, slots', hm, hq, hs⟩ := ih k _ _ hd
          refine ⟨m, slots', by simp; omega, ?_, ?_⟩
          · simpa [embeddedIn, hf, List.append_assoc] using hq
          · rw [← h, hs]
            simp [declaredIn, hf]

/-- The dispatch order of the walker is the breadth-first order. -/
theorem dispatchOrder_level :
    ∀ (n : Nat) (q : Queue) (slots : List Slot), dispatchOrder n q = some slots →
      ∀ depth : Nat, n ≤ depth → levelOrder depth q = slots := by
  intro n
  induction n using Nat.strong_induction_on with
  | _ n ih =>
    intro q slots h depth hd
    cases q with
    | nil =>
      simp only [dispatchOrder, Option.some.injEq] at h
      rw [levelOrder_nil, h]
    | cons a q1 =>
      obtain ⟨m, slots', hm, hq, hs⟩ := dispatchOrder_front (a :: q1) n [] slots
        (by simpa using h)
      simp only [List.length_cons, List.nil_append] at hm hq
      cases depth with
      | zero => omega
      | succ d =>
        rw [levelOrder, ih m (by omega) _ _ hq d (by omega), hs]

end StructInitializer

namespace StructInitializer

/-! ## Typing -/

theorem hasTypes_cons_iff (v : Val) (vs : List Val) (n : String) (t : Ty) (tag : StructTag)
    (a : Bool) (fs : List StructField) :
    HasTypes (v :: vs) (.mk n t tag a :: fs) ↔ v.HasType t ∧ HasTypes vs fs := by
  rw [HasTypes]

theorem hasTypes_cons_inv {post : List Val} {n : String} {t : Ty} {tag : StructTag}
    {a : Bool} {fs : List StructField} (h : HasTypes post (.mk n t tag a :: fs)) :
    ∃ v post', post = v :: post' ∧ v.HasType t ∧ HasTypes post' fs := by
  cases post with
  | nil => simp [HasTypes] at h
  | cons v post' => exact ⟨v, post', rfl, (hasTypes_cons_iff _ _ _ _ _ _ _).1 h⟩

theorem hasType_struct_inv {v : Val} {name : String} {fs : List StructField}
    (h : v.HasType (.struct name fs)) : ∃ vs, v = .struct vs ∧ HasTypes vs fs := by
  cases v <;> simp [Val.HasType] at h
  exact ⟨_, rfl, h⟩

theorem hasType_struct_iff (vs : List Val) (name : String) (fs : List StructField) :
    (Val.struct vs).HasType (.struct name fs) ↔ HasTypes vs fs := by
  rw [Val.HasType]

theorem kind_struct_inv {t : Ty} (h : t.Kind = Kind.Struct) :
    ∃ name fields, t = .struct name fields := by
  cases t with
  | struct name fields => exact ⟨name, fields, rfl⟩
  | int k => cases k <;> simp [Ty.Kind, IntKind.Kind] at h
  | uint k => cases k <;> simp [Ty.Kind, UintKind.Kind] at h
  | other k => cases k <;> simp [Ty.Kind, OtherKind.Kind] at h
  | string => simp [Ty.Kind] at h
  | ptr e => simp [Ty.Kind] at h

/-- Induction over the fields of a struct that enters anonymous structs. -/
theorem fields_induction {motive : List StructField → Prop}
    (nil : motive [])
    (named : ∀ (n : String) (t : Ty) (tag : StructTag) (rest : List StructField),
      motive rest → motive (.mk n t tag false :: rest))
    (embedded : ∀ (n name : String) (fs : List StructField) (tag : StructTag)
      (rest : List StructField), motive fs → motive rest →
      motive (.mk n (.struct name fs) tag true :: rest))
    (stray : ∀ (n : String) (t : Ty) (tag : StructTag) (rest : List StructField),
      t.Kind ≠ Kind.Struct → motive rest → motive (.mk n t tag true :: rest)) :
    ∀ fields : List StructField, motive fields := by
  have key : ∀ (k : Nat) (fields : List StructField), sizeFields fields ≤ k →
      motive fields := by
    intro k
    induction k with
    | zero =>
      intro fields h
      cases fields with
      | nil => exact nil
      | cons f rest => simp [sizeFields, sizeField_eq] at h
    | succ k ih =>
      intro fields h
      cases fields with
      | nil => exact nil
      | cons f rest =>
        obtain ⟨n, t, tag, anon⟩ := f
        simp only [sizeFields, sizeField] at h
        have hrest : motive rest := ih rest (by omega)
        cases anon with
        | false => exact named n t tag rest hrest
        | true =>
          by_cases hk : t.Kind = Kind.Struct
          · obtain ⟨name, fs, rfl⟩ := kind_struct_inv hk
            simp only [Ty.size] at h
            exact embedded n name fs tag rest (ih fs (by omega)) hrest
          · exact stray n t tag rest hk hrest
  exact fun fields => key _ fields (le_refl _)

end StructInitializer

namespace StructInitializer

/-! ## The slots of a struct -/

theorem slotsOf_of_not_struct {t : Ty} (h : t.Kind ≠ Kind.Struct) : slotsOf t = [] := by
  cases t with
  | struct name fields => exact absurd rfl h
  | _ => simp [slotsOf]

theorem slotsOfFields_cons_stray (n : String) (t : Ty) (tag : StructTag)
    (rest : List StructField) (i : Nat) (h : t.Kind ≠ Kind.Struct) :
    slotsOfFields (.mk n t tag true :: rest) i = slotsOfFields rest (i + 1) := by
  rw [slotsOfFields_cons_anonymous, slotsOf_of_not_struct h]
  rfl

theorem slotsOfFields_cons_embedded (n name : String) (fs : List StructField)
    (tag : StructTag) (rest : List StructField) (i : Nat) :
    slotsOfFields (.mk n (.struct name fs) tag true :: rest) i =
      (slotsOfFields fs 0).map (fun s => (i :: s.1, s.2)) ++
        slotsOfFields rest (i + 1) := by
  rw [slotsOfFields_cons_anonymous, slotsOf_struct]

theorem slotsOfFields_head :
    ∀ (fields : List StructField) (i : Nat), ∀ s ∈ slotsOfFields fields i,
      ∃ j p, s.1 = j :: p ∧ i ≤ j := by
  intro fields
  induction fields with
  | nil => intro i s hs; simp [slotsOfFields_nil] at hs
  | cons f rest ih =>
    intro i s hs
    obtain ⟨n, t, tag, anon⟩ := f
    cases anon with
    | false =>
      rw [slotsOfFields_cons_named] at hs
      rcases List.mem_cons.1 hs with h | h
      · exact ⟨i, [], by rw [h], le_refl _⟩
      · obtain ⟨j, p, hj, hle⟩ := ih (i + 1) s h
        exact ⟨j, p, hj, by omega⟩
    | true =>
      rw [slotsOfFields_cons_anonymous] at hs
      rcases List.mem_append.1 hs with h | h
      · obtain ⟨s0, _, rfl⟩ := List.mem_map.1 h
        exact ⟨i, s0.1, rfl, le_refl _⟩
      · obtain ⟨j, p, hj, hle⟩ := ih (i + 1) s h
        exact ⟨j, p, hj, by omega⟩

/-- The slots of a struct are pairwise disjoint parts of it. -/
theorem slotsOfFields_pairwise :
    ∀ (fields : List StructField) (i : Nat),
      (slotsOfFields fields i).Pairwise (fun s s' => Apart s.1 s'.1) := by
  intro fields
  induction fields using fields_induction with
  | nil => intro i; rw [slotsOfFields_nil]; exact List.Pairwise.nil
  | named n t tag rest ih =>
    intro i
    rw [slotsOfFields_cons_named]
    refine List.Pairwise.cons ?_ (ih (i + 1))
    intro s hs
    obtain ⟨j, p, hj, hle⟩ := slotsOfFields_head rest (i + 1) s hs
    rw [hj]
    exact apart_cons_of_ne (by omega) _ _
  | embedded n name fs tag rest ihfs ih =>
    intro i
    rw [slotsOfFields_cons_embedded, List.pairwise_append]
    refine ⟨?_, ih (i + 1), ?_⟩
    · rw [List.pairwise_map]
      exact (ihfs 0).imp (fun h => (apart_cons_cons i _ _).2 h)
    · intro a ha b hb
      obtain ⟨s0, _, rfl⟩ := List.mem_map.1 ha
      obtain ⟨j, p, hj, hle⟩ := slotsOfFields_head rest (i + 1) b hb
      rw [hj]
      exact apart_cons_of_ne (by omega) _ _
  | stray n t tag rest hk ih =>
    intro i
    rw [slotsOfFields_cons_stray _ _ _ _ _ hk]
    exact ih (i + 1)

theorem slotsOfFields_size :
    ∀ (fields : List StructField) (i : Nat), ∀ s ∈ slotsOfFields fields i,
      s.2.Typ.size + 1 ≤ sizeFields fields := by
  intro fields
  induction fields using fields_induction with
  | nil => intro i s hs; simp [slotsOfFields_nil] at hs
  | named n t tag rest ih =>
    intro i s hs
    rw [slotsOfFields_cons_named] at hs
    simp only [sizeFields, sizeField]
    rcases List.mem_cons.1 hs with h | h
    · rw [h]; simp only [StructField.Typ]; omega
    · have := ih (i + 1) s h; omega
  | embedded n name fs tag rest ihfs ih =>
    intro i s hs
    rw [slotsOfFields_cons_embedded] at hs
    simp only [sizeFields, sizeField, Ty.size]
    rcases List.mem_append.1 hs with h | h
    · obtain ⟨s0, hs0, rfl⟩ := List.mem_map.1 h
      have := ihfs 0 s0 hs0
      simp only at this ⊢
      omega
    · have := ih (i + 1) s h; omega
  | stray n t tag rest hk ih =>
    intro i s hs
    rw [slotsOfFields_cons_stray _ _ _ _ _ hk] at hs
    simp only [sizeFields, sizeField]
    have := ih (i + 1) s hs; omega

theorem safeFields_cons (self : Initialiser) (f : StructField) (rest : List StructField) :
    self.safeFields (f :: rest) = (self.safeField f && self.safeFields rest) := by
  rw [Initialiser.safeFields]

theorem safeField_named (self : Initialiser) (n : String) (t : Ty) (tag : StructTag) :
    self.safeField (.mk n t tag false) = self.safe t (tag.Get self.config.TagName) := by
  rw [Initialiser.safeField]; simp

theorem safeField_anonymous (self : Initialiser) (n : String) (t : Ty) (tag : StructTag) :
    self.safeField (.mk n t tag true) =
      (decide (t.Kind = Kind.Struct) && self.safe t "") := by
  rw [Initialiser.safeField]; simp

theorem safe_struct (self : Initialiser) (name : String) (fs : List StructField)
    (tag : String) : self.safe (.struct name fs) tag = self.safeFields fs := by
  rw [Initialiser.safe]

theorem getElem?_length_append_cons (pre post : List Val) (v : Val) :
    (pre ++ v :: post)[pre.length]? = some v := by
  induction pre with
  | nil => simp
  | cons a pre ih => simpa using ih

/-- Each slot of a well-typed struct holds a value of the slot's type, and the
walk below each slot of a safe struct is safe. -/
theorem slotsOfFields_typed (self : Initialiser) :
    ∀ (fields : List StructField) (i : Nat) (pre post : List Val), pre.length = i →
      HasTypes post fields → self.safeFields fields = true →
      ∀ s ∈ slotsOfFields fields i,
        s.2.Anonymous = false ∧
        self.safe s.2.Typ (s.2.Tag.Get self.config.TagName) = true ∧
        ∃ v, Val.get s.1 (.struct (pre ++ post)) = some v ∧ v.HasType s.2.Typ := by
  intro fields
  induction fields using fields_induction with
  | nil => intro i pre post _ _ _ s hs; simp [slotsOfFields_nil] at hs
  | named n t tag rest ih =>
    intro i pre post hlen hty hsafe s hs
    obtain ⟨v, post', rfl, hv, hrest⟩ := hasTypes_cons_inv hty
    rw [safeFields_cons, safeField_named, Bool.and_eq_true] at hsafe
    rw [slotsOfFields_cons_named] at hs
    rcases List.mem_cons.1 hs with h | h
    · subst h
      refine ⟨rfl, hsafe.1, v, ?_, hv⟩
      subst hlen
      simp only [Val.get, getElem?_length_append_cons]
    · have := ih (i + 1) (pre ++ [v]) post' (by simp [hlen]) hrest hsafe.2 s h
      simpa using this
  | embedded n name fs tag rest ihfs ih =>
    intro i pre post hlen hty hsafe s hs
    obtain ⟨v, post', rfl, hv, hrest⟩ := hasTypes_cons_inv hty
    obtain ⟨vs, rfl, hvs⟩ := hasType_struct_inv hv
    rw [safeFields_cons, safeField_anonymous, Bool.and_eq_true, Bool.and_eq_true,
      safe_struct] at hsafe
    rw [slotsOfFields_cons_embedded] at hs
    rcases List.mem_append.1 hs with h | h
    · obtain ⟨s0, hs0, rfl⟩ := List.mem_map.1 h
      obtain ⟨h1, h2, w, hw, hwt⟩ := ihfs 0 [] vs rfl hvs hsafe.1.2 s0 hs0
      refine ⟨h1, h2, w, ?_, hwt⟩
      subst hlen
      simp only [Val.get, getElem?_length_append_cons]
      simpa using hw
    · have := ih (i + 1) (pre ++ [Val.struct vs]) post' (by simp [hlen]) hrest hsafe.2 s h
      simpa using this
  | stray n t tag rest hk ih =>
    intro i pre post hlen hty hsafe s hs
    rw [safeFields_cons, safeField_anonymous, Bool.and_eq_true, Bool.and_eq_true] at hsafe
    exact absurd (of_decide_eq_true hsafe.1.1) hk

end StructInitializer

namespace StructInitializer

/-! ## The zero value is well typed -/

theorem inIntRange_zero (k : IntKind) : inIntRange k.bits 0 := by
  cases k <;> simp [inIntRange, IntKind.bits]

mutual
theorem Ty.zero_hasType : ∀ t : Ty, t.zero.HasType t
  | .int k => by rw [Ty.zero, Val.HasType]; exact inIntRange_zero k
  | .uint k => by rw [Ty.zero, Val.HasType]; exact Nat.pos_pow_of_pos _ (by decide)
  | .string => by rw [Ty.zero, Val.HasType]; trivial
  | .ptr e => by rw [Ty.zero, Val.HasType]; trivial
  | .other k => by rw [Ty.zero, Val.HasType]; trivial
  | .struct name fields => by
    rw [Ty.zero, Val.HasType]
    exact zeroFields_hasTypes fields
theorem zeroFields_hasTypes : ∀ fs : List StructField, HasTypes (zeroFields fs) fs
  | [] => by rw [zeroFields, HasTypes]; trivial
  | .mk n t tag a :: rest => by
    rw [zeroFields, zeroField, HasTypes]
    exact ⟨Ty.zero_hasType t, zeroFields_hasTypes rest⟩
end

/-! ## Filling the slots of a struct -/

theorem updateAt_id : ∀ (i : Nat) (vs : List Val), updateAt (fun v => v) i vs = vs := by
  intro i
  induction i with
  | zero => intro vs; cases vs <;> simp [updateAt]
  | succ i ih => intro vs; cases vs <;> simp [updateAt, ih]

theorem fillSlots_nil (self : Initialiser) (root : Val) : self.fillSlots [] root = root :=
  rfl

theorem fillSlots_cons (self : Initialiser) (s : Slot) (slots : List Slot) (root : Val) :
    self.fillSlots (s :: slots) root = self.fillSlots slots (self.fillSlot s root) := rfl

theorem fillSlots_append (self : Initialiser) (a b : List Slot) (root : Val) :
    self.fillSlots (a ++ b) root = self.fillSlots b (self.fillSlots a root) := by
  simp [Initialiser.fillSlots, List.foldl_append]

theorem fillSlots_map_cons (self : Initialiser) (i : Nat) :
    ∀ (slots : List Slot) (vs : List Val),
      self.fillSlots (slots.map (fun s => (i :: s.1, s.2))) (.struct vs) =
        .struct (updateAt (self.fillSlots slots) i vs) := by
  intro slots
  induction slots with
  | nil =>
    intro vs
    simp only [List.map_nil, fillSlots_nil]
    rw [show self.fillSlots [] = fun v => v from rfl, updateAt_id]
  | cons s slots ih =>
    intro vs
    simp only [List.map_cons, fillSlots_cons]
    rw [show self.fillSlot (i :: s.1, s.2) (.struct vs) =
        .struct (updateAt (self.fillSlot s) i vs) from rfl, ih, updateAt_updateAt]
    rfl

theorem fillFields_cons (self : Initialiser) (f : StructField) (fs : List StructField)
    (v : Val) (vs : List Val) :
    self.fillFields (f :: fs) (v :: vs) = self.fillField f v :: self.fillFields fs vs := by
  rw [Initialiser.fillFields]

theorem fillFields_nil (self : Initialiser) (vs : List Val) :
    self.fillFields [] vs = vs := by
  rw [Initialiser.fillFields]
  intro f fs v vs' h
  cases h

theorem fillField_named (self : Initialiser) (n : String) (t : Ty) (tag : StructTag)
    (v : Val) :
    self.fillField (.mk n t tag false) v = self.fill t (tag.Get self.config.TagName) v := by
  rw [Initialiser.fillField]; simp

theorem fillField_anonymous (self : Initialiser) (n : String) (t : Ty) (tag : StructTag)
    (v : Val) : self.fillField (.mk n t tag true) v = self.fill t "" v := by
  rw [Initialiser.fillField]; simp

theorem fill_struct (self : Initialiser) (name : String) (fs : List StructField)
    (tag : String) (vs : List Val) :
    self.fill (.struct name fs) tag (.struct vs) = .struct (self.fillFields fs vs) := by
  rw [Initialiser.fill]

/-- Filling the slots of a struct one after the other, in declaration order,
gives the struct described by `fillFields`. -/
theorem fillSlots_slotsOfFields (self : Initialiser) :
    ∀ (fields : List StructField) (pre post : List Val),
      HasTypes post fields → self.safeFields fields = true →
      self.fillSlots (slotsOfFields fields pre.length) (.struct (pre ++ post)) =
        .struct (pre ++ self.fillFields fields post) := by
  intro fields
  induction fields using fields_induction with
  | nil =>
    intro pre post _ _
    rw [slotsOfFields_nil, fillSlots_nil, fillFields_nil]
  | named n t tag rest ih =>
    intro pre post hty hsafe
    obtain ⟨v, post', rfl, hv, hrest⟩ := hasTypes_cons_inv hty
    rw [safeFields_cons, Bool.and_eq_true] at hsafe
    rw [slotsOfFields_cons_named, fillSlots_cons, fillFields_cons, fillField_named]
    have h1 : self.fillSlot ([pre.length], .mk n t tag false) (.struct (pre ++ v :: post')) =
        .struct ((pre ++ [self.fill t (tag.Get self.config.TagName) v]) ++ post') := by
      simp only [Initialiser.fillSlot, Val.modify, StructField.Typ, StructField.Tag]
      rw [updateAt_length_append]
      simp
    rw [h1]
    have := ih (pre ++ [self.fill t (tag.Get self.config.TagName) v]) post' hrest hsafe.2
    simp only [List.length_append, List.length_singleton] at this
    rw [this]
    simp
  | embedded n name fs tag rest ihfs ih =>
    intro pre post hty hsafe
    obtain ⟨v, post', rfl, hv, hrest⟩ := hasTypes_cons_inv hty
    obtain ⟨vs, rfl, hvs⟩ := hasType_struct_inv hv
    rw [safeFields_cons, safeField_anonymous, Bool.and_eq_true, Bool.and_eq_true,
      safe_struct] at hsafe
    rw [slotsOfFields_cons_embedded, fillSlots_append, fillSlots_map_cons,
      updateAt_length_append, fillFields_cons, fillField_anonymous, fill_struct]
    have h0 := ihfs [] vs hvs hsafe.1.2
    simp only [List.length_nil, List.nil_append] at h0
    rw [h0]
    have := ih (pre ++ [Val.struct (self.fillFields fs vs)]) post' hrest hsafe.2
    simp only [List.length_append, List.length_singleton, List.append_assoc,
      List.singleton_append] at this
    exact this
  | stray n t tag rest hk ih =>
    intro pre post hty hsafe
    rw [safeFields_cons, safeField_anonymous, Bool.and_eq_true, Bool.and_eq_true] at hsafe
    exact absurd (of_decide_eq_true hsafe.1.1) hk

end StructInitializer

namespace StructInitializer

/-! ## Failing slots -/

theorem failsFields_cons (self : Initialiser) (f : StructField) (rest : List StructField) :
    self.failsFields (f :: rest) = (self.failsField f || self.failsFields rest) := by
  rw [Initialiser.failsFields]

theorem failsField_named (self : Initialiser) (n : String) (t : Ty) (tag : StructTag) :
    self.failsField (.mk n t tag false) = self.fails t (tag.Get self.config.TagName) := by
  rw [Initialiser.failsField]; simp

theorem failsField_anonymous (self : Initialiser) (n : String) (t : Ty) (tag : StructTag) :
    self.failsField (.mk n t tag true) = self.fails t "" := by
  rw [Initialiser.failsField]; simp

theorem fails_struct (self : Initialiser) (name : String) (fs : List StructField)
    (tag : String) : self.fails (.struct name fs) tag = self.failsFields fs := by
  rw [Initialiser.fails]

/-- A struct fails exactly when one of its slots does. -/
theorem failsFields_iff (self : Initialiser) :
    ∀ (fields : List StructField) (i : Nat), self.safeFields fields = true →
      (self.failsFields fields = true ↔
        ∃ s ∈ slotsOfFields fields i,
          self.fails s.2.Typ (s.2.Tag.Get self.config.TagName) = true) := by
  intro fields
  induction fields using fields_induction with
  | nil =>
    intro i _
    rw [slotsOfFields_nil, Initialiser.failsFields]
    simp
  | named n t tag rest ih =>
    intro i hsafe
    rw [safeFields_cons, Bool.and_eq_true] at hsafe
    rw [slotsOfFields_cons_named, failsFields_cons, failsField_named, Bool.or_eq_true,
      ih (i + 1) hsafe.2]
    simp [StructField.Typ, StructField.Tag]
  | embedded n name fs tag rest ihfs ih =>
    intro i hsafe
    rw [safeFields_cons, safeField_anonymous, Bool.and_eq_true, Bool.and_eq_true,
      safe_struct] at hsafe
    rw [slotsOfFields_cons_embedded, failsFields_cons, failsField_anonymous, fails_struct,
      Bool.or_eq_true, ih (i + 1) hsafe.2, ihfs 0 hsafe.1.2]
    simp only [List.mem_append, List.mem_map]
    constructor
    · rintro (⟨s, hs, hf⟩ | ⟨s, hs, hf⟩)
      · exact ⟨(i :: s.1, s.2), Or.inl ⟨s, hs, rfl⟩, hf⟩
      · exact ⟨s, Or.inr hs, hf⟩
    · rintro ⟨s, (⟨s0, hs0, rfl⟩ | hs), hf⟩
      · exact Or.inl ⟨s0, hs0, hf⟩
      · exact Or.inr ⟨s, hs, hf⟩
  | stray n t tag rest hk ih =>
    intro i hsafe
    rw [safeFields_cons, safeField_anonymous, Bool.and_eq_true, Bool.and_eq_true] at hsafe
    exact absurd (of_decide_eq_true hsafe.1.1) hk

/-! ## The dispatch order exists for a safe struct -/

theorem anonymousOf_safe (self : Initialiser) (path : List Nat) :
    ∀ (fields : List StructField) (i : Nat), self.safeFields fields = true →
      ∀ h ∈ anonymousOf path fields i,
        h.2.Kind = Kind.Struct ∧ self.safe h.2 "" = true := by
  intro fields
  induction fields with
  | nil => intro i _ h hh; simp [anonymousOf] at hh
  | cons f rest ih =>
    intro i hsafe h hh
    obtain ⟨n, t, tag, anon⟩ := f
    rw [safeFields_cons, Bool.and_eq_true] at hsafe
    cases anon with
    | false =>
      simp only [anonymousOf, StructField.Anonymous, Bool.false_eq_true, if_false] at hh
      exact ih (i + 1) hsafe.2 h hh
    | true =>
      simp only [anonymousOf, StructField.Anonymous, if_true, List.mem_cons] at hh
      rcases hh with rfl | hh
      · rw [safeField_anonymous, Bool.and_eq_true] at hsafe
        exact ⟨of_decide_eq_true hsafe.1.1, hsafe.1.2⟩
      · exact ih (i + 1) hsafe.2 h hh

theorem dispatchOrder_isSome (self : Initialiser) :
    ∀ (fuel : Nat) (structs : Queue),
      (∀ h ∈ structs, h.2.Kind = Kind.Struct ∧ self.safe h.2 "" = true) →
      queueSize structs ≤ fuel → ∃ slots, dispatchOrder fuel structs = some slots := by
  intro fuel
  induction fuel with
  | zero =>
    intro structs _ hq
    cases structs with
    | nil => exact ⟨[], rfl⟩
    | cons a rest =>
      obtain ⟨p, t⟩ := a
      have := Ty.size_pos t
      simp only [queueSize] at hq
      omega
  | succ n ih =>
    intro structs hs hq
    cases structs with
    | nil => exact ⟨[], rfl⟩
    | cons a rest =>
      obtain ⟨p, t⟩ := a
      obtain ⟨hk, hsafe⟩ := hs (p, t) (List.mem_cons_self _ _)
      obtain ⟨name, fields, rfl⟩ := kind_struct_inv hk
      rw [safe_struct] at hsafe
      have hq' : queueSize (rest ++ anonymousOf p fields 0) ≤ n := by
        have := queueSize_anonymousOf p fields 0
        simp only [queueSize, Ty.size] at hq
        rw [queueSize_append]
        omega
      obtain ⟨slots, hslots⟩ := ih (rest ++ anonymousOf p fields 0) (by
        intro h hh
        rcases List.mem_append.1 hh with h1 | h1
        · exact hs h (List.mem_cons_of_mem _ h1)
        · exact anonymousOf_safe self p fields 0 hsafe h h1) hq'
      exact ⟨namedOf p fields 0 ++ slots, by simp [dispatchOrder, Ty.fields?, hslots]⟩

/-! ## Dispatching disjoint slots -/

theorem fillSlot_comm (self : Initialiser) (x y : Slot) (h : Apart x.1 y.1) (z : Val) :
    self.fillSlot y (self.fillSlot x z) = self.fillSlot x (self.fillSlot y z) :=
  Val.modify_comm _ _ y.1 x.1 z h.symm

theorem fillSlots_perm (self : Initialiser) {a b : List Slot} (h : a.Perm b)
    (hp : a.Pairwise (fun s s' => Apart s.1 s'.1)) (root : Val) :
    self.fillSlots a root = self.fillSlots b root := by
  unfold Initialiser.fillSlots
  refine h.foldl_eq' ?_ root
  intro x hx y hy z
  by_cases hxy : x = y
  · rw [hxy]
  · exact fillSlot_comm self x y (hp.forall (fun _ _ h => h.symm) hx hy hxy) z

theorem all_congr_mem {α : Type} (l : List α) (f g : α → Bool)
    (h : ∀ x ∈ l, f x = g x) : l.all f = l.all g := by
  induction l with
  | nil => rfl
  | cons a rest ih =>
    rw [List.all_cons, List.all_cons, h a (List.mem_cons_self _ _),
      ih (fun x hx => h x (List.mem_cons_of_mem _ hx))]

theorem perm_all_eq {α : Type} {l l' : List α} (h : l.Perm l') (f : α → Bool) :
    l.all f = l'.all f := by
  rw [Bool.eq_iff_iff, List.all_eq_true, List.all_eq_true]
  exact ⟨fun hl x hx => hl x (h.mem_iff.2 hx), fun hl x hx => hl x (h.mem_iff.1 hx)⟩

/-- Dispatching pairwise disjoint, well-typed slots with a callback whose
result is known: the walker panics when the dispatch of a slot panics, and
otherwise fills the slots and collects the callback's errors in order. -/
theorem dispatchAll_run (rec : Dispatch) (self : Initialiser) (stackName : String)
    (ro : Bool) (err : Slot → Option Error) :
    ∀ (slots : List Slot) (root : Val) (errors : List Error),
      slots.Pairwise (fun s s' => Apart s.1 s'.1) →
      (∀ sl ∈ slots, ∃ v, Val.get sl.1 root = some v ∧ v.HasType sl.2.Typ) →
      (∀ sl ∈ slots, ∀ v : Val, v.HasType sl.2.Typ →
        rec (fieldPath stackName sl.2.Name) (sl.2.Tag.Get self.config.TagName)
            ⟨sl.2.Typ, v, ro || !isExported sl.2.Name⟩ =
          if self.runs (ro || !isExported sl.2.Name) sl.2.Typ
              (sl.2.Tag.Get self.config.TagName) v = true then
            .ret (self.fill sl.2.Typ (sl.2.Tag.Get self.config.TagName) v, err sl)
          else .panic) →
      dispatchAll rec self stackName ro slots root errors =
        if slots.all (self.slotRuns ro root) = true then
          .ret (self.fillSlots slots root,
            errors ++ slots.flatMap (fun sl => (err sl).toList))
        else .panic := by
  intro slots
  induction slots with
  | nil => intro root errors _ _ _; simp [dispatchAll, fillSlots_nil]
  | cons sl rest ih =>
    intro root errors hp hty hrec
    obtain ⟨p, f⟩ := sl
    obtain ⟨v, hv, hvt⟩ := hty (p, f) (List.mem_cons_self _ _)
    rw [List.pairwise_cons] at hp
    have hslot : self.slotRuns ro root (p, f) =
        self.runs (ro || !isExported f.Name) f.Typ (f.Tag.Get self.config.TagName) v := by
      simp only [Initialiser.slotRuns, hv]
    simp only [dispatchAll, hv]
    rw [hrec (p, f) (List.mem_cons_self _ _) v hvt, List.all_cons, hslot]
    cases hr : self.runs (ro || !isExported f.Name) f.Typ (f.Tag.Get self.config.TagName) v
      with
    | false => simp
    | true =>
      simp only [if_true, Bool.true_and]
      rw [Val.set_eq_modify _ p root v hv]
      rw [ih _ _ hp.2 ?_ (fun sl hsl => hrec sl (List.mem_cons_of_mem _ hsl))]
      · have hall : rest.all (self.slotRuns ro
            (Val.modify p (self.fill f.Typ (f.Tag.Get self.config.TagName)) root)) =
            rest.all (self.slotRuns ro root) := by
          apply all_congr_mem
          intro sl hsl
          simp only [Initialiser.slotRuns]
          rw [Val.get_modify_apart _ sl.1 p root (hp.1 sl hsl).symm]
        rw [hall]
        simp [fillSlots_cons, Initialiser.fillSlot, List.append_assoc]
      · intro sl hsl
        obtain ⟨w, hw, hwt⟩ := hty sl (List.mem_cons_of_mem _ hsl)
        refine ⟨w, ?_, hwt⟩
        rw [Val.get_modify_apart _ sl.1 p root (hp.1 sl hsl).symm]
        exact hw

/-! ## Runs that return, slot by slot -/

theorem runsFields_cons (self : Initialiser) (ro : Bool) (f : StructField)
    (fs : List StructField) (v : Val) (vs : List Val) :
    self.runsFields ro (f :: fs) (v :: vs) =
      (self.runsField ro f v && self.runsFields ro fs vs) := by
  rw [Initialiser.runsFields]

theorem runsFields_nil (self : Initialiser) (ro : Bool) (vs : List Val) :
    self.runsFields ro [] vs = true := by
  rw [Initialiser.runsFields]
  intro f fs v vs' h
  cases h

theorem runsField_named (self : Initialiser) (ro : Bool) (n : String) (t : Ty)
    (tag : StructTag) (v : Val) :
    self.runsField ro (.mk n t tag false) v =
      self.runs (ro || !isExported n) t (tag.Get self.config.TagName) v := by
  rw [Initialiser.runsField]; simp

theorem runsField_anonymous (self : Initialiser) (ro : Bool) (n : String) (t : Ty)
    (tag : StructTag) (v : Val) :
    self.runsField ro (.mk n t tag true) v =
      (decide (t.Kind = Kind.Struct) && self.runs ro t "" v) := by
  rw [Initialiser.runsField]; simp

theorem runs_struct (self : Initialiser) (ro : Bool) (name : String)
    (fs : List StructField) (tag : String) (vs : List Val) :
    self.runs ro (.struct name fs) tag (.struct vs) = self.runsFields ro fs vs := by
  rw [Initialiser.runs]

theorem runs_ptr (self : Initialiser) (ro : Bool) (elem : Ty) (tag : String) (v : Val) :
    self.runs ro (.ptr elem) tag v =
      (!self.allocates elem tag ||
        (self.runs false elem tag elem.zero && (self.fails elem tag || !ro))) := by
  rw [Initialiser.runs]

theorem slotRuns_cons (self : Initialiser) (ro : Bool) (pre post : List Val) (v : Val)
    (s : Slot) :
    self.slotRuns ro (.struct (pre ++ v :: post)) (pre.length :: s.1, s.2) =
      self.slotRuns ro v s := by
  simp only [Initialiser.slotRuns, Val.get, getElem?_length_append_cons]

/-- The dispatches of a safe struct all return exactly when `runsFields` says
so. -/
theorem runsFields_slots (self : Initialiser) (ro : Bool) :
    ∀ (fields : List StructField) (pre post : List Val),
      HasTypes post fields → self.safeFields fields = true →
      (slotsOfFields fields pre.length).all (self.slotRuns ro (.struct (pre ++ post))) =
        self.runsFields ro fields post := by
  intro fields
  induction fields using fields_induction with
  | nil =>
    intro pre post _ _
    rw [slotsOfFields_nil, runsFields_nil]
    rfl
  | named n t tag rest ih =>
    intro pre post hty hsafe
    obtain ⟨v, post', rfl, hv, hrest⟩ := hasTypes_cons_inv hty
    rw [safeFields_cons, Bool.and_eq_true] at hsafe
    rw [slotsOfFields_cons_named, List.all_cons, runsFields_cons, runsField_named]
    have h1 : self.slotRuns ro (.struct (pre ++ v :: post'))
        ([pre.length], .mk n t tag false) =
        self.runs (ro || !isExported n) t (tag.Get self.config.TagName) v := by
      have := slotRuns_cons self ro pre post' v ([], .mk n t tag false)
      rw [this]
      rfl
    rw [h1]
    have := ih (pre ++ [v]) post' hrest hsafe.2
    simp only [List.length_append, List.length_singleton, List.append_assoc,
      List.singleton_append] at this
    rw [this]
  | embedded n name fs tag rest ihfs ih =>
    intro pre post hty hsafe
    obtain ⟨v, post', rfl, hv, hrest⟩ := hasTypes_cons_inv hty
    obtain ⟨vs, rfl, hvs⟩ := hasType_struct_inv hv
    rw [safeFields_cons, safeField_anonymous, Bool.and_eq_true, Bool.and_eq_true,
      safe_struct] at hsafe
    rw [slotsOfFields_cons_embedded, List.all_append, List.all_map, runsFields_cons,
      runsField_anonymous, runs_struct]
    have h0 := ihfs [] vs hvs hsafe.1.2
    simp only [List.length_nil, List.nil_append] at h0
    have h1 : (slotsOfFields fs 0).all
        ((self.slotRuns ro (.struct (pre ++ Val.struct vs :: post'))) ∘
          fun s => (pre.length :: s.1, s.2)) =
        (slotsOfFields fs 0).all (self.slotRuns ro (.struct vs)) := by
      apply all_congr_mem
      intro s _
      exact slotRuns_cons self ro pre post' (.struct vs) s
    rw [h1, h0]
    have := ih (pre ++ [Val.struct vs]) post' hrest hsafe.2
    simp only [List.length_append, List.length_singleton, List.append_assoc,
      List.singleton_append] at this
    rw [this]
    simp [Ty.Kind]
  | stray n t tag rest hk ih =>
    intro pre post hty hsafe
    rw [safeFields_cons, safeField_anonymous, Bool.and_eq_true, Bool.and_eq_true] at hsafe
    exact absurd (of_decide_eq_true hsafe.1.1) hk

end StructInitializer

namespace StructInitializer

/-! ## What a run does -/

theorem mergedError_isSome (errors : List Error) (stackName : String) :
    (mergedError errors stackName).isSome = true ↔ errors ≠ [] := by
  cases errors with
  | nil => simp [mergedError]
  | cons a rest => cases rest <;> simp [mergedError]

theorem relocate_nil (s : Slot) : relocate [] s = s := by
  simp [relocate]

theorem slotsUnder_root (name : String) (fields : List StructField) :
    slotsUnder ([], Ty.struct name fields) = slotsOfFields fields 0 := by
  simp only [slotsUnder, slotsOf_struct]
  rw [show relocate [] = id from funext relocate_nil, List.map_id]

theorem allocates_eq_true_iff (self : Initialiser) (elem : Ty) (tag : String) :
    self.allocates elem tag = true ↔
      tag ≠ "-" ∧ ¬ (tag = "" ∧ (elem.Kind ≠ Kind.Struct ∨
        ¬ self.checkStructHasDefaultValue elem = true)) := by
  unfold Initialiser.allocates
  by_cases h1 : tag = "-" <;> by_cases h2 : tag = "" <;>
    by_cases h3 : elem.Kind = Kind.Struct <;>
    cases h4 : self.checkStructHasDefaultValue elem <;> simp [h1, h2, h3]

theorem fill_ptr (self : Initialiser) (elem : Ty) (tag : String) (v : Val) :
    self.fill (.ptr elem) tag v =
      if (self.allocates elem tag && !self.fails elem tag) = true then
        .ptr (some (self.fill elem tag elem.zero))
      else v := by
  rw [Initialiser.fill]

theorem fails_ptr (self : Initialiser) (elem : Ty) (tag : String) :
    self.fails (.ptr elem) tag = (self.allocates elem tag && self.fails elem tag) := by
  rw [Initialiser.fails]

theorem safe_ptr (self : Initialiser) (elem : Ty) (tag : String) :
    self.safe (.ptr elem) tag = (!self.allocates elem tag || self.safe elem tag) := by
  rw [Initialiser.safe]

end StructInitializer

namespace StructInitializer

/-! ## The error of a run, read off the type -/

theorem errorFuel_int (self : Initialiser) (n : Nat) (s tag : String) (k : IntKind) :
    self.errorFuel (n + 1) s tag (.int k) =
      if tag ≠ "" ∧ ParseInt tag 64 = none then
        some ⟨ERROR_TYPE_CONVERSION_FAILED, "\"" ++ tag ++ "\" can't convert to int64", s⟩
      else none := by
  rw [Initialiser.errorFuel]

theorem errorFuel_uint (self : Initialiser) (n : Nat) (s tag : String) (k : UintKind) :
    self.errorFuel (n + 1) s tag (.uint k) =
      if tag ≠ "" ∧ ParseUint tag 64 = none then
        some ⟨ERROR_TYPE_CONVERSION_FAILED, "\"" ++ tag ++ "\" can't convert to uint64", s⟩
      else none := by
  rw [Initialiser.errorFuel]

theorem errorFuel_string (self : Initialiser) (n : Nat) (s tag : String) :
    self.errorFuel (n + 1) s tag .string = none := by
  rw [Initialiser.errorFuel]

theorem errorFuel_other (self : Initialiser) (n : Nat) (s tag : String) (k : OtherKind) :
    self.errorFuel (n + 1) s tag (.other k) =
      some ⟨ERROR_NOT_IMPLEMENT, "not implement", s⟩ := by
  rw [Initialiser.errorFuel]

theorem errorFuel_ptr (self : Initialiser) (n : Nat) (s tag : String) (elem : Ty) :
    self.errorFuel (n + 1) s tag (.ptr elem) =
      if self.allocates elem tag = true then self.errorFuel n s tag elem else none := by
  rw [Initialiser.errorFuel]

theorem errorFuel_struct (self : Initialiser) (n : Nat) (s tag name : String)
    (fields : List StructField) :
    self.errorFuel (n + 1) s tag (.struct name fields) =
      mergedError
        ((levelOrder (n + 1) [([], .struct name fields)]).flatMap (fun sl =>
          (self.errorFuel n (fieldPath s sl.2.Name) (sl.2.Tag.Get self.config.TagName)
            sl.2.Typ).toList)) s := by
  rw [Initialiser.errorFuel]

/-- The dispatch order of a safe struct: the breadth-first order, for every
depth that covers the type, a rearrangement of the slots of the struct. -/
theorem levelOrder_safe (self : Initialiser) (name : String) (fields : List StructField)
    (hsafe : self.safeFields fields = true) :
    ∃ slots : List Slot,
      dispatchOrder (Ty.struct name fields).size [([], Ty.struct name fields)] =
        some slots ∧
      (∀ depth : Nat, (Ty.struct name fields).size ≤ depth →
        levelOrder depth [([], Ty.struct name fields)] = slots) ∧
      slots.Perm (slotsOfFields fields 0) := by
  obtain ⟨slots, hslots⟩ := dispatchOrder_isSome self (Ty.struct name fields).size
    [([], Ty.struct name fields)]
    (by
      intro h hh
      rw [List.mem_singleton] at hh
      subst hh
      exact ⟨rfl, by rw [safe_struct]; exact hsafe⟩)
    (by simp [queueSize])
  refine ⟨slots, hslots, fun depth hd => dispatchOrder_level _ _ _ hslots depth hd, ?_⟩
  have := dispatchOrder_perm _ _ _ hslots
  simpa [slotsUnder_root] using this

/-- One more level of budget does not change the error, once the budget covers
the type. -/
theorem errorFuel_succ (self : Initialiser) :
    ∀ (n : Nat) (s tag : String) (typ : Ty), typ.size ≤ n → self.safe typ tag = true →
      self.errorFuel (n + 1) s tag typ = self.errorFuel n s tag typ := by
  intro n
  induction n with
  | zero =>
    intro s tag typ h
    have := Ty.size_pos typ
    omega
  | succ n ih =>
    intro s tag typ hsize hsafe
    cases typ with
    | int k => rw [errorFuel_int, errorFuel_int]
    | uint k => rw [errorFuel_uint, errorFuel_uint]
    | string => rw [errorFuel_string, errorFuel_string]
    | other k => rw [errorFuel_other, errorFuel_other]
    | ptr elem =>
      simp only [Ty.size] at hsize
      rw [safe_ptr] at hsafe
      rw [errorFuel_ptr, errorFuel_ptr]
      by_cases ha : self.allocates elem tag = true
      · rw [if_pos ha, if_pos ha]
        exact ih s tag elem (by omega) (by simpa [ha] using hsafe)
      · rw [if_neg ha, if_neg ha]
    | struct name fields =>
      rw [safe_struct] at hsafe
      obtain ⟨slots, _, hlevel, hperm⟩ := levelOrder_safe self name fields hsafe
      rw [errorFuel_struct, errorFuel_struct, hlevel _ (by omega), hlevel _ hsize]
      congr 1
      apply List.flatMap_congr
      intro sl hsl
      have hmem := hperm.mem_iff.1 hsl
      have hsz := slotsOfFields_size fields 0 sl hmem
      have hty := slotsOfFields_typed self fields 0 [] (zeroFields fields) rfl
        (zeroFields_hasTypes fields) hsafe sl hmem
      simp only [Ty.size] at hsize
      rw [ih _ _ sl.2.Typ (by omega) hty.2.1]

theorem errorFuel_eq (self : Initialiser) (s tag : String) (typ : Ty)
    (hsafe : self.safe typ tag = true) :
    ∀ n : Nat, typ.size ≤ n → self.errorFuel n s tag typ = self.errorOf s tag typ := by
  intro n hn
  induction n, hn using Nat.le_induction with
  | base => rfl
  | succ n hn ih => rw [errorFuel_succ self n s tag typ hn hsafe, ih]

theorem errorOf_int (self : Initialiser) (s tag : String) (k : IntKind) :
    self.errorOf s tag (.int k) =
      if tag ≠ "" ∧ ParseInt tag 64 = none then
        some ⟨ERROR_TYPE_CONVERSION_FAILED, "\"" ++ tag ++ "\" can't convert to int64", s⟩
      else none :=
  errorFuel_int self 0 s tag k

theorem errorOf_uint (self : Initialiser) (s tag : String) (k : UintKind) :
    self.errorOf s tag (.uint k) =
      if tag ≠ "" ∧ ParseUint tag 64 = none then
        some ⟨ERROR_TYPE_CONVERSION_FAILED, "\"" ++ tag ++ "\" can't convert to uint64", s⟩
      else none :=
  errorFuel_uint self 0 s tag k

theorem errorOf_string (self : Initialiser) (s tag : String) :
    self.errorOf s tag .string = none :=
  errorFuel_string self 0 s tag

theorem errorOf_other (self : Initialiser) (s tag : String) (k : OtherKind) :
    self.errorOf s tag (.other k) = some ⟨ERROR_NOT_IMPLEMENT, "not implement", s⟩ :=
  errorFuel_other self 0 s tag k

theorem errorOf_ptr (self : Initialiser) (s tag : String) (elem : Ty) :
    self.errorOf s tag (.ptr elem) =
      if self.allocates elem tag = true then self.errorOf s tag elem else none := by
  have h : (Ty.ptr elem).size = elem.size + 1 := by simp [Ty.size]; omega
  unfold Initialiser.errorOf
  rw [h, errorFuel_ptr]

/-- The error of a run on a struct does not depend on the tag. -/
theorem errorOf_struct_tag (self : Initialiser) (s tag tag' name : String)
    (fields : List StructField) :
    self.errorOf s tag (.struct name fields) = self.errorOf s tag' (.struct name fields) := by
  have h : (Ty.struct name fields).size = sizeFields fields + 1 := by
    simp [Ty.size]; omega
  unfold Initialiser.errorOf
  rw [h, errorFuel_struct, errorFuel_struct]

/-- The error of a run on a struct is the merge of the errors of its slots, in
breadth-first order. -/
theorem errorOf_struct_level (self : Initialiser) (s tag name : String)
    (fields : List StructField) (hsafe : self.safeFields fields = true) :
    self.errorOf s tag (.struct name fields) =
      mergedError
        ((levelOrder (Ty.struct name fields).size [([], Ty.struct name fields)]).flatMap
          (fun sl => (self.errorOf (fieldPath s sl.2.Name)
            (sl.2.Tag.Get self.config.TagName) sl.2.Typ).toList)) s := by
  obtain ⟨slots, _, hlevel, hperm⟩ := levelOrder_safe self name fields hsafe
  have h : (Ty.struct name fields).size = sizeFields fields + 1 := by
    simp [Ty.size]; omega
  have h0 : self.errorOf s tag (.struct name fields) =
      self.errorFuel (sizeFields fields + 1) s tag (.struct name fields) := by
    unfold Initialiser.errorOf
    rw [h]
  rw [h0, errorFuel_struct, hlevel _ (by omega), hlevel _ (le_refl _)]
  congr 1
  apply List.flatMap_congr
  intro sl hsl
  have hmem := hperm.mem_iff.1 hsl
  have hsz := slotsOfFields_size fields 0 sl hmem
  have hty := slotsOfFields_typed self fields 0 [] (zeroFields fields) rfl
    (zeroFields_hasTypes fields) hsafe sl hmem
  rw [errorFuel_eq self _ _ sl.2.Typ hty.2.1 _ (by omega)]

/-- The error of a run on a struct is the merge of the errors of its slots, in
the dispatch order of the walker. -/
theorem errorOf_struct (self : Initialiser) (s tag : String) (name : String)
    (fields : List StructField) (hsafe : self.safeFields fields = true) :
    ∃ slots : List Slot,
      dispatchOrder (Ty.struct name fields).size [([], Ty.struct name fields)] =
        some slots ∧
      self.errorOf s tag (.struct name fields) =
        mergedError (slots.flatMap (fun sl =>
          (self.errorOf (fieldPath s sl.2.Name) (sl.2.Tag.Get self.config.TagName)
            sl.2.Typ).toList)) s := by
  obtain ⟨slots, hslots, hlevel, _⟩ := levelOrder_safe self name fields hsafe
  refine ⟨slots, hslots, ?_⟩
  rw [errorOf_struct_level self s tag name fields hsafe, hlevel _ (le_refl _)]

/-- A run on a safe type returns an error exactly when `fails` says so. -/
theorem errorOf_isSome (self : Initialiser) :
    ∀ (n : Nat) (s tag : String) (typ : Ty), typ.size ≤ n → self.safe typ tag = true →
      (self.errorOf s tag typ).isSome = self.fails typ tag := by
  intro n
  induction n with
  | zero =>
    intro s tag typ h
    have := Ty.size_pos typ
    omega
  | succ n ih =>
    intro s tag typ hsize hsafe
    cases typ with
    | int k =>
      rw [errorOf_int]
      by_cases htag : tag = ""
      · simp [Initialiser.fails, htag]
      · cases hp : ParseInt tag 64 <;> simp [Initialiser.fails, htag, hp]
    | uint k =>
      rw [errorOf_uint]
      by_cases htag : tag = ""
      · simp [Initialiser.fails, htag]
      · cases hp : ParseUint tag 64 <;> simp [Initialiser.fails, htag, hp]
    | string => rw [errorOf_string]; simp [Initialiser.fails]
    | other k => rw [errorOf_other]; simp [Initialiser.fails]
    | ptr elem =>
      simp only [Ty.size] at hsize
      rw [safe_ptr] at hsafe
      rw [errorOf_ptr, fails_ptr]
      by_cases ha : self.allocates elem tag = true
      · rw [if_pos ha, ha, Bool.true_and]
        exact ih s tag elem (by omega) (by simpa [ha] using hsafe)
      · rw [if_neg ha]
        simp [ha]
    | struct name fields =>
      rw [safe_struct] at hsafe
      obtain ⟨slots, hslots, herr⟩ := errorOf_struct self s tag name fields hsafe
      obtain ⟨slots', hslots', _, hperm⟩ := levelOrder_safe self name fields hsafe
      rw [hslots] at hslots'
      injection hslots' with hslots'
      subst hslots'
      have hslot : ∀ sl ∈ slots,
          (self.errorOf (fieldPath s sl.2.Name) (sl.2.Tag.Get self.config.TagName)
            sl.2.Typ).isSome =
          self.fails sl.2.Typ (sl.2.Tag.Get self.config.TagName) := by
        intro sl hsl
        have hmem := hperm.mem_iff.1 hsl
        have hsz := slotsOfFields_size fields 0 sl hmem
        have hty := slotsOfFields_typed self fields 0 [] (zeroFields fields) rfl
          (zeroFields_hasTypes fields) hsafe sl hmem
        simp only [Ty.size] at hsize
        exact ih _ _ sl.2.Typ (by omega) hty.2.1
      rw [herr, Initialiser.fails, Bool.eq_iff_iff, mergedError_isSome,
        failsFields_iff self fields 0 hsafe, Ne, List.flatMap_eq_nil_iff]
      constructor
      · intro h
        by_contra hcon
        apply h
        intro sl hsl
        have h1 := hslot sl hsl
        cases he : self.errorOf (fieldPath s sl.2.Name)
            (sl.2.Tag.Get self.config.TagName) sl.2.Typ with
        | none => rfl
        | some e =>
          rw [he] at h1
          exact absurd ⟨sl, hperm.mem_iff.1 hsl, h1.symm⟩ hcon
      · rintro ⟨sl, hsl, hf⟩ h
        have hsl' := hperm.mem_iff.2 hsl
        have h1 := hslot sl hsl'
        have h2 := h sl hsl'
        rw [hf] at h1
        cases he : self.errorOf (fieldPath s sl.2.Name)
            (sl.2.Tag.Get self.config.TagName) sl.2.Typ with
        | none => rw [he] at h1; simp at h1
        | some e => rw [he] at h2; simp at h2

end StructInitializer

namespace StructInitializer

/-! ## Properties of the result of a run -/

theorem wrapInt_inIntRange (k : IntKind) (p : Int) : inIntRange k.bits (wrapInt k.bits p) := by
  cases k <;> simp only [inIntRange, IntKind.bits, wrapInt] <;> omega

theorem wrapUint_lt (k : UintKind) (p : Nat) : wrapUint k.bits p < 2 ^ k.bits :=
  Nat.mod_lt _ (Nat.pos_pow_of_pos _ (by decide))

theorem fill_int (self : Initialiser) (k : IntKind) (tag : String) (i : Int) :
    self.fill (.int k) tag (.int i) =
      match ParseInt tag 64 with
      | some p => if i = 0 then .int (wrapInt k.bits p) else .int i
      | none => .int i := by
  rw [Initialiser.fill]

theorem fill_uint (self : Initialiser) (k : UintKind) (tag : String) (n : Nat) :
    self.fill (.uint k) tag (.uint n) =
      match ParseUint tag 64 with
      | some p => if n = 0 then .uint (wrapUint k.bits p) else .uint n
      | none => .uint n := by
  rw [Initialiser.fill]

theorem fill_string (self : Initialiser) (tag s : String) :
    self.fill .string tag (.str s) = if tag ≠ "" ∧ s = "" then .str tag else .str s := by
  rw [Initialiser.fill]

theorem fill_other (self : Initialiser) (k : OtherKind) (tag : String) (v : Val) :
    self.fill (.other k) tag v = v := by
  simp [Initialiser.fill]

theorem hasType_int_inv {v : Val} {k : IntKind} (h : v.HasType (.int k)) :
    ∃ i, v = .int i ∧ inIntRange k.bits i := by
  cases v <;> simp [Val.HasType] at h
  exact ⟨_, rfl, h⟩

theorem hasType_uint_inv {v : Val} {k : UintKind} (h : v.HasType (.uint k)) :
    ∃ n, v = .uint n ∧ n < 2 ^ k.bits := by
  cases v <;> simp [Val.HasType] at h
  exact ⟨_, rfl, h⟩

theorem hasType_string_inv {v : Val} (h : v.HasType .string) : ∃ s, v = .str s := by
  cases v <;> simp [Val.HasType] at h
  exact ⟨_, rfl⟩

mutual
/-- A run leaves a value of the slot's type in the slot. -/
theorem fill_hasType (self : Initialiser) :
    ∀ (t : Ty) (tag : String) (v : Val), v.HasType t → (self.fill t tag v).HasType t
  | .int k, tag, v, hv => by
    obtain ⟨i, rfl, hi⟩ := hasType_int_inv hv
    rw [fill_int]
    cases ParseInt tag 64 with
    | none => exact hv
    | some p =>
      by_cases h0 : i = 0
      · simp only [h0, if_true]; rw [Val.HasType]; exact wrapInt_inIntRange k p
      · simp only [h0, if_false]; exact hv
  | .uint k, tag, v, hv => by
    obtain ⟨n, rfl, hn⟩ := hasType_uint_inv hv
    rw [fill_uint]
    cases ParseUint tag 64 with
    | none => exact hv
    | some p =>
      by_cases h0 : n = 0
      · simp only [h0, if_true]; rw [Val.HasType]; exact wrapUint_lt k p
      · simp only [h0, if_false]; exact hv
  | .string, tag, v, hv => by
    obtain ⟨s, rfl⟩ := hasType_string_inv hv
    rw [fill_string]
    split <;> (rw [Val.HasType]; trivial)
  | .other k, tag, v, hv => by rw [fill_other]; exact hv
  | .ptr elem, tag, v, hv => by
    rw [fill_ptr]
    split
    · rw [Val.HasType]
      exact fill_hasType self elem tag elem.zero (Ty.zero_hasType elem)
    · exact hv
  | .struct name fs, tag, v, hv => by
    obtain ⟨vs, rfl, hvs⟩ := hasType_struct_inv hv
    rw [fill_struct, hasType_struct_iff]
    exact fillFields_hasTypes self fs vs hvs
/-- The same, for the fields of a struct. -/
theorem fillFields_hasTypes (self : Initialiser) :
    ∀ (fs : List StructField) (vs : List Val), HasTypes vs fs →
      HasTypes (self.fillFields fs vs) fs
  | [], vs, hvs => by rw [fillFields_nil]; exact hvs
  | .mk n t tag a :: rest, vs, hvs => by
    obtain ⟨v, vs', rfl, hv, hrest⟩ := hasTypes_cons_inv hvs
    rw [fillFields_cons, hasTypes_cons_iff]
    refine ⟨?_, fillFields_hasTypes self rest vs' hrest⟩
    cases a with
    | true => rw [fillField_anonymous]; exact fill_hasType self t "" v hv
    | false => rw [fillField_named]; exact fill_hasType self t _ v hv
end

mutual
/-- Running again on the result of a run changes nothing. -/
theorem fill_idem (self : Initialiser) :
    ∀ (t : Ty) (tag : String) (v : Val), v.HasType t →
      self.fill t tag (self.fill t tag v) = self.fill t tag v
  | .int k, tag, v, hv => by
    obtain ⟨i, rfl, hi⟩ := hasType_int_inv hv
    rw [fill_int]
    cases hp : ParseInt tag 64 with
    | none => simp only [fill_int, hp]
    | some p =>
      by_cases h0 : i = 0
      · simp only [h0, if_true, fill_int, hp]
        split <;> rfl
      · simp only [h0, if_false, fill_int, hp]
  | .uint k, tag, v, hv => by
    obtain ⟨n, rfl, hn⟩ := hasType_uint_inv hv
    rw [fill_uint]
    cases hp : ParseUint tag 64 with
    | none => simp only [fill_uint, hp]
    | some p =>
      by_cases h0 : n = 0
      · simp only [h0, if_true, fill_uint, hp]
        split <;> rfl
      · simp only [h0, if_false, fill_uint, hp]
  | .string, tag, v, hv => by
    obtain ⟨s, rfl⟩ := hasType_string_inv hv
    rw [fill_string]
    by_cases h : tag ≠ "" ∧ s = ""
    · rw [if_pos h, fill_string, if_neg (fun h' => h.1 h'.2)]
    · rw [if_neg h, fill_string, if_neg h]
  | .other k, tag, v, hv => by simp only [fill_other]
  | .ptr elem, tag, v, hv => by
    rw [fill_ptr]
    split
    · rename_i h
      rw [fill_ptr, if_pos h]
    · rename_i h
      rw [fill_ptr, if_neg h]
  | .struct name fs, tag, v, hv => by
    obtain ⟨vs, rfl, hvs⟩ := hasType_struct_inv hv
    rw [fill_struct, fill_struct, fillFields_idem self fs vs hvs]
/-- The same, for the fields of a struct. -/
theorem fillFields_idem (self : Initialiser) :
    ∀ (fs : List StructField) (vs : List Val), HasTypes vs fs →
      self.fillFields fs (self.fillFields fs vs) = self.fillFields fs vs
  | [], vs, hvs => by simp only [fillFields_nil]
  | .mk n t tag a :: rest, vs, hvs => by
    obtain ⟨v, vs', rfl, hv, hrest⟩ := hasTypes_cons_inv hvs
    rw [fillFields_cons, fillFields_cons, fillFields_idem self rest vs' hrest]
    cases a with
    | true => simp only [fillField_anonymous, fill_idem self t "" v hv]
    | false => simp only [fillField_named, fill_idem self t _ v hv]
end

end StructInitializer

namespace StructInitializer

/-- The struct walker on a safe struct, run with a callback whose result on
every slot is known: it panics when the dispatch of a slot panics, and
otherwise fills the struct as `fillFields` says and returns the merge of the
errors of the slots, which does not depend on the data. -/
theorem initialiseStructStep_run (rec : Dispatch) (self : Initialiser) (stackName : String)
    (name : String) (fields : List StructField) (fuel : Nat)
    (hfuel : (Ty.struct name fields).size ≤ fuel)
    (hsafe : self.safeFields fields = true)
    (hrec : ∀ sl : Slot, sl.2.Typ.size + 1 ≤ sizeFields fields →
      self.safe sl.2.Typ (sl.2.Tag.Get self.config.TagName) = true →
      ∀ (ro : Bool) (v : Val), v.HasType sl.2.Typ →
        rec (fieldPath stackName sl.2.Name) (sl.2.Tag.Get self.config.TagName)
            ⟨sl.2.Typ, v, ro⟩ =
          if self.runs ro sl.2.Typ (sl.2.Tag.Get self.config.TagName) v = true then
            .ret (self.fill sl.2.Typ (sl.2.Tag.Get self.config.TagName) v,
              self.errorOf (fieldPath stackName sl.2.Name)
                (sl.2.Tag.Get self.config.TagName) sl.2.Typ)
          else .panic) :
    ∀ (ro : Bool) (tag : String) (vs : List Val), HasTypes vs fields →
      initialiseStructStep rec self fuel stackName ⟨.struct name fields, .struct vs, ro⟩ =
        if self.runsFields ro fields vs = true then
          .ret (.struct (self.fillFields fields vs),
            self.errorOf stackName tag (.struct name fields))
        else .panic := by
  obtain ⟨slots, hslots0, hlevel, hperm⟩ := levelOrder_safe self name fields hsafe
  have hslots : dispatchOrder fuel [([], Ty.struct name fields)] = some slots := by
    obtain ⟨slots', hslots'⟩ := dispatchOrder_isSome self fuel [([], Ty.struct name fields)]
      (by
        intro h hh
        rw [List.mem_singleton] at hh
        subst hh
        exact ⟨rfl, by rw [safe_struct]; exact hsafe⟩)
      (by simpa [queueSize] using hfuel)
    have h1 := dispatchOrder_level _ _ _ hslots' (max fuel (Ty.struct name fields).size)
      (le_max_left _ _)
    rw [hlevel _ (le_max_right _ _)] at h1
    rw [hslots', h1]
  have hpair : slots.Pairwise (fun s s' => Apart s.1 s'.1) :=
    (hperm.pairwise_iff (fun h => Apart.symm h)).2 (slotsOfFields_pairwise fields 0)
  have hslot : ∀ sl ∈ slots, sl.2.Typ.size + 1 ≤ sizeFields fields :=
    fun sl hsl => slotsOfFields_size fields 0 sl (hperm.mem_iff.1 hsl)
  intro ro tag vs hvs
  unfold initialiseStructStep
  simp only
  rw [structsLoop_eq_dispatchAll _ _ _ _ _ _ _ _ _ hslots]
  rw [dispatchAll_run rec self stackName ro
    (fun sl => self.errorOf (fieldPath stackName sl.2.Name)
      (sl.2.Tag.Get self.config.TagName) sl.2.Typ) slots (.struct vs) [] hpair]
  · have hall : slots.all (self.slotRuns ro (.struct vs)) = self.runsFields ro fields vs := by
      rw [perm_all_eq hperm]
      have := runsFields_slots self ro fields [] vs hvs hsafe
      simpa using this
    rw [hall]
    cases self.runsFields ro fields vs with
    | false => rfl
    | true =>
      simp only [if_true, List.nil_append]
      rw [fillSlots_perm self hperm hpair]
      have := fillSlots_slotsOfFields self fields [] vs hvs hsafe
      simp only [List.length_nil, List.nil_append] at this
      rw [this, errorOf_struct_level self stackName tag name fields hsafe,
        hlevel _ (le_refl _)]
  · intro sl hsl
    exact (slotsOfFields_typed self fields 0 [] vs rfl hvs hsafe sl
      (hperm.mem_iff.1 hsl)).2.2
  · intro sl hsl v hv
    have hty := slotsOfFields_typed self fields 0 [] vs rfl hvs hsafe sl
      (hperm.mem_iff.1 hsl)
    exact hrec sl (hslot sl hsl) hty.2.1 _ v hv

end StructInitializer

namespace StructInitializer

theorem ParseInt_empty : ParseInt "" 64 = none := rfl

theorem ParseUint_empty : ParseUint "" 64 = none := rfl

/-- The integer setter: it panics when it has to write to a read-only slot,
and otherwise leaves what `fill` says and returns the error of the tag. -/
theorem initialiseInt_run (self : Initialiser) (s tag : String) (k : IntKind) (ro : Bool)
    (v : Val) (hv : v.HasType (.int k)) :
    self.initialiseInt s tag ⟨.int k, v, ro⟩ =
      if self.runs ro (.int k) tag v = true then
        .ret (self.fill (.int k) tag v, self.errorOf s tag (.int k))
      else .panic := by
  obtain ⟨i, rfl, _⟩ := hasType_int_inv hv
  rw [errorOf_int, fill_int]
  by_cases htag : tag = ""
  · subst htag
    simp [Initialiser.initialiseInt, Initialiser.runs, ParseInt_empty]
  · cases hp : ParseInt tag 64 with
    | none => simp [Initialiser.initialiseInt, Initialiser.runs, htag, hp, NewError]
    | some p =>
      by_cases hi : i = 0 <;> cases ro <;>
        simp [Initialiser.initialiseInt, Initialiser.runs, htag, hp, Value.Int,
          Value.SetInt, hi]

theorem initialiseUint_run (self : Initialiser) (s tag : String) (k : UintKind) (ro : Bool)
    (v : Val) (hv : v.HasType (.uint k)) :
    self.initialiseUint s tag ⟨.uint k, v, ro⟩ =
      if self.runs ro (.uint k) tag v = true then
        .ret (self.fill (.uint k) tag v, self.errorOf s tag (.uint k))
      else .panic := by
  obtain ⟨n, rfl, _⟩ := hasType_uint_inv hv
  rw [errorOf_uint, fill_uint]
  by_cases htag : tag = ""
  · subst htag
    simp [Initialiser.initialiseUint, Initialiser.runs, ParseUint_empty]
  · cases hp : ParseUint tag 64 with
    | none => simp [Initialiser.initialiseUint, Initialiser.runs, htag, hp, NewError]
    | some p =>
      by_cases hi : n = 0 <;> cases ro <;>
        simp [Initialiser.initialiseUint, Initialiser.runs, htag, hp, Value.Uint,
          Value.SetUint, hi]

theorem initialiseString_run (self : Initialiser) (s tag : String) (ro : Bool)
    (v : Val) (hv : v.HasType .string) :
    self.initialiseString s tag ⟨.string, v, ro⟩ =
      if self.runs ro .string tag v = true then
        .ret (self.fill .string tag v, self.errorOf s tag .string)
      else .panic := by
  obtain ⟨str, rfl⟩ := hasType_string_inv hv
  rw [errorOf_string, fill_string]
  by_cases htag : tag = "" <;> by_cases hs : str = "" <;> cases ro <;>
    simp [Initialiser.initialiseString, Initialiser.runs, Value.String,
      Value.SetString, htag, hs]

/-- The pointer setter, run with a callback whose result on the pointee is
known. -/
theorem initialisePtrStep_run (rec : Dispatch) (self : Initialiser) (s tag : String)
    (elem : Ty)
    (hrec : self.allocates elem tag = true →
      (self.errorOf s tag elem).isSome = self.fails elem tag ∧
      rec s tag ⟨elem, elem.zero, false⟩ =
        if self.runs false elem tag elem.zero = true then
          .ret (self.fill elem tag elem.zero, self.errorOf s tag elem)
        else .panic)
    (ro : Bool) (v : Val) :
    initialisePtrStep rec self s tag ⟨.ptr elem, v, ro⟩ =
      if self.runs ro (.ptr elem) tag v = true then
        .ret (self.fill (.ptr elem) tag v, self.errorOf s tag (.ptr elem))
      else .panic := by
  rw [runs_ptr, fill_ptr, errorOf_ptr]
  by_cases ha : self.allocates elem tag = true
  · obtain ⟨he, hrun⟩ := hrec ha
    obtain ⟨h1, h2⟩ := (allocates_eq_true_iff self elem tag).1 ha
    unfold initialisePtrStep
    simp only [h1, if_false, Ty.Elem, h2, hrun, ha, Bool.not_true, Bool.false_or,
      Bool.true_and, if_true]
    cases hr : self.runs false elem tag elem.zero with
    | false => simp
    | true =>
      rw [← he]
      cases self.errorOf s tag elem with
      | some e => simp
      | none => cases ro <;> simp [Value.Set]
  · simp only [ha, Bool.false_and, Bool.false_eq_true, if_false, Bool.not_false,
      Bool.true_or, if_true]
    unfold initialisePtrStep
    by_cases h1 : tag = "-"
    · simp [h1]
    · have h2 : tag = "" ∧ (elem.Kind ≠ Kind.Struct ∨
          ¬ self.checkStructHasDefaultValue elem = true) := by
        by_contra hcon
        exact ha ((allocates_eq_true_iff self elem tag).2 ⟨h1, hcon⟩)
      rw [if_neg h1]
      simp only [Ty.Elem]
      rw [if_pos h2]

/-- What a run of `initialise` on a value of a safe type does, for every budget
that covers the type: it panics when it has to write to a read-only slot, and
otherwise leaves the data `fill` describes and returns `errorOf`. -/
theorem initialiseFuel_run (self : Initialiser) :
    ∀ (n : Nat) (s tag : String) (typ : Ty), typ.size ≤ n → self.safe typ tag = true →
      ∀ (ro : Bool) (v : Val), v.HasType typ →
        initialiseFuel self n s tag ⟨typ, v, ro⟩ =
          if self.runs ro typ tag v = true then
            .ret (self.fill typ tag v, self.errorOf s tag typ)
          else .panic := by
  intro n
  induction n with
  | zero =>
    intro s tag typ h
    have := Ty.size_pos typ
    omega
  | succ n ih =>
    intro s tag typ hsize hsafe ro v hv
    cases typ with
    | int k => rw [initialiseFuel_int]; exact initialiseInt_run self s tag k ro v hv
    | uint k => rw [initialiseFuel_uint]; exact initialiseUint_run self s tag k ro v hv
    | string => rw [initialiseFuel_string]; exact initialiseString_run self s tag ro v hv
    | other k =>
      rw [initialiseFuel_other, errorOf_other, fill_other]
      cases v <;> simp [Val.HasType] at hv
      simp [Initialiser.runs]
    | ptr elem =>
      simp only [Ty.size] at hsize
      rw [safe_ptr] at hsafe
      rw [initialiseFuel_ptr]
      apply initialisePtrStep_run
      intro ha
      have hs : self.safe elem tag = true := by simpa [ha] using hsafe
      exact ⟨errorOf_isSome self n s tag elem (by omega) hs,
        ih s tag elem (by omega) hs false _ (Ty.zero_hasType elem)⟩
    | struct name fields =>
      rw [safe_struct] at hsafe
      have hsz : sizeFields fields ≤ n := by simp only [Ty.size] at hsize; omega
      obtain ⟨vs, rfl, hvs⟩ := hasType_struct_inv hv
      rw [initialiseFuel_struct, fill_struct, runs_struct]
      exact initialiseStructStep_run (initialiseFuel self n) self s name fields (n + 1)
        hsize hsafe
        (fun sl hslsize hslsafe ro' w hw =>
          ih (fieldPath s sl.2.Name) (sl.2.Tag.Get self.config.TagName) sl.2.Typ
            (by omega) hslsafe ro' w hw)
        ro tag vs hvs

end StructInitializer

namespace StructInitializer

/-! ## A walk that is not safe panics -/

theorem safeFields_eq_false (self : Initialiser) :
    ∀ fields : List StructField, self.safeFields fields = false →
      ∃ f ∈ fields, self.safeField f = false := by
  intro fields
  induction fields with
  | nil => intro h; rw [Initialiser.safeFields] at h; cases h
  | cons f rest ih =>
    intro h
    rw [safeFields_cons, Bool.and_eq_false_iff] at h
    rcases h with h | h
    · exact ⟨f, List.mem_cons_self _ _, h⟩
    · obtain ⟨g, hg, hgs⟩ := ih h
      exact ⟨g, List.mem_cons_of_mem _ hg, hgs⟩

theorem anonymousOf_mem (path : List Nat) :
    ∀ (fields : List StructField) (i : Nat) (f : StructField), f ∈ fields →
      f.Anonymous = true → ∃ p, (p, f.Typ) ∈ anonymousOf path fields i := by
  intro fields
  induction fields with
  | nil => intro i f hf; cases hf
  | cons g rest ih =>
    intro i f hf ha
    rcases List.mem_cons.1 hf with rfl | hf
    · exact ⟨path ++ [i], by simp [anonymousOf, ha]⟩
    · obtain ⟨p, hp⟩ := ih (i + 1) f hf ha
      refine ⟨p, ?_⟩
      cases hg : g.Anonymous <;> simp [anonymousOf, hg, hp]

theorem fieldsLoop_panic {rec : Dispatch} {bound : Nat} (htotal : TotalUpTo rec bound)
    (self : Initialiser) (stackName : String) (ro : Bool) (path : List Nat)
    (hpanic : ∀ (typ : Ty) (tag : String), typ.size ≤ bound → self.safe typ tag = false →
      ∀ (s : String) (v : Val) (ro : Bool), rec s tag ⟨typ, v, ro⟩ = .panic) :
    ∀ (fields : List StructField) (i : Nat) (root : Val) (structs : Queue)
      (errors : List Error), sizeFields fields ≤ bound + 1 →
      (∃ f ∈ fields, f.Anonymous = false ∧
        self.safe f.Typ (f.Tag.Get self.config.TagName) = false) →
      fieldsLoop rec self stackName ro path fields i root structs errors = .panic := by
  intro fields
  induction fields with
  | nil => intro i root structs errors _ h; obtain ⟨f, hf, _⟩ := h; cases hf
  | cons g rest ih =>
    intro i root structs errors hsize h
    simp only [sizeFields, sizeField_eq] at hsize
    obtain ⟨f, hf, hfa, hfs⟩ := h
    cases hg : g.Anonymous with
    | true =>
      rw [fieldsLoop_anonymous _ _ _ _ _ _ _ _ _ _ _ hg]
      rcases List.mem_cons.1 hf with rfl | hf
      · rw [hg] at hfa; cases hfa
      · exact ih _ _ _ _ (by omega) ⟨f, hf, hfa, hfs⟩
    | false =>
      rw [fieldsLoop_named _ _ _ _ _ _ _ _ _ _ _ hg]
      cases hget : Val.get (path ++ [i]) root with
      | none => rfl
      | some cur =>
        simp only
        have hnd := htotal (fieldPath stackName g.Name) (g.Tag.Get self.config.TagName)
          ⟨g.Typ, cur, ro || !isExported g.Name⟩ (by show g.Typ.size ≤ bound; omega)
        cases hr : rec (fieldPath stackName g.Name) (g.Tag.Get self.config.TagName)
            ⟨g.Typ, cur, ro || !isExported g.Name⟩ with
        | diverge => exact absurd hr hnd
        | panic => rfl
        | ret out =>
          obtain ⟨new, err⟩ := out
          simp only
          rcases List.mem_cons.1 hf with rfl | hf
          · rw [hpanic f.Typ _ (by omega) hfs] at hr
            cases hr
          · exact ih _ _ _ _ (by omega) ⟨f, hf, hfa, hfs⟩

theorem structsLoop_panic {rec : Dispatch} {bound : Nat} (htotal : TotalUpTo rec bound)
    (self : Initialiser) (stackName : String) (ro : Bool)
    (hpanic : ∀ (typ : Ty) (tag : String), typ.size ≤ bound → self.safe typ tag = false →
      ∀ (s : String) (v : Val) (ro : Bool), rec s tag ⟨typ, v, ro⟩ = .panic) :
    ∀ (fuel : Nat) (root : Val) (structs : Queue) (errors : List Error),
      queueSize structs ≤ fuel → fuel ≤ bound + 1 →
      (∃ h ∈ structs, ¬ (h.2.Kind = Kind.Struct ∧ self.safe h.2 "" = true)) →
      structsLoop rec self stackName ro fuel root structs errors = .panic := by
  intro fuel
  induction fuel with
  | zero =>
    intro root structs errors hq _ h
    obtain ⟨a, ha, _⟩ := h
    cases structs with
    | nil => cases ha
    | cons b rest =>
      obtain ⟨p, t⟩ := b
      have := Ty.size_pos t
      simp only [queueSize] at hq
      omega
  | succ n ih =>
    intro root structs errors hq hb h
    obtain ⟨a, ha, hbad⟩ := h
    cases structs with
    | nil => cases ha
    | cons b rest =>
      obtain ⟨p, t⟩ := b
      rw [structsLoop_cons]
      cases t with
      | struct name fields =>
        simp only [Ty.fields?]
        simp only [queueSize, Ty.size] at hq
        have hfl := fieldsLoop_total htotal self stackName ro p fields 0 root rest errors
          (by omega)
        cases hl : fieldsLoop rec self stackName ro p fields 0 root rest errors with
        | diverge => exact absurd hl hfl
        | panic => rfl
        | ret out =>
          obtain ⟨root1, structs1, errors1⟩ := out
          simp only
          have hq1 := fieldsLoop_queue _ _ _ _ _ _ _ _ _ _ _ _ _ hl
          have hsz := queueSize_anonymousOf p fields 0
          subst hq1
          refine ih _ _ _ (by rw [queueSize_append]; omega) (by omega) ?_
          rcases List.mem_cons.1 ha with rfl | ha
          · have hs : self.safeFields fields = false := by
              cases hsf : self.safeFields fields with
              | false => rfl
              | true => exact absurd ⟨rfl, by rw [safe_struct]; exact hsf⟩ hbad
            obtain ⟨f, hf, hfs⟩ := safeFields_eq_false self fields hs
            obtain ⟨fn, ft, ftag, fanon⟩ := f
            cases fanon with
            | false =>
              rw [safeField_named] at hfs
              rw [fieldsLoop_panic htotal self stackName ro p hpanic fields 0 root rest errors
                (by omega) ⟨_, hf, rfl, hfs⟩] at hl
              cases hl
            | true =>
              rw [safeField_anonymous] at hfs
              obtain ⟨q, hq⟩ := anonymousOf_mem p fields 0 _ hf rfl
              refine ⟨(q, ft), List.mem_append_right _ hq, ?_⟩
              rintro ⟨h1, h2⟩
              simp [StructField.Typ] at h1 h2
              simp [h1, h2] at hfs
          · exact ⟨a, List.mem_append_left _ ha, hbad⟩
      | _ => rfl

/-- A run of `initialise` on a type that is not safe panics, whatever the data. -/
theorem initialiseFuel_panic (self : Initialiser) :
    ∀ (n : Nat) (typ : Ty) (tag : String), typ.size ≤ n → self.safe typ tag = false →
      ∀ (s : String) (v : Val) (ro : Bool),
        initialiseFuel self n s tag ⟨typ, v, ro⟩ = .panic := by
  intro n
  induction n with
  | zero =>
    intro typ tag h
    have := Ty.size_pos typ
    omega
  | succ n ih =>
    intro typ tag hsize hsafe s v ro
    cases typ with
    | int k => simp [Initialiser.safe] at hsafe
    | uint k => simp [Initialiser.safe] at hsafe
    | string => simp [Initialiser.safe] at hsafe
    | other k => simp [Initialiser.safe] at hsafe
    | ptr elem =>
      simp only [Ty.size] at hsize
      rw [safe_ptr] at hsafe
      have ha : self.allocates elem tag = true := by
        cases h : self.allocates elem tag <;> simp [h] at hsafe ⊢
      have hs : self.safe elem tag = false := by simpa [ha] using hsafe
      obtain ⟨h1, h2⟩ := (allocates_eq_true_iff self elem tag).1 ha
      rw [initialiseFuel_ptr]
      unfold initialisePtrStep
      simp only [h1, if_false, Ty.Elem, h2, ih elem tag (by omega) hs]
    | struct name fields =>
      rw [initialiseFuel_struct]
      unfold initialiseStructStep
      rw [structsLoop_panic (initialiseFuel_total self n) self s ro ih (n + 1) v
        [([], Ty.struct name fields)] [] (by simpa [queueSize] using hsize) (le_refl _)
        ⟨_, List.mem_singleton.2 rfl, fun h => by
          have h2 := h.2
          simp only [safe_struct] at h2 hsafe
          rw [h2] at hsafe
          cases hsafe⟩]

mutual
/-- A run that returns is a run on a safe type. -/
theorem runs_safe (self : Initialiser) :
    ∀ (t : Ty) (ro : Bool) (tag : String) (v : Val), v.HasType t →
      self.runs ro t tag v = true → self.safe t tag = true
  | .int k, ro, tag, v, _, _ => by simp [Initialiser.safe]
  | .uint k, ro, tag, v, _, _ => by simp [Initialiser.safe]
  | .string, ro, tag, v, _, _ => by simp [Initialiser.safe]
  | .other k, ro, tag, v, _, _ => by simp [Initialiser.safe]
  | .ptr elem, ro, tag, v, _, h => by
    rw [runs_ptr] at h
    rw [safe_ptr]
    cases ha : self.allocates elem tag with
    | false => rfl
    | true =>
      rw [ha] at h
      simp only [Bool.not_true, Bool.false_or, Bool.and_eq_true] at h ⊢
      exact runs_safe self elem false tag elem.zero (Ty.zero_hasType elem) h.1
  | .struct name fs, ro, tag, v, hv, h => by
    obtain ⟨vs, rfl, hvs⟩ := hasType_struct_inv hv
    rw [runs_struct] at h
    rw [safe_struct]
    exact runsFields_safe self fs ro vs hvs h
/-- The same, for the fields of a struct. -/
theorem runsFields_safe (self : Initialiser) :
    ∀ (fs : List StructField) (ro : Bool) (vs : List Val), HasTypes vs fs →
      self.runsFields ro fs vs = true → self.safeFields fs = true
  | [], ro, vs, _, _ => by rw [Initialiser.safeFields]
  | .mk n t tag a :: rest, ro, vs, hvs, h => by
    obtain ⟨v, vs', rfl, hv, hrest⟩ := hasTypes_cons_inv hvs
    rw [runsFields_cons, Bool.and_eq_true] at h
    rw [safeFields_cons, Bool.and_eq_true]
    refine ⟨?_, runsFields_safe self rest ro vs' hrest h.2⟩
    cases a with
    | true =>
      rw [runsField_anonymous, Bool.and_eq_true] at h
      rw [safeField_anonymous, Bool.and_eq_true]
      exact ⟨h.1.1, runs_safe self t ro "" v hv h.1.2⟩
    | false =>
      rw [runsField_named] at h
      rw [safeField_named]
      exact runs_safe self t _ _ v hv h.1
end

/-- What a run of `initialise` on a value does: it panics when it meets an
anonymous field that is not a struct or has to write to a read-only slot, and
otherwise it leaves the data `fill` describes and returns `errorOf`, which
does not depend on the data. -/
theorem initialise_run (self : Initialiser) (s tag : String) (typ : Ty) (ro : Bool)
    (v : Val) (hv : v.HasType typ) :
    self.initialise s tag ⟨typ, v, ro⟩ =
      if self.runs ro typ tag v = true then
        .ret (self.fill typ tag v, self.errorOf s tag typ)
      else .panic := by
  cases hs : self.safe typ tag with
  | true => exact initialiseFuel_run self typ.size s tag typ (le_refl _) hs ro v hv
  | false =>
    have hr : self.runs ro typ tag v = false := by
      cases h : self.runs ro typ tag v with
      | false => rfl
      | true =>
        rw [runs_safe self typ ro tag v hv h] at hs
        cases hs
    rw [hr]
    exact initialiseFuel_panic self typ.size typ tag (le_refl _) hs s v ro

/-- A run of `initialise` that returns: the value is one on which runs return,
and the result is the one `fill` and `errorOf` describe. -/
theorem initialise_ret (self : Initialiser) (s tag : String) (typ : Ty) (ro : Bool)
    (v : Val) (hv : v.HasType typ) (out : Val × Option Error)
    (h : self.initialise s tag ⟨typ, v, ro⟩ = .ret out) :
    self.runs ro typ tag v = true ∧ out = (self.fill typ tag v, self.errorOf s tag typ) := by
  rw [initialise_run self s tag typ ro v hv] at h
  cases hr : self.runs ro typ tag v with
  | false => rw [hr] at h; simp at h
  | true =>
    rw [hr] at h
    simp only [if_true] at h
    injection h with h
    exact ⟨rfl, h.symm⟩

/-- A run that returns is a run on a safe type, whatever the data. -/
theorem safe_of_initialise_ret (self : Initialiser) (s tag : String) (typ : Ty) (v : Val)
    (ro : Bool) (out : Val × Option Error)
    (h : self.initialise s tag ⟨typ, v, ro⟩ = .ret out) :
    self.safe typ tag = true := by
  cases hs : self.safe typ tag with
  | true => rfl
  | false =>
    have := initialiseFuel_panic self typ.size typ tag (le_refl _) hs s v ro
    rw [show self.initialise s tag ⟨typ, v, ro⟩ =
      initialiseFuel self typ.size s tag ⟨typ, v, ro⟩ from rfl, this] at h
    cases h

end StructInitializer

namespace StructInitializer

/-! ## A run of the struct walker and of the entry point -/

/-- What a run of `initialiseStruct` does. -/
theorem initialiseStruct_run (self : Initialiser) (s name : String)
    (fields : List StructField) (vs : List Val) (ro : Bool) (hvs : HasTypes vs fields) :
    self.initialiseStruct s ⟨.struct name fields, .struct vs, ro⟩ =
      if self.runsFields ro fields vs = true then
        .ret (.struct (self.fillFields fields vs), self.errorOf s "" (.struct name fields))
      else .panic := by
  rw [← initialise_struct self s "", initialise_run self s "" _ ro _
    ((hasType_struct_iff vs name fields).2 hvs), runs_struct, fill_struct]

/-- A run of `initialiseStruct` that returns. -/
theorem initialiseStruct_ret (self : Initialiser) (s name : String)
    (fields : List StructField) (vs : List Val) (ro : Bool) (hvs : HasTypes vs fields)
    (after : Val) (E : Option Error)
    (h : self.initialiseStruct s ⟨.struct name fields, .struct vs, ro⟩ = .ret (after, E)) :
    self.runsFields ro fields vs = true ∧ self.safeFields fields = true ∧
      after = .struct (self.fillFields fields vs) ∧
      E = self.errorOf s "" (.struct name fields) := by
  rw [initialiseStruct_run self s name fields vs ro hvs] at h
  cases hr : self.runsFields ro fields vs with
  | false => rw [hr] at h; simp at h
  | true =>
    rw [hr] at h
    simp only [if_true] at h
    injection h with h
    injection h with h1 h2
    exact ⟨rfl, runsFields_safe self fields ro vs hvs hr, h1.symm, h2.symm⟩

theorem Initialise_struct_eq (self : Initialiser) (typeString : Ty → String)
    (name : String) (fields : List StructField) (d : Val) :
    self.Initialise typeString (.of (.ptr (.struct name fields)) (.ptr (some d))) =
      match self.initialiseStruct name ⟨.struct name fields, d, false⟩ with
      | .ret (pointee, err) => .ret (.ptr (some pointee), err)
      | .panic => .panic
      | .diverge => .diverge := by
  simp [Initialiser.Initialise, ValueOf, Ty.Kind, Value.Elem, kindOf, Ty.Name]

/-- What a run of the entry point on a pointer to a struct does. -/
theorem Initialise_run (self : Initialiser) (typeString : Ty → String) (name : String)
    (fields : List StructField) (vs : List Val) (hvs : HasTypes vs fields) :
    self.Initialise typeString
        (.of (.ptr (.struct name fields)) (.ptr (some (.struct vs)))) =
      if self.runsFields false fields vs = true then
        .ret (.ptr (some (.struct (self.fillFields fields vs))),
          self.errorOf name "" (.struct name fields))
      else .panic := by
  rw [Initialise_struct_eq, initialiseStruct_run self name name fields vs false hvs]
  cases self.runsFields false fields vs <;> rfl

/-- A run of the entry point that returns. -/
theorem Initialise_ret (self : Initialiser) (typeString : Ty → String) (name : String)
    (fields : List StructField) (vs : List Val) (hvs : HasTypes vs fields)
    (after : Val) (E : Option Error)
    (h : self.Initialise typeString
      (.of (.ptr (.struct name fields)) (.ptr (some (.struct vs)))) = .ret (after, E)) :
    self.runsFields false fields vs = true ∧ self.safeFields fields = true ∧
      after = .ptr (some (.struct (self.fillFields fields vs))) ∧
      E = self.errorOf name "" (.struct name fields) := by
  rw [Initialise_run self typeString name fields vs hvs] at h
  cases hr : self.runsFields false fields vs with
  | false => rw [hr] at h; simp at h
  | true =>
    rw [hr] at h
    simp only [if_true] at h
    injection h with h
    injection h with h1 h2
    exact ⟨rfl, runsFields_safe self fields false vs hvs hr, h1.symm, h2.symm⟩

end StructInitializer

namespace StructInitializer

/-! ## Reachable default tags -/

theorem check_struct (self : Initialiser) (name : String) (fields : List StructField) :
    self.checkStructHasDefaultValue (.struct name fields) = self.checkFields fields := by
  rw [Initialiser.checkStructHasDefaultValue]

theorem checkFields_cons (self : Initialiser) (f : StructField) (rest : List StructField) :
    self.checkFields (f :: rest) = (self.checkField f || self.checkFields rest) := by
  rw [Initialiser.checkFields]

theorem checkField_eq (self : Initialiser) (f : StructField) :
    self.checkField f =
      (decide (f.Tag.Get self.config.TagName ≠ "") ||
        (decide (f.Typ.Kind = Kind.Struct) && self.checkStructHasDefaultValue f.Typ)) := by
  cases f
  rw [Initialiser.checkField]
  rfl

theorem checkFields_of_mem (self : Initialiser) :
    ∀ (fields : List StructField) (f : StructField), f ∈ fields →
      self.checkField f = true → self.checkFields fields = true := by
  intro fields
  induction fields with
  | nil => intro f hf; cases hf
  | cons g rest ih =>
    intro f hf hc
    rw [checkFields_cons, Bool.or_eq_true]
    rcases List.mem_cons.1 hf with rfl | hf
    · exact Or.inl hc
    · exact Or.inr (ih f hf hc)

mutual
theorem check_sound (self : Initialiser) :
    ∀ t : Ty, self.checkStructHasDefaultValue t = true → self.HasReachableTag t
  | .struct name fields, h => by
    rw [check_struct] at h
    obtain ⟨f, hf, hc⟩ := checkFields_sound self fields h
    rcases hc with hc | hc
    · exact .tagged f hf hc
    · exact .nested f hf hc.1 hc.2
  | .int _, h => by simp [Initialiser.checkStructHasDefaultValue] at h
  | .uint _, h => by simp [Initialiser.checkStructHasDefaultValue] at h
  | .string, h => by simp [Initialiser.checkStructHasDefaultValue] at h
  | .ptr _, h => by simp [Initialiser.checkStructHasDefaultValue] at h
  | .other _, h => by simp [Initialiser.checkStructHasDefaultValue] at h
theorem checkFields_sound (self : Initialiser) :
    ∀ fields : List StructField, self.checkFields fields = true →
      ∃ f ∈ fields, f.Tag.Get self.config.TagName ≠ "" ∨
        (f.Typ.Kind = Kind.Struct ∧ self.HasReachableTag f.Typ)
  | [], h => by rw [Initialiser.checkFields] at h; cases h
  | f :: rest, h => by
    rw [checkFields_cons, Bool.or_eq_true] at h
    rcases h with h | h
    · exact ⟨f, List.mem_cons_self _ _, checkField_sound self f h⟩
    · obtain ⟨g, hg, hc⟩ := checkFields_sound self rest h
      exact ⟨g, List.mem_cons_of_mem _ hg, hc⟩
theorem checkField_sound (self : Initialiser) :
    ∀ f : StructField, self.checkField f = true →
      f.Tag.Get self.config.TagName ≠ "" ∨
        (f.Typ.Kind = Kind.Struct ∧ self.HasReachableTag f.Typ)
  | .mk n t tag a, h => by
    rw [Initialiser.checkField, Bool.or_eq_true, Bool.and_eq_true] at h
    rcases h with h | h
    · exact Or.inl (of_decide_eq_true h)
    · exact Or.inr ⟨of_decide_eq_true h.1, check_sound self t h.2⟩
end

theorem check_complete (self : Initialiser) (t : Ty) (h : self.HasReachableTag t) :
    self.checkStructHasDefaultValue t = true := by
  induction h with
  | tagged f hf htag =>
    rw [check_struct]
    refine checkFields_of_mem self _ f hf ?_
    rw [checkField_eq]
    simp [htag]
  | nested f hf hk _ ih =>
    rw [check_struct]
    refine checkFields_of_mem self _ f hf ?_
    rw [checkField_eq]
    simp [hk, ih]

/-- The test of `checkStructHasDefaultValue` holds exactly of the struct types
with a reachable default tag. -/
theorem check_iff_reachable (self : Initialiser) (t : Ty) :
    self.checkStructHasDefaultValue t = true ↔ self.HasReachableTag t :=
  ⟨check_sound self t, check_complete self t⟩

end StructInitializer

namespace StructInitializer

/-! ## Texts occurring in texts -/

theorem Contains.refl (a : String) : Contains a a := List.infix_refl _

theorem Contains.trans {a b c : String} (h1 : Contains a b) (h2 : Contains b c) :
    Contains a c := List.IsInfix.trans h2 h1

theorem contains_append_left (a b : String) : Contains (a ++ b) a := by
  unfold Contains
  rw [String.data_append]
  exact (List.prefix_append _ _).isInfix

theorem contains_append_right (a b : String) : Contains (a ++ b) b := by
  unfold Contains
  rw [String.data_append]
  exact (List.suffix_append _ _).isInfix

theorem contains_empty (a : String) : Contains a "" := by
  unfold Contains
  exact List.nil_infix

theorem contains_Error_Message (e : Error) : Contains e.Error e.Message := by
  unfold Error.Error
  split <;> exact contains_append_right _ _

theorem contains_Error_Stack (e : Error) : Contains e.Error e.Stack := by
  unfold Error.Error
  split
  · rename_i h
    rw [h]
    exact contains_empty _
  · exact ((contains_append_left _ e.Message).trans
      (contains_append_left _ ") ")).trans (contains_append_right _ e.Stack)

theorem contains_Join (sep : String) :
    ∀ (points : List String) (p : String), p ∈ points → Contains (Join points sep) p := by
  intro points
  induction points with
  | nil => intro p hp; cases hp
  | cons a rest ih =>
    intro p hp
    cases rest with
    | nil =>
      rw [List.mem_singleton] at hp
      subst hp
      exact Contains.refl _
    | cons b rest =>
      rw [Join]
      rcases List.mem_cons.1 hp with rfl | hp
      · exact (contains_append_left _ _).trans (contains_append_left _ _)
      · exact (contains_append_right _ _).trans (ih p hp)

/-- The message of a merged error of two or more errors contains the rendering
of each of them. -/
theorem contains_merged (errors : List Error) (X : Error) (hX : X ∈ errors) :
    Contains (Join (errors.map (fun err => "* " ++ err.Error)) "\n") X.Error :=
  (contains_Join "\n" _ ("* " ++ X.Error) (List.mem_map.2 ⟨X, hX, rfl⟩)).trans
    (contains_append_right _ _)

/-! ## How an error reports failing fields -/

theorem Reports.perm {L L' : List Error} {E : Option Error} (h : Reports L E)
    (hp : L.Perm L') : Reports L' E := by
  rcases h with ⟨h1, h2⟩ | ⟨e, h1, h2⟩ | ⟨h1, X, h2, h3, h4⟩
  · subst h1
    exact Or.inl ⟨hp.nil_eq.symm, h2⟩
  · subst h1
    exact Or.inr (Or.inl ⟨e, (List.singleton_perm.1 hp).symm, h2⟩)
  · exact Or.inr (Or.inr ⟨by rw [← hp.length_eq]; exact h1, X, h2, h3,
      fun e he => h4 e (hp.mem_iff.2 he)⟩)

theorem Reports.eq_nil {L : List Error} (h : Reports L none) : L = [] := by
  rcases h with ⟨h1, _⟩ | ⟨e, _, h2⟩ | ⟨_, X, h2, _⟩
  · exact h1
  · cases h2
  · cases h2

theorem Reports.ne_nil {L : List Error} {X : Error} (h : Reports L (some X)) : L ≠ [] := by
  rcases h with ⟨_, h2⟩ | ⟨e, h1, _⟩ | ⟨h1, _⟩
  · cases h2
  · rw [h1]; simp
  · intro h0; rw [h0] at h1; simp at h1

theorem Reports.contains {L : List Error} {X : Error} (h : Reports L (some X)) :
    ∀ e ∈ L, Contains X.Error e.Stack := by
  rcases h with ⟨_, h2⟩ | ⟨e, h1, h2⟩ | ⟨_, Y, h2, _, h4⟩
  · cases h2
  · intro e' he'
    rw [h1, List.mem_singleton] at he'
    injection h2 with h2
    subst he' h2
    exact contains_Error_Stack _
  · intro e he
    injection h2 with h2
    subst h2
    exact (contains_Error_Message _).trans (h4 e he)

/-- The errors collected by a struct walker report the failing fields of the
struct, when the error of each slot reports the failing fields of the slot. -/
theorem reports_merged {α : Type} (Lf : α → List Error) (Ef : α → Option Error)
    (stackName : String) :
    ∀ slots : List α, (∀ sl ∈ slots, Reports (Lf sl) (Ef sl)) →
      Reports (slots.flatMap Lf)
        (mergedError (slots.flatMap (fun sl => (Ef sl).toList)) stackName) := by
  have key : ∀ slots : List α, (∀ sl ∈ slots, Reports (Lf sl) (Ef sl)) →
      (slots.flatMap Lf = [] ∧ slots.flatMap (fun sl => (Ef sl).toList) = []) ∨
      (∃ X, slots.flatMap (fun sl => (Ef sl).toList) = [X] ∧
        Reports (slots.flatMap Lf) (some X)) ∨
      (2 ≤ (slots.flatMap (fun sl => (Ef sl).toList)).length ∧
        2 ≤ (slots.flatMap Lf).length ∧
        ∀ e ∈ slots.flatMap Lf, ∃ X ∈ slots.flatMap (fun sl => (Ef sl).toList),
          Contains X.Error e.Stack) := by
    intro slots
    induction slots with
    | nil => intro _; exact Or.inl ⟨rfl, rfl⟩
    | cons sl rest ih =>
      intro h
      have hsl := h sl (List.mem_cons_self _ _)
      have hrest := ih (fun x hx => h x (List.mem_cons_of_mem _ hx))
      simp only [List.flatMap_cons]
      cases hE : Ef sl with
      | none =>
        rw [hE] at hsl
        rw [hsl.eq_nil]
        simpa using hrest
      | some X0 =>
        rw [hE] at hsl
        have hne := hsl.ne_nil
        have hlen : 1 ≤ (Lf sl).length := by
          cases hL : Lf sl with
          | nil => exact absurd hL hne
          | cons a b => simp
        rcases hrest with ⟨h1, h2⟩ | ⟨X, h1, h2⟩ | ⟨h1, h2, h3⟩
        · refine Or.inr (Or.inl ⟨X0, by simp [h2], ?_⟩)
          rw [h1, List.append_nil]
          exact hsl
        · have hne2 := h2.ne_nil
          have hlen2 : 1 ≤ (rest.flatMap Lf).length := by
            cases hL : rest.flatMap Lf with
            | nil => exact absurd hL hne2
            | cons a b => simp
          refine Or.inr (Or.inr ⟨by simp [h1], by rw [List.length_append]; omega, ?_⟩)
          intro e he
          rcases List.mem_append.1 he with he | he
          · exact ⟨X0, by simp, hsl.contains e he⟩
          · exact ⟨X, by simp [h1], h2.contains e he⟩
        · refine Or.inr (Or.inr ⟨by
            rw [List.length_append]
            exact le_trans h1 (Nat.le_add_left _ _), by rw [List.length_append]; omega, ?_⟩)
          intro e he
          rcases List.mem_append.1 he with he | he
          · exact ⟨X0, by simp, hsl.contains e he⟩
          · obtain ⟨X, hX, hc⟩ := h3 e he
            exact ⟨X, by simp [hX], hc⟩
  intro slots h
  rcases key slots h with ⟨h1, h2⟩ | ⟨X, h1, h2⟩ | ⟨h1, h2, h3⟩
  · rw [h1, h2]
    exact Or.inl ⟨rfl, rfl⟩
  · rw [h1]
    exact h2
  · refine Or.inr (Or.inr ⟨h2, ?_⟩)
    generalize slots.flatMap (fun sl => (Ef sl).toList) = D at h1 h3
    match D, h1 with
    | a :: b :: rest, _ =>
      refine ⟨_, rfl, rfl, fun e he => ?_⟩
      obtain ⟨X, hX, hc⟩ := h3 e he
      exact (contains_merged _ X hX).trans hc

end StructInitializer

namespace StructInitializer

/-! ## The failing fields of a struct, slot by slot -/

theorem leaves_struct (self : Initialiser) (name : String) (fs : List StructField)
    (s tag : String) : self.leaves (.struct name fs) s tag = self.leavesFields fs s := by
  rw [Initialiser.leaves]

theorem leaves_ptr (self : Initialiser) (elem : Ty) (s tag : String) :
    self.leaves (.ptr elem) s tag =
      if self.allocates elem tag = true then self.leaves elem s tag else [] := by
  rw [Initialiser.leaves]

theorem leavesFields_cons (self : Initialiser) (f : StructField) (rest : List StructField)
    (s : String) :
    self.leavesFields (f :: rest) s = self.leavesField f s ++ self.leavesFields rest s := by
  rw [Initialiser.leavesFields]

theorem leavesField_named (self : Initialiser) (n : String) (t : Ty) (tag : StructTag)
    (s : String) :
    self.leavesField (.mk n t tag false) s =
      self.leaves t (fieldPath s n) (tag.Get self.config.TagName) := by
  rw [Initialiser.leavesField]; simp

theorem leavesField_anonymous (self : Initialiser) (n : String) (t : Ty) (tag : StructTag)
    (s : String) : self.leavesField (.mk n t tag true) s = self.leaves t s "" := by
  rw [Initialiser.leavesField]; simp

/-- The failing fields of a struct are those of its slots. -/
theorem leavesFields_eq_flatMap (self : Initialiser) (s : String) :
    ∀ (fields : List StructField) (i : Nat), self.safeFields fields = true →
      self.leavesFields fields s =
        (slotsOfFields fields i).flatMap (fun sl =>
          self.leaves sl.2.Typ (fieldPath s sl.2.Name)
            (sl.2.Tag.Get self.config.TagName)) := by
  intro fields
  induction fields using fields_induction with
  | nil => intro i _; rw [slotsOfFields_nil, Initialiser.leavesFields]; rfl
  | named n t tag rest ih =>
    intro i hsafe
    rw [safeFields_cons, Bool.and_eq_true] at hsafe
    rw [slotsOfFields_cons_named, leavesFields_cons, leavesField_named, List.flatMap_cons,
      ← ih (i + 1) hsafe.2]
    rfl
  | embedded n name fs tag rest ihfs ih =>
    intro i hsafe
    rw [safeFields_cons, safeField_anonymous, Bool.and_eq_true, Bool.and_eq_true,
      safe_struct] at hsafe
    rw [slotsOfFields_cons_embedded, leavesFields_cons, leavesField_anonymous, leaves_struct,
      List.flatMap_append, List.flatMap_map, ← ih (i + 1) hsafe.2, ihfs 0 hsafe.1.2]
  | stray n t tag rest hk ih =>
    intro i hsafe
    rw [safeFields_cons, safeField_anonymous, Bool.and_eq_true, Bool.and_eq_true] at hsafe
    exact absurd (of_decide_eq_true hsafe.1.1) hk

mutual
/-- A failing field fails with `TypeConversionFailed` or `NotImplement`. -/
theorem leaves_reason (self : Initialiser) :
    ∀ (t : Ty) (s tag : String), ∀ e ∈ self.leaves t s tag,
      e.Reason = ERROR_TYPE_CONVERSION_FAILED ∨ e.Reason = ERROR_NOT_IMPLEMENT
  | .int k, s, tag, e, he => by
    rw [Initialiser.leaves] at he
    split at he
    · rw [List.mem_singleton] at he; subst he; exact Or.inl rfl
    · cases he
  | .uint k, s, tag, e, he => by
    rw [Initialiser.leaves] at he
    split at he
    · rw [List.mem_singleton] at he; subst he; exact Or.inl rfl
    · cases he
  | .string, s, tag, e, he => by rw [Initialiser.leaves] at he; cases he
  | .other k, s, tag, e, he => by
    rw [Initialiser.leaves, List.mem_singleton] at he; subst he; exact Or.inr rfl
  | .ptr elem, s, tag, e, he => by
    rw [leaves_ptr] at he
    split at he
    · exact leaves_reason self elem s tag e he
    · cases he
  | .struct name fs, s, tag, e, he => by
    rw [leaves_struct] at he
    exact leavesFields_reason self fs s e he
/-- The same, for the fields of a struct. -/
theorem leavesFields_reason (self : Initialiser) :
    ∀ (fs : List StructField) (s : String), ∀ e ∈ self.leavesFields fs s,
      e.Reason = ERROR_TYPE_CONVERSION_FAILED ∨ e.Reason = ERROR_NOT_IMPLEMENT
  | [], s, e, he => by rw [Initialiser.leavesFields] at he; cases he
  | .mk n t tag a :: rest, s, e, he => by
    rw [leavesFields_cons] at he
    rcases List.mem_append.1 he with he | he
    · cases a with
      | true => rw [leavesField_anonymous] at he; exact leaves_reason self t _ _ e he
      | false => rw [leavesField_named] at he; exact leaves_reason self t _ _ e he
    · exact leavesFields_reason self rest s e he
end

/-- The error of a run reports the failing fields of the run. -/
theorem reports_errorOf (self : Initialiser) :
    ∀ (n : Nat) (t : Ty) (s tag : String), t.size ≤ n → self.safe t tag = true →
      Reports (self.leaves t s tag) (self.errorOf s tag t) := by
  intro n
  induction n with
  | zero =>
    intro t s tag h
    have := Ty.size_pos t
    omega
  | succ n ih =>
    intro t s tag hsize hsafe
    cases t with
    | int k =>
      rw [errorOf_int, Initialiser.leaves]
      split
      · exact Or.inr (Or.inl ⟨_, rfl, rfl⟩)
      · exact Or.inl ⟨rfl, rfl⟩
    | uint k =>
      rw [errorOf_uint, Initialiser.leaves]
      split
      · exact Or.inr (Or.inl ⟨_, rfl, rfl⟩)
      · exact Or.inl ⟨rfl, rfl⟩
    | string =>
      rw [errorOf_string, Initialiser.leaves]
      exact Or.inl ⟨rfl, rfl⟩
    | other k =>
      rw [errorOf_other, Initialiser.leaves]
      exact Or.inr (Or.inl ⟨_, rfl, rfl⟩)
    | ptr elem =>
      rw [errorOf_ptr self s tag elem, leaves_ptr]
      rw [safe_ptr] at hsafe
      simp only [Ty.size] at hsize
      by_cases ha : self.allocates elem tag = true
      · rw [if_pos ha, if_pos ha]
        exact ih elem s tag (by omega) (by simpa [ha] using hsafe)
      · rw [if_neg ha, if_neg ha]
        exact Or.inl ⟨rfl, rfl⟩
    | struct name fields =>
      rw [safe_struct] at hsafe
      obtain ⟨slots, hslots, hE⟩ := errorOf_struct self s tag name fields hsafe
      have hperm : slots.Perm (slotsOfFields fields 0) := by
        have := dispatchOrder_perm _ _ _ hslots
        simpa [slotsUnder_root] using this
      rw [hE, leaves_struct, leavesFields_eq_flatMap self s fields 0 hsafe]
      refine Reports.perm ?_ (hperm.flatMap_right _)
      refine reports_merged _ _ s slots ?_
      intro sl hsl
      have hmem := hperm.mem_iff.1 hsl
      have hsz := slotsOfFields_size fields 0 sl hmem
      have hty := slotsOfFields_typed self fields 0 [] (zeroFields fields) rfl
        (zeroFields_hasTypes fields) hsafe sl hmem
      simp only [Ty.size] at hsize
      exact ih sl.2.Typ _ _ (by omega) hty.2.1

end StructInitializer

namespace StructInitializer

/-! ## The integer, unsigned-integer and string setters -/

theorem wrapInt_of_inIntRange (k : IntKind) (p : Int) (h : inIntRange k.bits p) :
    wrapInt k.bits p = p := by
  cases k <;> simp only [inIntRange, IntKind.bits, wrapInt] at * <;> omega

theorem wrapUint_of_lt (k : UintKind) (p : Nat) (h : p < 2 ^ k.bits) :
    wrapUint k.bits p = p := by
  unfold wrapUint
  exact Nat.mod_eq_of_lt h

/-- C3, as the code has it.  On a field the setter may write to (one that is
not read-only, or one that holds a non-zero value, which no setter writes to),
with a non-empty tag that parses at 64 bits, each setter returns success; a
zero field receives the parsed value converted to the field's own bit width,
which lies in the range of the field's type and is the parsed value itself
exactly when that value fits the field's type, while a non-zero field keeps
its value; the string setter stores the tag verbatim in an empty field; with
an empty tag every setter returns success and leaves the field unchanged. -/
theorem setters_postcondition (self : Initialiser) (stackName : String) :
    (∀ (tag : String) (k : IntKind) (v p : Int) (ro : Bool), tag ≠ "" →
      ParseInt tag 64 = some p → (v = 0 → ro = false) →
      self.initialiseInt stackName tag ⟨.int k, .int v, ro⟩ =
          .ret (.int (if v = 0 then wrapInt k.bits p else v), none) ∧
        inIntRange k.bits (wrapInt k.bits p) ∧
        (wrapInt k.bits p = p ↔ inIntRange k.bits p)) ∧
    (∀ (tag : String) (k : UintKind) (v p : Nat) (ro : Bool), tag ≠ "" →
      ParseUint tag 64 = some p → (v = 0 → ro = false) →
      self.initialiseUint stackName tag ⟨.uint k, .uint v, ro⟩ =
          .ret (.uint (if v = 0 then wrapUint k.bits p else v), none) ∧
        wrapUint k.bits p < 2 ^ k.bits ∧
        (wrapUint k.bits p = p ↔ p < 2 ^ k.bits)) ∧
    (∀ (tag v : String) (ro : Bool), tag ≠ "" → (v = "" → ro = false) →
      self.initialiseString stackName tag ⟨.string, .str v, ro⟩ =
        .ret (.str (if v = "" then tag else v), none)) ∧
    (∀ val : Value,
      self.initialiseInt stackName "" val = .ret (val.data, none) ∧
      self.initialiseUint stackName "" val = .ret (val.data, none) ∧
      self.initialiseString stackName "" val = .ret (val.data, none)) := by
  refine ⟨?_, ?_, ?_, ?_⟩
  · intro tag k v p ro htag hparse hro
    refine ⟨?_, wrapInt_inIntRange k p,
      fun h => by rw [← h]; exact wrapInt_inIntRange k p, wrapInt_of_inIntRange k p⟩
    unfold Initialiser.initialiseInt
    rw [if_pos htag, hparse]
    by_cases hv : v = 0
    · simp [Value.Int, Value.SetInt, hv, hro hv]
    · simp [Value.Int, hv]
  · intro tag k v p ro htag hparse hro
    refine ⟨?_, wrapUint_lt k p,
      fun h => by rw [← h]; exact wrapUint_lt k p, wrapUint_of_lt k p⟩
    unfold Initialiser.initialiseUint
    rw [if_pos htag, hparse]
    by_cases hv : v = 0
    · simp [Value.Uint, Value.SetUint, hv, hro hv]
    · simp [Value.Uint, hv]
  · intro tag v ro htag hro
    unfold Initialiser.initialiseString
    rw [if_pos htag]
    by_cases hv : v = ""
    · simp [Value.String, Value.SetString, hv, hro hv]
    · simp [Value.String, hv]
  · intro val
    simp [Initialiser.initialiseInt, Initialiser.initialiseUint,
      Initialiser.initialiseString]

/-- C3, witness: an `int8` field holding zero with the tag `"100"`, which fits
the field, and a read-only `uint16` field holding `7` with the tag `"70000"`,
which does not. -/
theorem setters_postcondition_witness :
    (NewStructInitialiser.initialiseInt "T.A" "100" ⟨.int .Int8, .int 0, false⟩ =
        .ret (.int 100, none) ∧
      inIntRange IntKind.Int8.bits (wrapInt IntKind.Int8.bits 100) ∧
      (wrapInt IntKind.Int8.bits 100 = 100 ↔ inIntRange IntKind.Int8.bits 100)) ∧
    (NewStructInitialiser.initialiseUint "T.b" "70000" ⟨.uint .Uint16, .uint 7, true⟩ =
        .ret (.uint 7, none) ∧
      wrapUint UintKind.Uint16.bits 70000 < 2 ^ UintKind.Uint16.bits ∧
      (wrapUint UintKind.Uint16.bits 70000 = 70000 ↔ 70000 < 2 ^ UintKind.Uint16.bits)) :=
  ⟨(setters_postcondition NewStructInitialiser "T.A").1 "100" .Int8 0 100 false
      (by decide) rfl (fun _ => rfl),
    (setters_postcondition NewStructInitialiser "T.b").2.1 "70000" .Uint16 7 70000 true
      (by decide) rfl (fun h => absurd h (by decide))⟩

/-- C3 as stated fails on a narrow field and on a read-only field.  The tag
`"300"` parses at 64 bits to `300`, the `int8` field holds zero and may be
written to, and the field ends at `44`, not at the parsed value.  On a field
that holds zero and was obtained through a field that is not exported, the
setter does not return: `SetInt` panics. -/
theorem setters_postcondition_narrow_counterexample :
    ParseInt "300" 64 = some 300 ∧
    NewStructInitialiser.initialiseInt "T.A" "300" ⟨.int .Int8, .int 0, false⟩ =
      .ret (.int 44, none) ∧
    NewStructInitialiser.initialiseInt "T.A" "300" ⟨.int .Int8, .int 0, false⟩ ≠
      .ret (.int 300, none) ∧
    ParseInt "10" 64 = some 10 ∧
    NewStructInitialiser.initialiseInt "T.a" "10" ⟨.int .Int, .int 0, true⟩ = .panic := by
  have h : NewStructInitialiser.initialiseInt "T.A" "300" ⟨.int .Int8, .int 0, false⟩ =
      .ret (.int 44, none) := rfl
  refine ⟨rfl, h, ?_, rfl, rfl⟩
  rw [h]
  simp

/-- C4. An integer (unsigned-integer) setter whose tag is non-empty and does
not parse as a base-10 signed (unsigned) 64-bit integer returns the error
`TypeConversionFailed` with the field path as path label and the quoted tag
followed by `can't convert to int64` (`uint64`) as message, and it leaves the
field as it was, whatever the field holds and whether or not it is
read-only. -/
theorem conversion_failure (self : Initialiser) (stackName tag : String)
    (val : Value) (htag : tag ≠ "") :
    (ParseInt tag 64 = none →
      self.initialiseInt stackName tag val =
        .ret (val.data,
          some { Reason := "TypeConversionFailed",
                 Message := "\"" ++ tag ++ "\" can't convert to int64",
                 Stack := stackName })) ∧
    (ParseUint tag 64 = none →
      self.initialiseUint stackName tag val =
        .ret (val.data,
          some { Reason := "TypeConversionFailed",
                 Message := "\"" ++ tag ++ "\" can't convert to uint64",
                 Stack := stackName })) := by
  constructor
  · intro h
    unfold Initialiser.initialiseInt
    rw [if_pos htag, h]
    rfl
  · intro h
    unfold Initialiser.initialiseUint
    rw [if_pos htag, h]
    rfl

/-- C4, witness: the field `AInt` of `TWrongStruct`, of kind `int` and holding
`7`, and a `uint` field holding zero, both with the tag `"hhhhh"`, which
parses neither as a signed nor as an unsigned integer. -/
theorem conversion_failure_witness :
    ParseInt "hhhhh" 64 = none ∧ ParseUint "hhhhh" 64 = none ∧
    NewStructInitialiser.initialiseInt "TWrongStruct.AInt" "hhhhh"
        ⟨.int .Int, .int 7, false⟩ =
      .ret (.int 7,
        some { Reason := "TypeConversionFailed",
               Message := "\"hhhhh\" can't convert to int64",
               Stack := "TWrongStruct.AInt" }) ∧
    NewStructInitialiser.initialiseUint "T.AUint" "hhhhh" ⟨.uint .Uint, .uint 0, false⟩ =
      .ret (.uint 0,
        some { Reason := "TypeConversionFailed",
               Message := "\"hhhhh\" can't convert to uint64",
               Stack := "T.AUint" }) :=
  ⟨rfl, rfl,
    (conversion_failure NewStructInitialiser "TWrongStruct.AInt" "hhhhh"
      ⟨.int .Int, .int 7, false⟩ (by decide)).1 rfl,
    (conversion_failure NewStructInitialiser "T.AUint" "hhhhh"
      ⟨.uint .Uint, .uint 0, false⟩ (by decide)).2 rfl⟩

/-! ## The pointer setter -/

/-- C7. With the tag `"-"` the pointer setter returns success and leaves the
pointer exactly as it was, for every pointee type. -/
theorem pointer_opt_out (self : Initialiser) (stackName : String) (val : Value) :
    self.initialisePtr stackName "-" val = .ret (val.data, none) := by
  simp [Initialiser.initialisePtr, initialisePtrStep]

/-! ## The entry point -/

/-- C6, counterexample: on the nil interface, an input that is not a pointer,
`Initialise` returns no error: `reflect.TypeOf` gives the nil `Type` and
`typ.Kind()` panics. -/
theorem Initialise_entry_nil_counterexample :
    InitializeStruct (fun _ => "T") .nil = .panic ∧
    ∀ e : Option Error, InitializeStruct (fun _ => "T") .nil ≠ .ret (.ptr none, e) :=
  ⟨rfl, fun e h => by cases h⟩

/-- C6, amended. On an interface that holds a value: if the value is not a
pointer, `Initialise` returns `NotAPointer` with an empty path label; if it is
a pointer that is nil or whose target is not a struct, `Initialise` returns
`PointToNonStruct` with an empty path label; in both cases the input is
returned as it was.  On a pointer to a struct it returns what the struct
walker returns, started with the struct type's name on the target, which is
not read-only. -/
theorem Initialise_entry (self : Initialiser) (typeString : Ty → String) :
    (∀ (typ : Ty) (data : Val), typ.Kind ≠ Kind.Ptr →
      self.Initialise typeString (.of typ data) =
        .ret (data,
          some { Reason := "NotAPointer",
                 Message := typeString typ ++ " not a pointer",
                 Stack := "" })) ∧
    (∀ elem : Ty,
      self.Initialise typeString (.of (.ptr elem) (.ptr none)) =
        .ret (.ptr none,
          some { Reason := "PointToNonStruct",
                 Message := typeString (.ptr elem) ++ " point to non struct",
                 Stack := "" })) ∧
    (∀ (elem : Ty) (d : Val), elem.Kind ≠ Kind.Struct →
      self.Initialise typeString (.of (.ptr elem) (.ptr (some d))) =
        .ret (.ptr (some d),
          some { Reason := "PointToNonStruct",
                 Message := typeString (.ptr elem) ++ " point to non struct",
                 Stack := "" })) ∧
    (∀ (name : String) (fields : List StructField) (d : Val),
      self.Initialise typeString (.of (.ptr (.struct name fields)) (.ptr (some d))) =
        match self.initialiseStruct name ⟨.struct name fields, d, false⟩ with
        | .ret (pointee, err) => .ret (.ptr (some pointee), err)
        | .panic => .panic
        | .diverge => .diverge) := by
  refine ⟨?_, ?_, ?_, ?_⟩
  · intro typ data h
    unfold Initialiser.Initialise
    simp only [h, ne_eq, not_false_eq_true, if_true]
    rfl
  · intro elem
    simp [Initialiser.Initialise, ValueOf, Ty.Kind, Value.Elem, kindOf, NewError,
      ERROR_POINTE_TO_NON_STRUCT]
  · intro elem d h
    have hk : (Ty.ptr elem).Kind = Kind.Ptr := rfl
    simp only [Initialiser.Initialise, ValueOf, hk, Value.Elem, kindOf, ne_eq,
      not_true_eq_false, if_false, h, not_false_eq_true, if_true, NewError,
      ERROR_POINTE_TO_NON_STRUCT]
  · intro name fields d
    exact Initialise_struct_eq self typeString name fields d

/-- C6, witness: `TStruct` passed by value, and a pointer to an `int`. -/
theorem Initialise_entry_witness :
    NewStructInitialiser.Initialise (fun _ => "T") (.of TStruct TStruct.zero) =
        .ret (TStruct.zero,
          some { Reason := "NotAPointer",
                 Message := "T not a pointer",
                 Stack := "" }) ∧
    NewStructInitialiser.Initialise (fun _ => "T")
        (.of (.ptr (.int .Int)) (.ptr (some (.int 100)))) =
        .ret (.ptr (some (.int 100)),
          some { Reason := "PointToNonStruct",
                 Message := "T point to non struct",
                 Stack := "" }) :=
  ⟨(Initialise_entry NewStructInitialiser (fun _ => "T")).1 TStruct TStruct.zero
      (by decide),
   (Initialise_entry NewStructInitialiser (fun _ => "T")).2.2.1 (.int .Int) (.int 100)
      (by decide)⟩

end StructInitializer

namespace StructInitializer

/-! ## Error aggregation -/

theorem intercalate_go_eq (sep : String) (rest : List String) :
    ∀ (acc b : String),
      String.intercalate.go acc sep (b :: rest) = acc ++ sep ++ Join (b :: rest) sep := by
  induction rest with
  | nil => intro acc b; simp [String.intercalate.go, Join]
  | cons c rest ih =>
    intro acc b
    rw [String.intercalate.go, ih, Join]
    simp [String.append_assoc]

theorem Join_eq_intercalate (l : List String) (sep : String) :
    Join l sep = sep.intercalate l := by
  cases l with
  | nil => rfl
  | cons a rest =>
    cases rest with
    | nil => simp [Join, String.intercalate, String.intercalate.go]
    | cons b rest =>
      rw [String.intercalate, intercalate_go_eq, Join]

/-- C10. `mergedError` returns no error for the empty list, the single element
itself for a one-element list, and for two or more errors a new error with
reason `MultiErrorsFound`, path label the given stack name, and message the
renderings of the children, each prefixed with `"* "`, joined by newlines in
the order of the list. -/
theorem mergedError_spec (stackName : String) :
    mergedError [] stackName = none ∧
    (∀ e : Error, mergedError [e] stackName = some e) ∧
    (∀ (e1 e2 : Error) (rest : List Error),
      mergedError (e1 :: e2 :: rest) stackName =
        some { Reason := "MultiErrorsFound",
               Message := "\n".intercalate
                 ((e1 :: e2 :: rest).map (fun e => "* " ++ e.Error)),
               Stack := stackName }) := by
  refine ⟨rfl, fun _ => rfl, fun e1 e2 rest => ?_⟩
  simp only [mergedError, ERROR_MULTI_ERRORS_FOUND, Join_eq_intercalate]

end StructInitializer

namespace StructInitializer

/-! ## Plain structs -/

theorem plainFields_cons (self : Initialiser) (f : StructField) (rest : List StructField) :
    self.plainFields (f :: rest) = (self.plainField f && self.plainFields rest) := by
  rw [Initialiser.plainFields]

theorem plainField_mk (self : Initialiser) (n : String) (t : Ty) (tag : StructTag)
    (anon : Bool) :
    self.plainField (.mk n t tag anon) =
      ((anon || isExported n) && self.plainSlot t (tag.Get self.config.TagName) anon) := by
  rw [Initialiser.plainField]

theorem plainSlot_struct (self : Initialiser) (name : String) (fs : List StructField)
    (tag : String) (anon : Bool) :
    self.plainSlot (.struct name fs) tag anon = self.plainFields fs := by
  rw [Initialiser.plainSlot]

theorem ParseInt_empty_any (b : Nat) : ParseInt "" b = none := by
  unfold ParseInt
  simp

theorem ParseUint_empty_any (b : Nat) : ParseUint "" b = none := by
  unfold ParseUint
  simp

theorem cutoffCheck_of_kind (neg : Bool) (un : Nat) (k : IntKind) (p : Int)
    (h : cutoffCheck neg un k.bits = some p) :
    cutoffCheck neg un 64 = some p ∧ inIntRange k.bits p := by
  have hpow : (2 : Nat) ^ (k.bits - 1) ≤ 2 ^ (64 - 1) :=
    Nat.pow_le_pow_right (by decide) (by cases k <;> simp [IntKind.bits])
  have hcast : (2 : Int) ^ (k.bits - 1) = ((2 ^ (k.bits - 1) : Nat) : Int) := by
    push_cast; rfl
  have hpos : 0 < (2 : Nat) ^ (k.bits - 1) := Nat.pos_pow_of_pos _ (by decide)
  unfold cutoffCheck at h ⊢
  unfold inIntRange
  rw [hcast]
  cases neg with
  | false =>
    simp only [true_and, Bool.false_eq_true, false_and, if_false, ge_iff_le] at h ⊢
    by_cases h1 : 2 ^ (k.bits - 1) ≤ un
    · rw [if_pos h1] at h; cases h
    · rw [if_neg h1] at h
      injection h with h
      rw [if_neg (by omega)]
      subst h
      exact ⟨rfl, by omega, by omega⟩
  | true =>
    simp only [Bool.true_eq_false, false_and, if_false, true_and, if_true, gt_iff_lt] at h ⊢
    by_cases h1 : 2 ^ (k.bits - 1) < un
    · rw [if_pos h1] at h; cases h
    · rw [if_neg h1] at h
      injection h with h
      rw [if_neg (by omega)]
      subst h
      exact ⟨rfl, by omega, by omega⟩

/-- A tag that parses at the bit size of a kind parses at 64 bits, to the same
value, and the value is in the range of the kind. -/
theorem ParseInt_of_kind (tag : String) (k : IntKind) (p : Int)
    (h : ParseInt tag k.bits = some p) :
    ParseInt tag 64 = some p ∧ inIntRange k.bits p := by
  unfold ParseInt at h ⊢
  by_cases hs : tag = ""
  · rw [if_pos hs] at h; cases h
  · rw [if_neg hs] at h ⊢
    by_cases hd : unsignedPart tag = []
    · rw [if_pos hd] at h; cases h
    · rw [if_neg hd] at h ⊢
      cases hp : parseDigits (unsignedPart tag) 0 with
      | none => rw [hp] at h; cases h
      | some un =>
        rw [hp] at h
        exact cutoffCheck_of_kind _ un k p h

/-- The same for unsigned tags. -/
theorem ParseUint_of_kind (tag : String) (k : UintKind) (p : Nat)
    (h : ParseUint tag k.bits = some p) :
    ParseUint tag 64 = some p ∧ p < 2 ^ k.bits := by
  have hpow : (2 : Nat) ^ k.bits ≤ 2 ^ 64 :=
    Nat.pow_le_pow_right (by decide) (by cases k <;> simp [UintKind.bits])
  unfold ParseUint at h ⊢
  by_cases hs : tag = ""
  · rw [if_pos hs] at h; cases h
  · rw [if_neg hs] at h ⊢
    cases hp : parseDigits tag.data 0 with
    | none => rw [hp] at h; cases h
    | some n =>
      rw [hp] at h
      simp only at h ⊢
      by_cases hlt : n < 2 ^ k.bits
      · rw [if_pos hlt] at h
        injection h with h
        subst h
        rw [if_pos (by omega)]
        exact ⟨rfl, hlt⟩
      · rw [if_neg hlt] at h; cases h

theorem fill_zero_int (self : Initialiser) (k : IntKind) (tag : String) :
    self.fill (.int k) tag (Ty.int k).zero = self.defaults (.int k) tag := by
  rw [Ty.zero, fill_int, Initialiser.defaults]
  cases ParseInt tag 64 <;> simp

theorem fill_zero_uint (self : Initialiser) (k : UintKind) (tag : String) :
    self.fill (.uint k) tag (Ty.uint k).zero = self.defaults (.uint k) tag := by
  rw [Ty.zero, fill_uint, Initialiser.defaults]
  cases ParseUint tag 64 <;> simp

theorem fill_zero_string (self : Initialiser) (tag : String) :
    self.fill .string tag Ty.string.zero = self.defaults .string tag := by
  rw [Ty.zero, fill_string, Initialiser.defaults]
  by_cases h : tag = ""
  · simp [h]
  · simp [h]

mutual
/-- On a plain type a run on the zero value returns, with no error, and takes
the zero value to the defaults. -/
theorem plainSlot_run (self : Initialiser) :
    ∀ (t : Ty) (tag : String) (anon : Bool), self.plainSlot t tag anon = true →
      (anon = true → t.Kind = Kind.Struct) ∧
      self.runs false t (if anon then "" else tag) t.zero = true ∧
      self.fails t (if anon then "" else tag) = false ∧
      self.fill t (if anon then "" else tag) t.zero = self.defaults t tag
  | .int k, tag, anon, h => by
    rw [Initialiser.plainSlot] at h
    cases anon with
    | true => simp at h
    | false =>
      simp only [Bool.not_false, Bool.true_and, Bool.or_eq_true, decide_eq_true_eq] at h
      refine ⟨(by simp), (by simp [Initialiser.runs, Ty.zero]), ?_, fill_zero_int self k tag⟩
      rcases h with h | h
      · simp [Initialiser.fails, h]
      · simp only [Bool.false_eq_true, if_false, Initialiser.fails]
        cases hp : ParseInt tag 64 with
        | none => rw [hp] at h; cases h
        | some p => simp
  | .uint k, tag, anon, h => by
    rw [Initialiser.plainSlot] at h
    cases anon with
    | true => simp at h
    | false =>
      simp only [Bool.not_false, Bool.true_and, Bool.or_eq_true, decide_eq_true_eq] at h
      refine ⟨(by simp), (by simp [Initialiser.runs, Ty.zero]), ?_, fill_zero_uint self k tag⟩
      rcases h with h | h
      · simp [Initialiser.fails, h]
      · simp only [Bool.false_eq_true, if_false, Initialiser.fails]
        cases hp : ParseUint tag 64 with
        | none => rw [hp] at h; cases h
        | some p => simp
  | .string, tag, anon, h => by
    rw [Initialiser.plainSlot] at h
    cases anon with
    | true => simp at h
    | false =>
      exact ⟨(by simp), (by simp [Initialiser.runs, Ty.zero]), (by simp [Initialiser.fails]),
        fill_zero_string self tag⟩
  | .ptr e, tag, anon, h => by simp [Initialiser.plainSlot] at h
  | .other k, tag, anon, h => by simp [Initialiser.plainSlot] at h
  | .struct name fs, tag, anon, h => by
    rw [plainSlot_struct] at h
    obtain ⟨h1, h2, h3⟩ := plainFields_run self fs h
    refine ⟨fun _ => rfl, (by rw [Ty.zero, runs_struct]; exact h1),
      (by rw [fails_struct]; exact h2), ?_⟩
    rw [Ty.zero, fill_struct, h3, Initialiser.defaults]
/-- The same, for the fields of a plain struct. -/
theorem plainFields_run (self : Initialiser) :
    ∀ fs : List StructField, self.plainFields fs = true →
      self.runsFields false fs (zeroFields fs) = true ∧ self.failsFields fs = false ∧
      self.fillFields fs (zeroFields fs) = self.defaultsFields fs
  | [], _ => by
    refine ⟨runsFields_nil self false _, (by rw [Initialiser.failsFields]), ?_⟩
    rw [zeroFields, fillFields_nil, Initialiser.defaultsFields]
  | .mk n t tag anon :: rest, h => by
    rw [plainFields_cons, Bool.and_eq_true, plainField_mk, Bool.and_eq_true] at h
    obtain ⟨⟨hx, hp⟩, hrest⟩ := h
    obtain ⟨h1, h2, h3, h4⟩ := plainSlot_run self t (tag.Get self.config.TagName) anon hp
    obtain ⟨r1, r2, r3⟩ := plainFields_run self rest hrest
    refine ⟨?_, ?_, ?_⟩
    · rw [zeroFields, zeroField, runsFields_cons, r1, Bool.and_true]
      cases anon with
      | true => rw [runsField_anonymous]; simp [h1 rfl]; simpa using h2
      | false =>
        have hx' : isExported n = true := by simpa using hx
        rw [runsField_named, hx']
        simpa using h2
    · rw [failsFields_cons, r2, Bool.or_false]
      cases anon with
      | true => rw [failsField_anonymous]; simpa using h3
      | false => rw [failsField_named]; simpa using h3
    · rw [zeroFields, zeroField, fillFields_cons, r3, Initialiser.defaultsFields,
        Initialiser.defaultsField]
      congr 1
      cases anon with
      | true => rw [fillField_anonymous]; simpa using h4
      | false => rw [fillField_named]; simpa using h4
end

/-- C1 as stated fails on a field that is not exported and on a default that
does not fit its field.  `struct { aInt int "default:\"10\"" }` is built from a
signed-integer field whose tag parses, yet `InitializeStruct` on a pointer to
its zero instance panics in `SetInt` instead of returning.  In
`struct { A int8 "default:\"300\"" }` the tag parses to 300, and the field
ends at 44. -/
theorem Initialise_plain_counterexample :
    InitializeStruct (fun _ => "T") (addressOf TUnexported TUnexported.zero) = .panic ∧
    ParseInt "300" 64 = some 300 ∧
    InitializeStruct (fun _ => "T") (addressOf TNarrow TNarrow.zero) =
      .ret (.ptr (some (.struct [.int 44])), none) :=
  ⟨rfl, rfl, rfl⟩

/-- C1, as the code has it.  On a pointer to the all-zero instance of a plain
struct (built from signed-integer, unsigned-integer and string fields and from
nested struct fields, named or embedded, of the same shape, every field that
is not embedded being exported and every non-empty tag of an integer field
parsing at 64 bits), `Initialise` returns no error and leaves in every field,
at every depth, its default: in a tagged integer field the parsed value of its
tag converted to the width of the field, which is the parsed value itself when
the tag parses at that width, in a tagged string field the tag, and zero in an
untagged field. -/
theorem Initialise_plain (self : Initialiser) (typeString : Ty → String) (name : String)
    (fields : List StructField) (h : self.plainFields fields = true) :
    self.Initialise typeString
        (.of (.ptr (.struct name fields)) (.ptr (some (Ty.struct name fields).zero))) =
      .ret (.ptr (some (.struct (self.defaultsFields fields))), none) ∧
    (∀ (k : IntKind) (tag : String) (p : Int), ParseInt tag k.bits = some p →
      self.defaults (.int k) tag = .int p) ∧
    (∀ (k : UintKind) (tag : String) (p : Nat), ParseUint tag k.bits = some p →
      self.defaults (.uint k) tag = .uint p) ∧
    (∀ tag : String, self.defaults .string tag = .str tag) ∧
    (∀ k : IntKind, self.defaults (.int k) "" = .int 0) ∧
    (∀ k : UintKind, self.defaults (.uint k) "" = .uint 0) := by
  refine ⟨?_, ?_, ?_, ?_, ?_, ?_⟩
  · obtain ⟨h1, h2, h3⟩ := plainFields_run self fields h
    have he := errorOf_isSome self _ name "" (.struct name fields) (le_refl _)
      (by rw [safe_struct]
          exact runsFields_safe self fields false _ (zeroFields_hasTypes fields) h1)
    rw [fails_struct, h2] at he
    rw [Ty.zero, Initialise_run self typeString name fields (zeroFields fields)
      (zeroFields_hasTypes fields), if_pos h1, h3]
    cases hE : self.errorOf name "" (.struct name fields) with
    | none => rfl
    | some e => rw [hE] at he; cases he
  · intro k tag p hp
    obtain ⟨h1, h2⟩ := ParseInt_of_kind tag k p hp
    simp [Initialiser.defaults, h1, wrapInt_of_inIntRange k p h2]
  · intro k tag p hp
    obtain ⟨h1, h2⟩ := ParseUint_of_kind tag k p hp
    simp [Initialiser.defaults, h1, wrapUint_of_lt k p h2]
  · intro tag
    simp [Initialiser.defaults]
  · intro k
    simp [Initialiser.defaults, ParseInt_empty_any]
  · intro k
    simp [Initialiser.defaults, ParseUint_empty_any]

/-- C1, witness: `TEmbeddStruct` becomes `{{10, "hello"}, 101}` and
`TAnonymousStruct` becomes `{{10, "hello"}, 20}`. -/
theorem Initialise_plain_witness :
    NewStructInitialiser.Initialise (fun _ => "T")
        (.of (.ptr TEmbeddStruct) (.ptr (some TEmbeddStruct.zero))) =
      .ret (.ptr (some (.struct [.struct [.int 10, .str "hello"], .int 101])), none) ∧
    NewStructInitialiser.Initialise (fun _ => "T")
        (.of (.ptr TAnonymousStruct) (.ptr (some TAnonymousStruct.zero))) =
      .ret (.ptr (some (.struct [.struct [.int 10, .str "hello"], .uint 20])), none) :=
  ⟨(Initialise_plain NewStructInitialiser (fun _ => "T") "TEmbeddStruct"
    [.mk "AStruct" TStruct [] false, .mk "AInt" (.int .Int) (defaultTag "101") false]
    (by decide)).1,
   (Initialise_plain NewStructInitialiser (fun _ => "T") "TAnonymousStruct"
    [.mk "TStruct" TStruct [] true, .mk "AUint" (.uint .Uint16) (defaultTag "20") false]
    (by decide)).1⟩

/-! ## Never-clobber -/

/-- C2, at the failing input: `TPointerStruct` with `AStructPtr` pointing at
`{5, "x"}` and `AIntPtr` pointing at `7`.  After `Initialise` both pointers
point at fresh pointees holding the defaults: the values the caller had set
are gone. -/
theorem pointer_fields_overwritten :
    InitializeStruct (fun _ => "T")
        (addressOf TPointerStruct
          (.struct [.ptr (some (.struct [.int 5, .str "x"])), .ptr (some (.int 7)),
            .ptr none, .ptr none, .ptr none])) =
      .ret (.ptr (some
          (.struct [.ptr (some (.struct [.int 10, .str "hello"])), .ptr (some (.int 20)),
            .ptr none, .ptr none, .ptr none])), none) := rfl

/-! ## Idempotence -/

mutual
/-- A run on the result of a run that returns, returns. -/
theorem runs_fill (self : Initialiser) :
    ∀ (t : Ty) (ro : Bool) (tag : String) (v : Val), v.HasType t →
      self.runs ro t tag v = true → self.runs ro t tag (self.fill t tag v) = true
  | .int k, ro, tag, v, hv, h => by
    obtain ⟨i, rfl, _⟩ := hasType_int_inv hv
    rw [fill_int]
    rw [Initialiser.runs] at h
    cases hp : ParseInt tag 64 with
    | none => simp only; rw [Initialiser.runs]; exact h
    | some p =>
      by_cases h0 : i = 0
      · simp only [h0, if_true]
        rw [Initialiser.runs]
        simp only [hp, h0, Option.isSome_some, decide_True, Bool.and_true,
          Bool.not_eq_true_eq_eq_false, Bool.and_eq_false_iff] at h
        rcases h with h | h
        · simp [h]
        · simp [h]
      · simp only [h0, if_false]; rw [Initialiser.runs]; exact h
  | .uint k, ro, tag, v, hv, h => by
    obtain ⟨i, rfl, _⟩ := hasType_uint_inv hv
    rw [fill_uint]
    rw [Initialiser.runs] at h
    cases hp : ParseUint tag 64 with
    | none => simp only; rw [Initialiser.runs]; exact h
    | some p =>
      by_cases h0 : i = 0
      · simp only [h0, if_true]
        rw [Initialiser.runs]
        simp only [hp, h0, Option.isSome_some, decide_True, Bool.and_true,
          Bool.not_eq_true_eq_eq_false, Bool.and_eq_false_iff] at h
        rcases h with h | h
        · simp [h]
        · simp [h]
      · simp only [h0, if_false]; rw [Initialiser.runs]; exact h
  | .string, ro, tag, v, hv, h => by
    obtain ⟨x, rfl⟩ := hasType_string_inv hv
    rw [fill_string]
    rw [Initialiser.runs] at h
    by_cases hc : tag ≠ "" ∧ x = ""
    · rw [if_pos hc, Initialiser.runs]
      simp only [hc.1, hc.2, ne_eq, not_false_eq_true, decide_True, Bool.and_true,
        Bool.not_eq_true_eq_eq_false] at h
      simp [h]
    · rw [if_neg hc]; rw [Initialiser.runs]; exact h
  | .other k, ro, tag, v, hv, h => by rw [fill_other]; exact h
  | .ptr elem, ro, tag, v, hv, h => by
    rw [runs_ptr] at h ⊢
    exact h
  | .struct name fs, ro, tag, v, hv, h => by
    obtain ⟨vs, rfl, hvs⟩ := hasType_struct_inv hv
    rw [runs_struct] at h
    rw [fill_struct, runs_struct]
    exact runsFields_fill self fs ro vs hvs h
/-- The same, for the fields of a struct. -/
theorem runsFields_fill (self : Initialiser) :
    ∀ (fs : List StructField) (ro : Bool) (vs : List Val), HasTypes vs fs →
      self.runsFields ro fs vs = true →
      self.runsFields ro fs (self.fillFields fs vs) = true
  | [], ro, vs, _, _ => runsFields_nil self ro _
  | .mk n t tag a :: rest, ro, vs, hvs, h => by
    obtain ⟨v, vs', rfl, hv, hrest⟩ := hasTypes_cons_inv hvs
    rw [runsFields_cons, Bool.and_eq_true] at h
    rw [fillFields_cons, runsFields_cons, Bool.and_eq_true]
    refine ⟨?_, runsFields_fill self rest ro vs' hrest h.2⟩
    cases a with
    | true =>
      rw [runsField_anonymous, Bool.and_eq_true] at h ⊢
      rw [fillField_anonymous]
      exact ⟨h.1.1, runs_fill self t ro "" v hv h.1.2⟩
    | false =>
      rw [runsField_named] at h ⊢
      rw [fillField_named]
      exact runs_fill self t _ _ v hv h.1
end

/-- C5. If `Initialise` returns no error on a pointer to a struct instance,
then `Initialise` on the resulting instance returns no error again and leaves
the instance, pointees included, as it is. -/
theorem Initialise_idempotent (self : Initialiser) (typeString : Ty → String)
    (name : String) (fields : List StructField) (vs : List Val) (after : Val)
    (hvs : HasTypes vs fields)
    (h : self.Initialise typeString
        (.of (.ptr (.struct name fields)) (.ptr (some (.struct vs)))) = .ret (after, none)) :
    self.Initialise typeString (.of (.ptr (.struct name fields)) after) =
      .ret (after, none) := by
  obtain ⟨hr, _, rfl, hE⟩ := Initialise_ret self typeString name fields vs hvs _ _ h
  rw [Initialise_run self typeString name fields _ (fillFields_hasTypes self fields vs hvs),
    if_pos (runsFields_fill self fields false vs hvs hr), ← hE,
    fillFields_idem self fields vs hvs]

/-- C5, witness: `TPointerStruct`, starting from its zero value. -/
theorem Initialise_idempotent_witness :
    NewStructInitialiser.Initialise (fun _ => "T")
        (.of (.ptr TPointerStruct)
          (.ptr (some (.struct [.ptr (some (.struct [.int 10, .str "hello"])),
            .ptr (some (.int 20)), .ptr none, .ptr none, .ptr none])))) =
      .ret (.ptr (some (.struct [.ptr (some (.struct [.int 10, .str "hello"])),
            .ptr (some (.int 20)), .ptr none, .ptr none, .ptr none])), none) :=
  Initialise_idempotent NewStructInitialiser (fun _ => "T") "TPointerStruct"
    [.mk "AStructPtr" (.ptr TStruct) [] false,
     .mk "AIntPtr" (.ptr (.int .Int32)) (defaultTag "20") false,
     .mk "AStrPtr" (.ptr .string) (defaultTag "-") false,
     .mk "AUintPtr" (.ptr (.uint .Uint)) [] false,
     .mk "ANormStruct" (.ptr TNormStruct) [] false]
    [.ptr none, .ptr none, .ptr none, .ptr none, .ptr none] _
    (by simp [HasTypes, Val.HasType]) rfl

end StructInitializer

namespace StructInitializer

/-! ## Pointer lazy allocation -/

/-- C8, as the code has it.  For a nil pointer field with an empty tag: when
the pointee is not a struct, or is a struct without a reachable default tag,
the setter succeeds and the pointer stays nil; when the pointee is a struct
with a reachable default tag, a new instance is initialised recursively, and
when that initialisation returns no error the pointer is bound to the new,
populated instance if the field can be set, while `Set` panics if the field
was obtained through a field that is not exported; when the initialisation
returns an error, the setter returns that error and leaves the pointer nil. -/
theorem pointer_lazy_allocation (self : Initialiser) (stackName : String) (elem : Ty) :
    ((elem.Kind ≠ Kind.Struct ∨ ¬ self.HasReachableTag elem) →
      ∀ ro : Bool,
        self.initialisePtr stackName "" ⟨.ptr elem, .ptr none, ro⟩ =
          .ret (.ptr none, none)) ∧
    (elem.Kind = Kind.Struct → self.HasReachableTag elem →
      (∀ pointee : Val,
        self.initialise stackName "" ⟨elem, elem.zero, false⟩ = .ret (pointee, none) →
        pointee = self.fill elem "" elem.zero ∧
        self.initialisePtr stackName "" ⟨.ptr elem, .ptr none, false⟩ =
          .ret (.ptr (some pointee), none) ∧
        self.initialisePtr stackName "" ⟨.ptr elem, .ptr none, true⟩ = .panic) ∧
      (∀ (pointee : Val) (err : Error) (ro : Bool),
        self.initialise stackName "" ⟨elem, elem.zero, false⟩ = .ret (pointee, some err) →
        self.initialisePtr stackName "" ⟨.ptr elem, .ptr none, ro⟩ =
          .ret (.ptr none, some err))) := by
  constructor
  · intro h ro
    have h' : elem.Kind ≠ Kind.Struct ∨ ¬ self.checkStructHasDefaultValue elem = true := by
      rcases h with h | h
      · exact Or.inl h
      · exact Or.inr (fun hc => h ((check_iff_reachable self elem).1 hc))
    unfold Initialiser.initialisePtr initialisePtrStep
    rw [if_neg (by decide)]
    simp only [Ty.Elem]
    rw [if_pos ⟨trivial, h'⟩]
  · intro hk hr
    have hc := (check_iff_reachable self elem).2 hr
    have hcond : ¬ (True ∧ (elem.Kind ≠ Kind.Struct ∨
        ¬ self.checkStructHasDefaultValue elem = true)) := by
      rintro ⟨_, h | h⟩
      · exact h hk
      · exact h hc
    constructor
    · intro pointee hrun
      have hfill := (initialise_ret self stackName "" elem false elem.zero
        (Ty.zero_hasType elem) _ hrun).2
      refine ⟨congrArg Prod.fst hfill, ?_, ?_⟩
      · unfold Initialiser.initialisePtr initialisePtrStep
        rw [if_neg (by decide)]
        simp only [Ty.Elem]
        rw [if_neg hcond, hrun]
        rfl
      · unfold Initialiser.initialisePtr initialisePtrStep
        rw [if_neg (by decide)]
        simp only [Ty.Elem]
        rw [if_neg hcond, hrun]
        rfl
    · intro pointee err ro hrun
      unfold Initialiser.initialisePtr initialisePtrStep
      rw [if_neg (by decide)]
      simp only [Ty.Elem]
      rw [if_neg hcond, hrun]

/-- C8, witness: in `TPointerStruct`, the field `AUintPtr`, whose pointee is
not a struct, stays nil, and the field `AStructPtr`, whose pointee `TStruct`
has default tags, is bound to `{10, "hello"}`. -/
theorem pointer_lazy_allocation_witness :
    NewStructInitialiser.initialisePtr "TPointerStruct.AUintPtr" ""
      ⟨.ptr (.uint .Uint), .ptr none, false⟩ = .ret (.ptr none, none) ∧
    NewStructInitialiser.initialisePtr "TPointerStruct.AStructPtr" ""
      ⟨.ptr TStruct, .ptr none, false⟩ =
        .ret (.ptr (some (.struct [.int 10, .str "hello"])), none) :=
  ⟨(pointer_lazy_allocation NewStructInitialiser "TPointerStruct.AUintPtr"
      (.uint .Uint)).1 (Or.inl (by decide)) false,
   (((pointer_lazy_allocation NewStructInitialiser "TPointerStruct.AStructPtr"
      TStruct).2 rfl ((check_iff_reachable NewStructInitialiser TStruct).1 rfl)).1
      (.struct [.int 10, .str "hello"]) rfl).2.1⟩

/-- C8 as stated fails when the pointee's defaults do not parse: `TWrongStruct`
is a struct with a reachable default tag, yet the nil pointer with an empty
tag is still nil after the setter, which returns the pointee's error; so the
field `P` of `TWrongPointer` is nil after `InitializeStruct`. -/
theorem pointer_lazy_allocation_counterexample :
    TWrongStruct.Kind = Kind.Struct ∧
    NewStructInitialiser.HasReachableTag TWrongStruct ∧
    NewStructInitialiser.initialisePtr "TWrongPointer.P" ""
        ⟨.ptr TWrongStruct, .ptr none, false⟩ =
      .ret (.ptr none,
        some { Reason := "TypeConversionFailed",
               Message := "\"hhhhh\" can't convert to int64",
               Stack := "TWrongPointer.P.AInt" }) ∧
    InitializeStruct (fun _ => "T") (addressOf TWrongPointer TWrongPointer.zero) =
      .ret (.ptr (some (.struct [.ptr none])),
        some { Reason := "TypeConversionFailed",
               Message := "\"hhhhh\" can't convert to int64",
               Stack := "TWrongPointer.P.AInt" }) :=
  ⟨rfl, (check_iff_reachable NewStructInitialiser TWrongStruct).1 rfl, rfl, rfl⟩

end StructInitializer

namespace StructInitializer

/-! ## Error precedence -/

/-- C9 as stated fails on a struct whose run does not return:
`struct { *TStruct; A int "default:\"x\"" }` has exactly one failing field,
`A`, and `InitializeStruct` on a pointer to its zero instance panics (in
`NumField`, on the embedded pointer) instead of returning the error of `A`. -/
theorem error_precedence_counterexample :
    NewStructInitialiser.leavesFields
        [.mk "TStruct" (.ptr TStruct) [] true, .mk "A" (.int .Int) (defaultTag "x") false]
        "TEmbeddedPointer" =
      [⟨"TypeConversionFailed", "\"x\" can't convert to int64", "TEmbeddedPointer.A"⟩] ∧
    InitializeStruct (fun _ => "T") (addressOf TEmbeddedPointer TEmbeddedPointer.zero) =
      .panic :=
  ⟨by decide, rfl⟩

/-- C9, as the code has it.  `Initialise` returns on every struct instance
whose walk meets no anonymous field that is not a struct and no write through
a field that is not exported (`runsFields`); and whenever it returns, the
returned error is the failing field's own error (its leaf reason, which is not
`MultiErrorsFound`, and its own path label) if exactly one field of the
traversal fails, and has reason `MultiErrorsFound` and a message containing
the field path of every failing field if two or more fail. -/
theorem error_precedence (self : Initialiser) (typeString : Ty → String) (name : String)
    (fields : List StructField) (vs : List Val) (hvs : HasTypes vs fields) :
    (self.runsFields false fields vs = true →
      ∃ E : Option Error,
        self.Initialise typeString
            (.of (.ptr (.struct name fields)) (.ptr (some (.struct vs)))) =
          .ret (.ptr (some (.struct (self.fillFields fields vs))), E)) ∧
    ∀ (after : Val) (E : Option Error),
      self.Initialise typeString
          (.of (.ptr (.struct name fields)) (.ptr (some (.struct vs)))) = .ret (after, E) →
      (∀ e : Error, self.leavesFields fields name = [e] →
        E = some e ∧ e.Reason ≠ "MultiErrorsFound") ∧
      (2 ≤ (self.leavesFields fields name).length →
        ∃ E' : Error, E = some E' ∧ E'.Reason = "MultiErrorsFound" ∧
          ∀ e ∈ self.leavesFields fields name, Contains E'.Message e.Stack) := by
  constructor
  · intro hr
    exact ⟨_, by rw [Initialise_run self typeString name fields vs hvs, if_pos hr]⟩
  · intro after E h
    obtain ⟨_, hsafe, _, hE⟩ := Initialise_ret self typeString name fields vs hvs _ _ h
    have hrep := reports_errorOf self _ (.struct name fields) name "" (le_refl _)
      (by rw [safe_struct]; exact hsafe)
    rw [leaves_struct, ← hE] at hrep
    constructor
    · intro e he
      have hreason : e.Reason ≠ "MultiErrorsFound" := by
        have := leavesFields_reason self fields name e (by rw [he]; simp)
        rcases this with h1 | h1 <;> rw [h1] <;> decide
      refine ⟨?_, hreason⟩
      rcases hrep with ⟨h1, _⟩ | ⟨e', h1, h2⟩ | ⟨h1, _⟩
      · rw [he] at h1; cases h1
      · rw [he] at h1
        injection h1 with h1
        rw [h2, h1]
      · rw [he] at h1; simp at h1
    · intro hlen
      rcases hrep with ⟨h1, _⟩ | ⟨e', h1, _⟩ | ⟨_, E', h2, h3, h4⟩
      · rw [h1] at hlen; simp at hlen
      · rw [h1] at hlen; simp at hlen
      · exact ⟨E', h2, h3, h4⟩

/-- C9, witness: `TTwoWrong`, whose two fields both fail. -/
theorem error_precedence_witness :
    ∃ E' : Error,
      some (Error.mk "MultiErrorsFound"
        ("* TypeConversionFailed:(TTwoWrong.A) \"x\" can't convert to int64\n" ++
          "* TypeConversionFailed:(TTwoWrong.B) \"-1\" can't convert to uint64")
        "TTwoWrong") = some E' ∧
      E'.Reason = "MultiErrorsFound" ∧
      ∀ e ∈ NewStructInitialiser.leavesFields
          [.mk "A" (.int .Int) (defaultTag "x") false,
           .mk "B" (.uint .Uint8) (defaultTag "-1") false] "TTwoWrong",
        Contains E'.Message e.Stack :=
  ((error_precedence NewStructInitialiser (fun _ => "T") "TTwoWrong"
    [.mk "A" (.int .Int) (defaultTag "x") false,
     .mk "B" (.uint .Uint8) (defaultTag "-1") false]
    [.int 0, .uint 0] (by simp [HasTypes, Val.HasType, inIntRange, IntKind.bits,
      UintKind.bits])).2 _ _ rfl).2 (by decide)

end StructInitializer
namespace StructInitializer

/-! ## Rendering of an error -/

/-- C11. For every error with reason `r`, message `m` and path label `p`,
`Error()` returns `r: m` when `p` is empty and `r:(p) m` otherwise. -/
theorem Error_rendering (r m p : String) :
    (p = "" → (Error.mk r m p).Error = r ++ ": " ++ m) ∧
    (p ≠ "" → (Error.mk r m p).Error = r ++ ":(" ++ p ++ ") " ++ m) := by
  constructor
  · intro h
    simp [Error.Error, h]
  · intro h
    simp [Error.Error, h]

/-- C11, witness: an error without a path label and one with the label
`TStruct.AInt`. -/
theorem Error_rendering_witness :
    (Error.mk "NotAPointer" "T not a pointer" "").Error = "NotAPointer: T not a pointer" ∧
    (Error.mk "NotImplement" "not implement" "TStruct.AInt").Error =
      "NotImplement:(TStruct.AInt) not implement" :=
  ⟨(Error_rendering "NotAPointer" "T not a pointer" "").1 rfl,
    (Error_rendering "NotImplement" "not implement" "TStruct.AInt").2 (by decide)⟩

end StructInitializer

namespace StructInitializer

/-! ## The pointer setter on a nil pointer -/

/-- C14. For a nil pointer field for which the pointer setter allocates a
pointee (a tag that is neither empty nor `-`, or an empty tag and a pointee
struct with a reachable default tag): if the recursive initialisation of the
fresh pointee returns an error, the setter returns that same error and the
pointer is still nil; if it succeeds, the pointer is bound to the initialised
pointee when the field can be set, and `Set` panics when the field was
obtained through a field that is not exported; and the pointer is bound only
when the recursive call succeeded. -/
theorem pointer_failure_atomicity (self : Initialiser) (s tag : String) (elem : Ty)
    (halloc : (tag ≠ "" ∧ tag ≠ "-") ∨
      (tag = "" ∧ elem.Kind = Kind.Struct ∧ self.HasReachableTag elem)) :
    (∀ (p : Val) (err : Error) (ro : Bool),
      self.initialise s tag ⟨elem, elem.zero, false⟩ = .ret (p, some err) →
      self.initialisePtr s tag ⟨.ptr elem, .ptr none, ro⟩ = .ret (.ptr none, some err)) ∧
    (∀ p : Val,
      self.initialise s tag ⟨elem, elem.zero, false⟩ = .ret (p, none) →
      self.initialisePtr s tag ⟨.ptr elem, .ptr none, false⟩ =
        .ret (.ptr (some p), none) ∧
      self.initialisePtr s tag ⟨.ptr elem, .ptr none, true⟩ = .panic) ∧
    (∀ (q : Val) (e : Option Error) (ro : Bool),
      self.initialisePtr s tag ⟨.ptr elem, .ptr none, ro⟩ = .ret (.ptr (some q), e) →
      e = none ∧ self.initialise s tag ⟨elem, elem.zero, false⟩ = .ret (q, none)) := by
  have hdash : tag ≠ "-" := by
    rcases halloc with ⟨_, h⟩ | ⟨h, _⟩
    · exact h
    · rw [h]; decide
  have hcond : ¬ (tag = "" ∧
      (elem.Kind ≠ Kind.Struct ∨ ¬ self.checkStructHasDefaultValue elem = true)) := by
    rintro ⟨h1, h2⟩
    rcases halloc with ⟨h, _⟩ | ⟨_, hk, hr⟩
    · exact h h1
    · rcases h2 with h2 | h2
      · exact h2 hk
      · exact h2 ((check_iff_reachable self elem).2 hr)
  have hstep : ∀ ro : Bool, self.initialisePtr s tag ⟨.ptr elem, .ptr none, ro⟩ =
      match self.initialise s tag ⟨elem, elem.zero, false⟩ with
      | .ret (_, some err) => .ret (.ptr none, some err)
      | .ret (pointee, none) =>
        if ro = true then .panic else .ret (.ptr (some pointee), none)
      | .panic => .panic
      | .diverge => .diverge := by
    intro ro
    simp only [Initialiser.initialisePtr, initialisePtrStep, Ty.Elem, if_neg hdash]
    rw [if_neg hcond]
    cases self.initialise s tag ⟨elem, elem.zero, false⟩ with
    | diverge => rfl
    | panic => rfl
    | ret o =>
      obtain ⟨p, err⟩ := o
      cases err with
      | some err => rfl
      | none => cases ro <;> rfl
  refine ⟨?_, ?_, ?_⟩
  · intro p err ro h
    rw [hstep, h]
  · intro p h
    constructor
    · rw [hstep, h]; rfl
    · rw [hstep, h]; rfl
  · intro q e ro h
    rw [hstep] at h
    cases hr : self.initialise s tag ⟨elem, elem.zero, false⟩ with
    | diverge => rw [hr] at h; cases h
    | panic => rw [hr] at h; cases h
    | ret o =>
      obtain ⟨p, err⟩ := o
      rw [hr] at h
      cases err with
      | some err => simp at h
      | none =>
        cases ro with
        | true => simp at h
        | false =>
          simp at h
          obtain ⟨h1, h2⟩ := h
          rw [h1]
          exact ⟨h2.symm, rfl⟩

/-- C14, witness: a nil `*TWrongStruct` with an empty tag; the pointee's
`AInt` does not parse, the error comes back and the pointer stays nil. -/
theorem pointer_failure_atomicity_witness :
    NewStructInitialiser.initialisePtr "T.P" "" ⟨.ptr TWrongStruct, .ptr none, false⟩ =
      .ret (.ptr none,
        some ⟨"TypeConversionFailed", "\"hhhhh\" can't convert to int64", "T.P.AInt"⟩) :=
  (pointer_failure_atomicity NewStructInitialiser "T.P" "" TWrongStruct
    (Or.inr ⟨rfl, rfl, (check_iff_reachable _ _).1 rfl⟩)).1
    (.struct [.int 0, .str "hello"]) _ false rfl

/-! ## The probe for reachable defaults -/

/-- C15. `checkStructHasDefaultValue` is true of a struct type exactly when
some field reachable from it by descending through struct-kinded fields only
(named or anonymous, not through pointers) has a non-empty value for the
configured tag name: true for `TStruct` and `TEmbeddStruct2`, false for
`TNormStruct` and for a struct whose only field is a `*TStruct`. -/
theorem checkStructHasDefaultValue_spec (self : Initialiser) :
    (∀ (name : String) (fields : List StructField),
      self.checkStructHasDefaultValue (.struct name fields) = true ↔
        self.HasReachableTag (.struct name fields)) ∧
    NewStructInitialiser.checkStructHasDefaultValue TStruct = true ∧
    NewStructInitialiser.checkStructHasDefaultValue TNormStruct = false ∧
    NewStructInitialiser.checkStructHasDefaultValue TEmbeddStruct2 = true ∧
    NewStructInitialiser.checkStructHasDefaultValue
      (.struct "TPointerOnly" [.mk "P" (.ptr TStruct) [] false]) = false :=
  ⟨fun name fields => check_iff_reachable self (.struct name fields), rfl, rfl, rfl, rfl⟩

end StructInitializer

namespace StructInitializer

/-! ## Fields of a kind without a setter -/

/-- A failing field of a field of a struct is a failing field of the struct. -/
theorem leavesFields_of_mem (self : Initialiser) (s : String) :
    ∀ (fields : List StructField) (f : StructField), f ∈ fields →
      ∀ e ∈ self.leavesField f s, e ∈ self.leavesFields fields s := by
  intro fields
  induction fields with
  | nil => intro f hf; cases hf
  | cons g rest ih =>
    intro f hf e he
    rw [leavesFields_cons]
    rcases List.mem_cons.1 hf with h | h
    · subst h
      exact List.mem_append_left _ he
    · exact List.mem_append_right _ (ih f h e he)

/-- C13 as stated fails on a struct whose run does not return:
`struct { B bool; *TStruct }` has the field `B`, of a kind without a setter
and not anonymous, and `InitializeStruct` on a pointer to its zero instance
panics (in `NumField`, on the embedded pointer) instead of returning an
error. -/
theorem kind_dispatch_counterexample :
    (Ty.other .Bool).Kind ∉ handledKinds ∧
    TBoolEmbeddedPointer =
      .struct "TBoolEmbeddedPointer"
        [.mk "B" (.other .Bool) [] false, .mk "TStruct" (.ptr TStruct) [] true] ∧
    InitializeStruct (fun _ => "T")
        (addressOf TBoolEmbeddedPointer TBoolEmbeddedPointer.zero) = .panic :=
  ⟨by decide, rfl, rfl⟩

/-- C13, as the code has it.  For every value whose kind is not struct, a
signed or unsigned integer kind (`uintptr` included), string or pointer,
`initialise` returns an error with reason `NotImplement` whose path label is
the field path, for every tag, and leaves the value as it is.  `Initialise` on
a struct that has a field of such a type that is not anonymous never returns
without an error, whatever the field's tag: it returns on every instance whose
walk meets no anonymous field that is not a struct and no write through a
field that is not exported (`runsFields`); and whenever it returns, the error
is the field's `NotImplement` error with the field's path, or a composite
error whose message contains that path. -/
theorem kind_dispatch (self : Initialiser) (s tag : String) (typ : Ty) (d : Val)
    (hkind : typ.Kind ∉ handledKinds) :
    (∀ ro : Bool, self.initialise s tag ⟨typ, d, ro⟩ =
      .ret (d, some ⟨"NotImplement", "not implement", s⟩)) ∧
    ∀ (typeString : Ty → String) (name : String) (fields : List StructField)
      (vs : List Val) (n : String) (ftag : StructTag),
      HasTypes vs fields → StructField.mk n typ ftag false ∈ fields →
      (self.runsFields false fields vs = true →
        ∃ e : Error,
          self.Initialise typeString
              (.of (.ptr (.struct name fields)) (.ptr (some (.struct vs)))) =
            .ret (.ptr (some (.struct (self.fillFields fields vs))), some e)) ∧
      ∀ (after : Val) (E : Option Error),
        self.Initialise typeString
            (.of (.ptr (.struct name fields)) (.ptr (some (.struct vs)))) = .ret (after, E) →
        ∃ e : Error, E = some e ∧
          (e = ⟨"NotImplement", "not implement", fieldPath name n⟩ ∨
            (e.Reason = "MultiErrorsFound" ∧ Contains e.Message (fieldPath name n))) := by
  obtain ⟨k, rfl⟩ : ∃ k, typ = .other k := by
    cases typ with
    | other k => exact ⟨k, rfl⟩
    | int k => cases k <;> simp [handledKinds, Ty.Kind, IntKind.Kind] at hkind
    | uint k => cases k <;> simp [handledKinds, Ty.Kind, UintKind.Kind] at hkind
    | string => simp [handledKinds, Ty.Kind] at hkind
    | ptr e => simp [handledKinds, Ty.Kind] at hkind
    | struct name fields => simp [handledKinds, Ty.Kind] at hkind
  refine ⟨fun ro => initialise_other self s tag k d ro, ?_⟩
  intro typeString name fields vs n ftag hvs hmem
  have hleaf : (⟨"NotImplement", "not implement", fieldPath name n⟩ : Error) ∈
      self.leavesFields fields name := by
    apply leavesFields_of_mem self name fields _ hmem
    rw [leavesField_named, Initialiser.leaves]
    exact List.mem_singleton.2 rfl
  have key : self.safeFields fields = true →
      ∃ e : Error, self.errorOf name "" (.struct name fields) = some e ∧
        (e = ⟨"NotImplement", "not implement", fieldPath name n⟩ ∨
          (e.Reason = "MultiErrorsFound" ∧ Contains e.Message (fieldPath name n))) := by
    intro hsafe
    have hrep := reports_errorOf self _ (.struct name fields) name "" (le_refl _)
      (by rw [safe_struct]; exact hsafe)
    rw [leaves_struct] at hrep
    rcases hrep with ⟨h1, _⟩ | ⟨e', h1, h2⟩ | ⟨_, E', h2, h3, h4⟩
    · rw [h1] at hleaf; cases hleaf
    · rw [h1, List.mem_singleton] at hleaf
      exact ⟨e', h2, Or.inl hleaf.symm⟩
    · exact ⟨E', h2, Or.inr ⟨h3, h4 _ hleaf⟩⟩
  constructor
  · intro hr
    obtain ⟨e, he, _⟩ := key (runsFields_safe self fields false vs hvs hr)
    exact ⟨e, by rw [Initialise_run self typeString name fields vs hvs, if_pos hr, he]⟩
  · intro after E h
    obtain ⟨_, hsafe, _, hE⟩ := Initialise_ret self typeString name fields vs hvs _ _ h
    rw [hE]
    exact key hsafe

/-- C13, witness: a `bool`, and `TBoolStruct`, whose `bool` field has no tag. -/
theorem kind_dispatch_witness :
    NewStructInitialiser.initialise "T.B" "" ⟨.other .Bool, .other 1, false⟩ =
      .ret (.other 1, some ⟨"NotImplement", "not implement", "T.B"⟩) ∧
    ∃ e : Error,
      InitializeStruct (fun _ => "T") (addressOf TBoolStruct (.struct [.other 0, .str ""])) =
        .ret (.ptr (some (.struct [.other 0, .str "s"])), some e) :=
  ⟨(kind_dispatch NewStructInitialiser "T.B" "" (.other .Bool) (.other 1) (by decide)).1
      false,
    ((kind_dispatch NewStructInitialiser "T.B" "" (.other .Bool) (.other 1) (by decide)).2
      (fun _ => "T") "TBoolStruct"
      [.mk "B" (.other .Bool) [] false, .mk "S" .string (defaultTag "s") false]
      [.other 0, .str ""] "B" [] (by simp [HasTypes, Val.HasType])
      (List.mem_cons_self _ _)).1 rfl⟩

/-! ## The error does not depend on the values -/

/-- C18 as stated fails on a field that is not exported: on
`struct { aInt int "default:\"10\"" }` the run on the instance `{7}` returns
no error, and the run on the instance `{0}` panics in `SetInt`; the outcome
depends on the field values. -/
theorem error_independent_of_values_counterexample :
    InitializeStruct (fun _ => "T") (addressOf TUnexported (.struct [.int 7])) =
      .ret (.ptr (some (.struct [.int 7])), none) ∧
    InitializeStruct (fun _ => "T") (addressOf TUnexported (.struct [.int 0])) = .panic ∧
    (InitializeStruct (fun _ => "T") (addressOf TUnexported (.struct [.int 7]))).errorPart ≠
      (InitializeStruct (fun _ => "T")
        (addressOf TUnexported (.struct [.int 0]))).errorPart :=
  ⟨rfl, rfl, fun h => by
    have h' : (Res.ret none : Res (Option Error)) = .panic := h
    cases h'⟩

/-- C18, as the code has it.  On an instance of a struct type `Initialise`
returns exactly when the walk meets no anonymous field that is not a struct
and no write through a field that is not exported (`runsFields`, which reads
the field values); and the error of a run that returns depends on the struct's
type and tags only: whenever the runs on two instances of the same struct type
both return, whatever the field values (nil or non-nil pointers included),
they return the same error, or no error for both. -/
theorem error_independent_of_values (self : Initialiser) (typeString : Ty → String)
    (name : String) (fields : List StructField) (vs vs' : List Val)
    (hvs : HasTypes vs fields) (hvs' : HasTypes vs' fields) :
    ((∃ out, self.Initialise typeString
        (.of (.ptr (.struct name fields)) (.ptr (some (.struct vs)))) = .ret out) ↔
      self.runsFields false fields vs = true) ∧
    (∀ (after after' : Val) (E E' : Option Error),
      self.Initialise typeString
          (.of (.ptr (.struct name fields)) (.ptr (some (.struct vs)))) = .ret (after, E) →
      self.Initialise typeString
          (.of (.ptr (.struct name fields)) (.ptr (some (.struct vs')))) =
        .ret (after', E') →
      E = E') ∧
    ∀ (after : Val) (E : Option Error),
      self.Initialise typeString
          (.of (.ptr (.struct name fields)) (.ptr (some (.struct vs)))) = .ret (after, E) →
      self.Initialise typeString
          (.of (.ptr (.struct name fields)) (.ptr (some (.struct vs')))) =
        if self.runsFields false fields vs' = true then
          .ret (.ptr (some (.struct (self.fillFields fields vs'))), E)
        else .panic := by
  refine ⟨⟨?_, ?_⟩, ?_, ?_⟩
  · rintro ⟨⟨after, E⟩, h⟩
    exact (Initialise_ret self typeString name fields vs hvs _ _ h).1
  · intro hr
    exact ⟨_, by rw [Initialise_run self typeString name fields vs hvs, if_pos hr]⟩
  · intro after after' E E' h h'
    rw [(Initialise_ret self typeString name fields vs hvs _ _ h).2.2.2,
      (Initialise_ret self typeString name fields vs' hvs' _ _ h').2.2.2]
  · intro after E h
    rw [(Initialise_ret self typeString name fields vs hvs _ _ h).2.2.2,
      Initialise_run self typeString name fields vs' hvs']

/-- C18, witness: two instances of `TWrongStruct`, one zero and one with both
fields set, return the same error. -/
theorem error_independent_of_values_witness :
    InitializeStruct (fun _ => "T") (addressOf TWrongStruct (.struct [.int 7, .str "set"])) =
      if NewStructInitialiser.runsFields false
          [.mk "AInt" (.int .Int) (defaultTag "hhhhh") false,
           .mk "AStr" .string (defaultTag "hello") false] [.int 7, .str "set"] = true then
        .ret (.ptr (some (.struct (NewStructInitialiser.fillFields
            [.mk "AInt" (.int .Int) (defaultTag "hhhhh") false,
             .mk "AStr" .string (defaultTag "hello") false] [.int 7, .str "set"]))),
          some ⟨"TypeConversionFailed", "\"hhhhh\" can't convert to int64",
            "TWrongStruct.AInt"⟩)
      else .panic :=
  (error_independent_of_values NewStructInitialiser (fun _ => "T") "TWrongStruct"
    [.mk "AInt" (.int .Int) (defaultTag "hhhhh") false,
     .mk "AStr" .string (defaultTag "hello") false]
    [.int 0, .str ""] [.int 7, .str "set"]
    (by simp [HasTypes, Val.HasType, inIntRange, IntKind.bits])
    (by simp [HasTypes, Val.HasType, inIntRange, IntKind.bits])).2.2
    (.ptr (some (.struct [.int 0, .str "hello"])))
    (some ⟨"TypeConversionFailed", "\"hhhhh\" can't convert to int64", "TWrongStruct.AInt"⟩)
    rfl

/-! ## What a pointer is allocated for -/

/-- C19, counterexample: a nil `*TZeroDefault` with an empty tag is bound to a
new pointee that equals the zero value of `TZeroDefault`, whose only default
is `0`; and a nil `*TOptOutOnly` is bound to a new pointee that equals the
zero value of `TOptOutOnly`, whose only tag is `-` and sets nothing. -/
theorem pointer_allocation_counterexample :
    NewStructInitialiser.initialisePtr "T.P" "" ⟨.ptr TZeroDefault, .ptr none, false⟩ =
      .ret (.ptr (some TZeroDefault.zero), none) ∧
    TZeroDefault.zero = .struct [.int 0] ∧
    NewStructInitialiser.initialisePtr "T.Q" "" ⟨.ptr TOptOutOnly, .ptr none, false⟩ =
      .ret (.ptr (some TOptOutOnly.zero), none) ∧
    TOptOutOnly.zero = .struct [.ptr none] :=
  ⟨rfl, rfl, rfl, rfl⟩

/-- C19, amended. For a nil pointer field with an empty tag, if the pointer
setter binds the pointer to a newly allocated pointee, then the pointee type
is a struct with a reachable default tag, no error is returned, and the
pointee is what a successful initialisation of the zero value of its type
leaves (which may be the zero value itself). -/
theorem pointer_allocation (self : Initialiser) (s : String) (elem : Ty) (p : Val)
    (e : Option Error) (ro : Bool)
    (h : self.initialisePtr s "" ⟨.ptr elem, .ptr none, ro⟩ = .ret (.ptr (some p), e)) :
    elem.Kind = Kind.Struct ∧ self.HasReachableTag elem ∧ e = none ∧
      self.initialise s "" ⟨elem, elem.zero, false⟩ = .ret (p, none) ∧
      p = self.fill elem "" elem.zero := by
  have hcond : ¬ (elem.Kind ≠ Kind.Struct ∨ ¬ self.checkStructHasDefaultValue elem = true) := by
    intro hc
    simp only [Initialiser.initialisePtr, initialisePtrStep, Ty.Elem] at h
    rw [if_neg (by decide), if_pos ⟨trivial, hc⟩] at h
    simp at h
  have hk : elem.Kind = Kind.Struct := by
    by_contra hk
    exact hcond (Or.inl hk)
  have hc : self.checkStructHasDefaultValue elem = true := by
    by_contra hc
    exact hcond (Or.inr hc)
  have hrun : e = none ∧ self.initialise s "" ⟨elem, elem.zero, false⟩ = .ret (p, none) := by
    simp only [Initialiser.initialisePtr, initialisePtrStep, Ty.Elem] at h
    rw [if_neg (by decide), if_neg (fun hh => hcond hh.2)] at h
    cases hr : self.initialise s "" ⟨elem, elem.zero, false⟩ with
    | diverge => rw [hr] at h; cases h
    | panic => rw [hr] at h; cases h
    | ret o =>
      obtain ⟨q, err⟩ := o
      rw [hr] at h
      cases err with
      | some err => simp at h
      | none =>
        cases ro with
        | true => simp [Value.Set] at h
        | false =>
          simp [Value.Set] at h
          obtain ⟨h1, h2⟩ := h
          rw [h1]
          exact ⟨h2.symm, rfl⟩
  refine ⟨hk, (check_iff_reachable self elem).1 hc, hrun.1, hrun.2, ?_⟩
  exact congrArg Prod.fst
    (initialise_ret self s "" elem false elem.zero (Ty.zero_hasType elem) _ hrun.2).2

/-- C19, witness: the nil `*TStruct` of `TPointerStruct`. -/
theorem pointer_allocation_witness :
    TStruct.Kind = Kind.Struct ∧ NewStructInitialiser.HasReachableTag TStruct ∧
      (none : Option Error) = none ∧
      NewStructInitialiser.initialise "T.AStructPtr" "" ⟨TStruct, TStruct.zero, false⟩ =
        .ret (.struct [.int 10, .str "hello"], none) ∧
      Val.struct [.int 10, .str "hello"] =
        NewStructInitialiser.fill TStruct "" TStruct.zero :=
  pointer_allocation NewStructInitialiser "T.AStructPtr" TStruct
    (.struct [.int 10, .str "hello"]) none false rfl

end StructInitializer

namespace StructInitializer

/-! ## A struct without its failing fields -/

theorem pruneFields_nil (self : Initialiser) : self.pruneFields [] = [] := by
  rw [Initialiser.pruneFields]

theorem pruneFields_cons (self : Initialiser) (f : StructField) (rest : List StructField) :
    self.pruneFields (f :: rest) = self.pruneField f ++ self.pruneFields rest := by
  rw [Initialiser.pruneFields]

theorem pruneField_named (self : Initialiser) (n : String) (t : Ty) (tag : StructTag) :
    self.pruneField (.mk n t tag false) =
      if self.fails t (tag.Get self.config.TagName) = true then []
      else [.mk n t tag false] := by
  rw [Initialiser.pruneField]; simp

theorem pruneField_embedded (self : Initialiser) (n name : String)
    (fs : List StructField) (tag : StructTag) :
    self.pruneField (.mk n (.struct name fs) tag true) =
      [.mk n (.struct name (self.pruneFields fs)) tag true] := by
  rw [Initialiser.pruneField, Initialiser.pruneEmbedded]; simp

theorem pruneVals_cons (self : Initialiser) (f : StructField) (fs : List StructField)
    (v : Val) (vs : List Val) :
    self.pruneVals (f :: fs) (v :: vs) = self.pruneVal f v ++ self.pruneVals fs vs := by
  rw [Initialiser.pruneVals]

theorem pruneVals_nil (self : Initialiser) : self.pruneVals [] [] = [] := by
  rw [Initialiser.pruneVals]
  intro f fs v vs h
  cases h

theorem pruneVal_named (self : Initialiser) (n : String) (t : Ty) (tag : StructTag)
    (v : Val) :
    self.pruneVal (.mk n t tag false) v =
      if self.fails t (tag.Get self.config.TagName) = true then [] else [v] := by
  rw [Initialiser.pruneVal]; simp

theorem pruneVal_embedded (self : Initialiser) (n name : String) (fs : List StructField)
    (tag : StructTag) (vs : List Val) :
    self.pruneVal (.mk n (.struct name fs) tag true) (.struct vs) =
      [.struct (self.pruneVals fs vs)] := by
  rw [Initialiser.pruneVal, Initialiser.pruneEmbeddedVal]; simp

theorem hasTypes_nil_inv {vs : List Val} (h : HasTypes vs []) : vs = [] := by
  cases vs with
  | nil => rfl
  | cons v vs => simp [HasTypes] at h

/-- The struct without its failing fields is safe, none of its fields fails,
and a run on it leaves in each field what the run on the whole struct leaves
there. -/
theorem prune_run (self : Initialiser) :
    ∀ fields : List StructField, self.safeFields fields = true →
      self.safeFields (self.pruneFields fields) = true ∧
      self.failsFields (self.pruneFields fields) = false ∧
      ∀ vs : List Val, HasTypes vs fields →
        HasTypes (self.pruneVals fields vs) (self.pruneFields fields) ∧
        self.fillFields (self.pruneFields fields) (self.pruneVals fields vs) =
          self.pruneVals fields (self.fillFields fields vs) := by
  intro fields
  induction fields using fields_induction with
  | nil =>
    intro _
    rw [pruneFields_nil]
    refine ⟨rfl, rfl, fun vs hvs => ?_⟩
    have hnil := hasTypes_nil_inv hvs
    subst hnil
    rw [pruneVals_nil, fillFields_nil, pruneVals_nil]
    exact ⟨hvs, rfl⟩
  | named n t tag rest ih =>
    intro hsafe
    rw [safeFields_cons, Bool.and_eq_true, safeField_named] at hsafe
    obtain ⟨ih1, ih2, ih3⟩ := ih hsafe.2
    rw [pruneFields_cons, pruneField_named]
    by_cases hf : self.fails t (tag.Get self.config.TagName) = true
    · rw [if_pos hf, List.nil_append]
      refine ⟨ih1, ih2, fun vs hvs => ?_⟩
      obtain ⟨v, vs', rfl, hv, hrest⟩ := hasTypes_cons_inv hvs
      simp only [fillFields_cons, pruneVals_cons, pruneVal_named, if_pos hf, List.nil_append]
      exact ih3 vs' hrest
    · rw [if_neg hf, List.singleton_append]
      refine ⟨?_, ?_, fun vs hvs => ?_⟩
      · rw [safeFields_cons, safeField_named, hsafe.1, ih1]; rfl
      · rw [failsFields_cons, failsField_named, ih2, Bool.or_false]
        exact Bool.eq_false_iff.2 hf
      · obtain ⟨v, vs', rfl, hv, hrest⟩ := hasTypes_cons_inv hvs
        simp only [fillFields_cons, pruneVals_cons, pruneVal_named, if_neg hf,
          List.singleton_append, hasTypes_cons_iff, (ih3 vs' hrest).2]
        exact ⟨⟨hv, (ih3 vs' hrest).1⟩, trivial⟩
  | embedded n name fs tag rest ihfs ih =>
    intro hsafe
    rw [safeFields_cons, safeField_anonymous, Bool.and_eq_true, Bool.and_eq_true,
      safe_struct] at hsafe
    obtain ⟨ih1, ih2, ih3⟩ := ih hsafe.2
    obtain ⟨ie1, ie2, ie3⟩ := ihfs hsafe.1.2
    rw [pruneFields_cons, pruneField_embedded, List.singleton_append]
    refine ⟨?_, ?_, fun vs hvs => ?_⟩
    · rw [safeFields_cons, safeField_anonymous, safe_struct, ie1, ih1]; rfl
    · rw [failsFields_cons, failsField_anonymous, fails_struct, ie2, ih2]; rfl
    · obtain ⟨v, vs', rfl, hv, hrest⟩ := hasTypes_cons_inv hvs
      obtain ⟨ws, rfl, hws⟩ := hasType_struct_inv hv
      simp only [fillFields_cons, fillField_anonymous, fill_struct, pruneVals_cons,
        pruneVal_embedded, List.singleton_append, hasTypes_cons_iff, hasType_struct_iff,
        (ih3 vs' hrest).2, (ie3 ws hws).2]
      exact ⟨⟨(ie3 ws hws).1, (ih3 vs' hrest).1⟩, trivial⟩
  | stray n t tag rest hk ih =>
    intro hsafe
    rw [safeFields_cons, safeField_anonymous, Bool.and_eq_true, Bool.and_eq_true] at hsafe
    exact absurd (of_decide_eq_true hsafe.1.1) hk

/-- A run on the struct without its failing fields returns when the run on
the whole struct does. -/
theorem prune_runs (self : Initialiser) (ro : Bool) :
    ∀ (fields : List StructField) (vs : List Val), HasTypes vs fields →
      self.runsFields ro fields vs = true →
      self.runsFields ro (self.pruneFields fields) (self.pruneVals fields vs) = true := by
  intro fields
  induction fields using fields_induction with
  | nil =>
    intro vs _ _
    rw [pruneFields_nil]
    exact runsFields_nil self ro _
  | named n t tag rest ih =>
    intro vs hvs h
    obtain ⟨v, vs', rfl, hv, hrest⟩ := hasTypes_cons_inv hvs
    rw [runsFields_cons, Bool.and_eq_true] at h
    rw [pruneFields_cons, pruneField_named, pruneVals_cons, pruneVal_named]
    by_cases hf : self.fails t (tag.Get self.config.TagName) = true
    · rw [if_pos hf, if_pos hf, List.nil_append, List.nil_append]
      exact ih vs' hrest h.2
    · rw [if_neg hf, if_neg hf, List.singleton_append, List.singleton_append,
        runsFields_cons, Bool.and_eq_true]
      exact ⟨h.1, ih vs' hrest h.2⟩
  | embedded n name fs tag rest ihfs ih =>
    intro vs hvs h
    obtain ⟨v, vs', rfl, hv, hrest⟩ := hasTypes_cons_inv hvs
    obtain ⟨ws, rfl, hws⟩ := hasType_struct_inv hv
    rw [runsFields_cons, Bool.and_eq_true, runsField_anonymous, Bool.and_eq_true,
      runs_struct] at h
    rw [pruneFields_cons, pruneField_embedded, pruneVals_cons, pruneVal_embedded,
      List.singleton_append, List.singleton_append, runsFields_cons, Bool.and_eq_true,
      runsField_anonymous, Bool.and_eq_true, runs_struct]
    exact ⟨⟨by simp [Ty.Kind], ihfs ws hws h.1.2⟩, ih vs' hrest h.2⟩
  | stray n t tag rest hk ih =>
    intro vs hvs h
    obtain ⟨v, vs', rfl, hv, hrest⟩ := hasTypes_cons_inv hvs
    rw [runsFields_cons, Bool.and_eq_true, runsField_anonymous, Bool.and_eq_true] at h
    exact absurd (of_decide_eq_true h.1.1) hk

/-- C20. The struct walker does not stop at the first failing field and does
not roll back: whenever `initialiseStruct` returns on a struct, with or
without an error, the struct holds what the setters left field by field; the
run returns an error exactly when some field fails; and every field that does
not fail ends with exactly the value it gets in a run on the struct without
the failing fields, which returns no error. -/
theorem walker_no_rollback (self : Initialiser) (s name : String)
    (fields : List StructField) (vs : List Val) (ro : Bool) (hvs : HasTypes vs fields)
    (after : Val) (E : Option Error)
    (h : self.initialiseStruct s ⟨.struct name fields, .struct vs, ro⟩ = .ret (after, E)) :
    after = .struct (self.fillFields fields vs) ∧
    (E.isSome = self.failsFields fields) ∧
    self.initialiseStruct s
        ⟨.struct name (self.pruneFields fields), .struct (self.pruneVals fields vs), ro⟩ =
      .ret (.struct (self.pruneVals fields (self.fillFields fields vs)), none) := by
  obtain ⟨hr, hsafe, h1, h2⟩ := initialiseStruct_ret self s name fields vs ro hvs _ _ h
  obtain ⟨p1, p2, p3⟩ := prune_run self fields hsafe
  refine ⟨h1, ?_, ?_⟩
  · rw [h2, errorOf_isSome self _ s "" (.struct name fields) (le_refl _)
      (by rw [safe_struct]; exact hsafe), fails_struct]
  · have hsome := errorOf_isSome self _ s "" (.struct name (self.pruneFields fields))
      (le_refl _) (by rw [safe_struct]; exact p1)
    rw [fails_struct, p2] at hsome
    have hnone : self.errorOf s "" (.struct name (self.pruneFields fields)) = none := by
      cases he : self.errorOf s "" (.struct name (self.pruneFields fields)) with
      | none => rfl
      | some e => rw [he] at hsome; simp at hsome
    rw [initialiseStruct_run self s name _ _ ro (p3 vs hvs).1,
      if_pos (prune_runs self ro fields vs hvs hr), hnone, (p3 vs hvs).2]

/-- C20, witness: `TWrongStruct`, whose `AInt` fails; `AStr` is set to
`hello`, as in a run on the struct without `AInt`. -/
theorem walker_no_rollback_witness :
    Val.struct [.int 0, .str "hello"] =
      .struct (NewStructInitialiser.fillFields
        [.mk "AInt" (.int .Int) (defaultTag "hhhhh") false,
         .mk "AStr" .string (defaultTag "hello") false] [.int 0, .str ""]) ∧
    ((some (Error.mk "TypeConversionFailed" "\"hhhhh\" can't convert to int64"
        "TWrongStruct.AInt")).isSome =
      NewStructInitialiser.failsFields
        [.mk "AInt" (.int .Int) (defaultTag "hhhhh") false,
         .mk "AStr" .string (defaultTag "hello") false]) ∧
    NewStructInitialiser.initialiseStruct "TWrongStruct"
        ⟨.struct "TWrongStruct" [.mk "AStr" .string (defaultTag "hello") false],
          .struct [.str ""], false⟩ =
      .ret (.struct [.str "hello"], none) :=
  walker_no_rollback NewStructInitialiser "TWrongStruct" "TWrongStruct"
    [.mk "AInt" (.int .Int) (defaultTag "hhhhh") false,
     .mk "AStr" .string (defaultTag "hello") false]
    [.int 0, .str ""] false (by simp [HasTypes, Val.HasType, inIntRange, IntKind.bits])
    (.struct [.int 0, .str "hello"])
    (some ⟨"TypeConversionFailed", "\"hhhhh\" can't convert to int64", "TWrongStruct.AInt"⟩)
    rfl

end StructInitializer

namespace StructInitializer

/-! ## Embedded structs written out -/

theorem flattenFields_nil : flattenFields [] = [] := by
  rw [flattenFields]

theorem flattenFields_cons (f : StructField) (rest : List StructField) :
    flattenFields (f :: rest) = flattenField f ++ flattenFields rest := by
  rw [flattenFields]

theorem flattenField_named (n : String) (t : Ty) (tag : StructTag) :
    flattenField (.mk n t tag false) = [.mk n t tag false] := by
  rw [flattenField]; simp

theorem flattenField_embedded (n name : String) (fs : List StructField) (tag : StructTag) :
    flattenField (.mk n (.struct name fs) tag true) = flattenFields fs := by
  rw [flattenField, flattenEmbedded]; simp

theorem flattenVals_cons (f : StructField) (fs : List StructField) (v : Val)
    (vs : List Val) :
    flattenVals (f :: fs) (v :: vs) = flattenVal f v ++ flattenVals fs vs := by
  rw [flattenVals]

theorem flattenVals_nil : flattenVals [] [] = [] := by
  rw [flattenVals]
  intro f fs v vs h
  cases h

theorem flattenVal_named (n : String) (t : Ty) (tag : StructTag) (v : Val) :
    flattenVal (.mk n t tag false) v = [v] := by
  rw [flattenVal]; simp

theorem flattenVal_embedded (n name : String) (fs : List StructField) (tag : StructTag)
    (vs : List Val) :
    flattenVal (.mk n (.struct name fs) tag true) (.struct vs) = flattenVals fs vs := by
  rw [flattenVal, flattenEmbeddedVal]; simp

theorem hasTypes_append :
    ∀ (a : List StructField) (va vb : List Val) (b : List StructField),
      HasTypes va a → HasTypes vb b → HasTypes (va ++ vb) (a ++ b)
  | [], va, vb, b, ha, hb => by
    rw [hasTypes_nil_inv ha]
    exact hb
  | .mk n t tag an :: a, va, vb, b, ha, hb => by
    obtain ⟨v, va', rfl, hv, hrest⟩ := hasTypes_cons_inv ha
    rw [List.cons_append, List.cons_append, hasTypes_cons_iff]
    exact ⟨hv, hasTypes_append a va' vb b hrest hb⟩

theorem fillFields_append (self : Initialiser) :
    ∀ (a : List StructField) (va vb : List Val) (b : List StructField),
      HasTypes va a →
      self.fillFields (a ++ b) (va ++ vb) = self.fillFields a va ++ self.fillFields b vb
  | [], va, vb, b, ha => by
    rw [hasTypes_nil_inv ha, fillFields_nil]
    rfl
  | .mk n t tag an :: a, va, vb, b, ha => by
    obtain ⟨v, va', rfl, hv, hrest⟩ := hasTypes_cons_inv ha
    rw [List.cons_append, List.cons_append, fillFields_cons, fillFields_cons,
      fillFields_append self a va' vb b hrest, List.cons_append]

theorem safeFields_append (self : Initialiser) :
    ∀ a b : List StructField,
      self.safeFields (a ++ b) = (self.safeFields a && self.safeFields b)
  | [], b => by rw [List.nil_append, Initialiser.safeFields, Bool.true_and]
  | f :: a, b => by
    rw [List.cons_append, safeFields_cons, safeFields_cons, safeFields_append self a b,
      Bool.and_assoc]

/-- The struct with its embedded structs written out: it is safe, none of its
fields is anonymous, its fields are the dispatches of the walk of the struct
in declaration order, and a run on it leaves in each field what the run on the
struct leaves there. -/
theorem flatten_run (self : Initialiser) :
    ∀ fields : List StructField, self.safeFields fields = true →
      self.safeFields (flattenFields fields) = true ∧
      (∀ f ∈ flattenFields fields, f.Anonymous = false) ∧
      (∀ i : Nat, (slotsOfFields fields i).map Prod.snd = flattenFields fields) ∧
      ∀ vs : List Val, HasTypes vs fields →
        HasTypes (flattenVals fields vs) (flattenFields fields) ∧
        self.fillFields (flattenFields fields) (flattenVals fields vs) =
          flattenVals fields (self.fillFields fields vs) := by
  intro fields
  induction fields using fields_induction with
  | nil =>
    intro _
    rw [flattenFields_nil]
    refine ⟨rfl, fun f hf => (by cases hf), fun i => (by rw [slotsOfFields_nil]; rfl),
      fun vs hvs => ?_⟩
    have hnil := hasTypes_nil_inv hvs
    subst hnil
    rw [flattenVals_nil, fillFields_nil, flattenVals_nil]
    exact ⟨hvs, rfl⟩
  | named n t tag rest ih =>
    intro hsafe
    rw [safeFields_cons, Bool.and_eq_true, safeField_named] at hsafe
    obtain ⟨ih1, ih2, ih3, ih4⟩ := ih hsafe.2
    rw [flattenFields_cons, flattenField_named, List.singleton_append]
    refine ⟨?_, ?_, ?_, fun vs hvs => ?_⟩
    · rw [safeFields_cons, safeField_named, hsafe.1, ih1]; rfl
    · intro f hf
      rcases List.mem_cons.1 hf with h | h
      · rw [h]; rfl
      · exact ih2 f h
    · intro i
      rw [slotsOfFields_cons_named, List.map_cons, ih3]
    · obtain ⟨v, vs', rfl, hv, hrest⟩ := hasTypes_cons_inv hvs
      simp only [fillFields_cons, flattenVals_cons, flattenVal_named, List.singleton_append,
        hasTypes_cons_iff, (ih4 vs' hrest).2]
      exact ⟨⟨hv, (ih4 vs' hrest).1⟩, trivial⟩
  | embedded n name fs tag rest ihfs ih =>
    intro hsafe
    rw [safeFields_cons, safeField_anonymous, Bool.and_eq_true, Bool.and_eq_true,
      safe_struct] at hsafe
    obtain ⟨ih1, ih2, ih3, ih4⟩ := ih hsafe.2
    obtain ⟨ie1, ie2, ie3, ie4⟩ := ihfs hsafe.1.2
    rw [flattenFields_cons, flattenField_embedded]
    refine ⟨?_, ?_, ?_, fun vs hvs => ?_⟩
    · rw [safeFields_append, ie1, ih1]; rfl
    · intro f hf
      rcases List.mem_append.1 hf with h | h
      · exact ie2 f h
      · exact ih2 f h
    · intro i
      rw [slotsOfFields_cons_embedded, List.map_append, List.map_map, ih3, ← ie3 0]
      rfl
    · obtain ⟨v, vs', rfl, hv, hrest⟩ := hasTypes_cons_inv hvs
      obtain ⟨ws, rfl, hws⟩ := hasType_struct_inv hv
      simp only [fillFields_cons, fillField_anonymous, fill_struct, flattenVals_cons,
        flattenVal_embedded]
      rw [fillFields_append self _ _ _ _ (ie4 ws hws).1, (ie4 ws hws).2, (ih4 vs' hrest).2]
      exact ⟨hasTypes_append _ _ _ _ (ie4 ws hws).1 (ih4 vs' hrest).1, rfl⟩
  | stray n t tag rest hk ih =>
    intro hsafe
    rw [safeFields_cons, safeField_anonymous, Bool.and_eq_true, Bool.and_eq_true] at hsafe
    exact absurd (of_decide_eq_true hsafe.1.1) hk

theorem runsFields_append (self : Initialiser) (ro : Bool) :
    ∀ (a : List StructField) (va vb : List Val) (b : List StructField),
      HasTypes va a →
      self.runsFields ro (a ++ b) (va ++ vb) =
        (self.runsFields ro a va && self.runsFields ro b vb)
  | [], va, vb, b, ha => by
    rw [hasTypes_nil_inv ha, runsFields_nil, Bool.true_and]
    rfl
  | .mk n t tag an :: a, va, vb, b, ha => by
    obtain ⟨v, va', rfl, hv, hrest⟩ := hasTypes_cons_inv ha
    rw [List.cons_append, List.cons_append, runsFields_cons, runsFields_cons,
      runsFields_append self ro a va' vb b hrest, Bool.and_assoc]

/-- A run on the struct with its embedded structs written out returns when
the run on the struct does. -/
theorem flatten_runs (self : Initialiser) (ro : Bool) :
    ∀ (fields : List StructField) (vs : List Val), HasTypes vs fields →
      self.safeFields fields = true →
      self.runsFields ro fields vs = true →
      self.runsFields ro (flattenFields fields) (flattenVals fields vs) = true := by
  intro fields
  induction fields using fields_induction with
  | nil =>
    intro vs _ _ _
    rw [flattenFields_nil]
    exact runsFields_nil self ro _
  | named n t tag rest ih =>
    intro vs hvs hsafe h
    obtain ⟨v, vs', rfl, hv, hrest⟩ := hasTypes_cons_inv hvs
    rw [safeFields_cons, Bool.and_eq_true] at hsafe
    rw [runsFields_cons, Bool.and_eq_true] at h
    rw [flattenFields_cons, flattenField_named, flattenVals_cons, flattenVal_named,
      List.singleton_append, List.singleton_append, runsFields_cons, Bool.and_eq_true]
    exact ⟨h.1, ih vs' hrest hsafe.2 h.2⟩
  | embedded n name fs tag rest ihfs ih =>
    intro vs hvs hsafe h
    obtain ⟨v, vs', rfl, hv, hrest⟩ := hasTypes_cons_inv hvs
    obtain ⟨ws, rfl, hws⟩ := hasType_struct_inv hv
    rw [safeFields_cons, safeField_anonymous, Bool.and_eq_true, Bool.and_eq_true,
      safe_struct] at hsafe
    rw [runsFields_cons, Bool.and_eq_true, runsField_anonymous, Bool.and_eq_true,
      runs_struct] at h
    rw [flattenFields_cons, flattenField_embedded, flattenVals_cons, flattenVal_embedded,
      runsFields_append self ro _ _ _ _ ((flatten_run self fs hsafe.1.2).2.2.2 ws hws).1,
      Bool.and_eq_true]
    exact ⟨ihfs ws hws hsafe.1.2 h.1.2, ih vs' hrest hsafe.2 h.2⟩
  | stray n t tag rest hk ih =>
    intro vs hvs hsafe h
    rw [safeFields_cons, safeField_anonymous, Bool.and_eq_true, Bool.and_eq_true] at hsafe
    exact absurd (of_decide_eq_true hsafe.1.1) hk

theorem anonymousOf_named (path : List Nat) :
    ∀ (fields : List StructField) (i : Nat), (∀ f ∈ fields, f.Anonymous = false) →
      anonymousOf path fields i = [] ∧ (namedOf path fields i).map Prod.snd = fields := by
  intro fields
  induction fields with
  | nil => intro i _; simp [anonymousOf, namedOf]
  | cons f rest ih =>
    intro i h
    have hf : f.Anonymous = false := h f (List.mem_cons_self _ _)
    obtain ⟨h1, h2⟩ := ih (i + 1) (fun g hg => h g (List.mem_cons_of_mem _ hg))
    simp [anonymousOf, namedOf, hf, h1, h2]

/-- The walker of a struct without anonymous fields dispatches the fields in
declaration order. -/
theorem dispatchOrder_named (name : String) (fields : List StructField)
    (h : ∀ f ∈ fields, f.Anonymous = false) (slots : List Slot)
    (hs : dispatchOrder (Ty.struct name fields).size [([], Ty.struct name fields)] =
      some slots) : slots.map Prod.snd = fields := by
  obtain ⟨k, hk⟩ : ∃ k, (Ty.struct name fields).size = k + 1 :=
    ⟨(Ty.struct name fields).size - 1, by have := Ty.size_pos (Ty.struct name fields); omega⟩
  rw [hk] at hs
  simp only [dispatchOrder, Ty.fields?, List.nil_append, (anonymousOf_named [] fields 0 h).1]
    at hs
  cases k <;> simp [dispatchOrder] at hs <;> rw [← hs] <;>
    exact (anonymousOf_named [] fields 0 h).2

/-- The error of a run on a struct is the merge of the errors of the fields of
the struct with its embedded structs written out, each dispatched with the
path of the struct as prefix, taken in the walker's order. -/
theorem errorOf_struct_flatten (self : Initialiser) (s tag name : String)
    (fields : List StructField) (hsafe : self.safeFields fields = true) :
    ∃ order : List StructField, order.Perm (flattenFields fields) ∧
      self.errorOf s tag (.struct name fields) =
        mergedError (order.flatMap (fun F =>
          (self.errorOf (fieldPath s F.Name) (F.Tag.Get self.config.TagName)
            F.Typ).toList)) s := by
  obtain ⟨slots, hslots, herr⟩ := errorOf_struct self s tag name fields hsafe
  have hperm := dispatchOrder_perm _ _ _ hslots
  simp only [List.flatMap_cons, List.flatMap_nil, List.append_nil, slotsUnder_root] at hperm
  refine ⟨slots.map Prod.snd, ?_, ?_⟩
  · rw [← (flatten_run self fields hsafe).2.2.1 0]
    exact hperm.map _
  · rw [herr, List.flatMap_map]

/-- C12. For a struct that embeds structs, at any depth: whenever `Initialise`
returns on it, a run on the struct with the fields of the embedded structs
declared directly on it returns too, and leaves in every field the value the
first run left in it; the error of either run is the merge of the errors of
these fields, each dispatched with the path `<outer path>.F` for a field named
`F` (the path of the outer struct, not the name of the embedded type), and a
failing field of a scalar or unsupported kind carries exactly that path. -/
theorem embedding_flatten (self : Initialiser) (typeString : Ty → String) (name : String)
    (fields : List StructField) (vs : List Val) (hvs : HasTypes vs fields)
    (after : Val) (E : Option Error)
    (h : self.Initialise typeString
      (.of (.ptr (.struct name fields)) (.ptr (some (.struct vs)))) = .ret (after, E)) :
    ∃ (order : List StructField) (E' : Option Error),
      after = .ptr (some (.struct (self.fillFields fields vs))) ∧
      self.Initialise typeString
          (.of (.ptr (.struct name (flattenFields fields)))
            (.ptr (some (.struct (flattenVals fields vs))))) =
        .ret (.ptr (some (.struct (flattenVals fields (self.fillFields fields vs)))), E') ∧
      order.Perm (flattenFields fields) ∧
      E = mergedError (order.flatMap (fun F =>
        (self.errorOf (fieldPath name F.Name) (F.Tag.Get self.config.TagName)
          F.Typ).toList)) name ∧
      E' = mergedError ((flattenFields fields).flatMap (fun F =>
        (self.errorOf (fieldPath name F.Name) (F.Tag.Get self.config.TagName)
          F.Typ).toList)) name ∧
      ∀ F ∈ flattenFields fields, F.Typ.Kind ≠ Kind.Struct → F.Typ.Kind ≠ Kind.Ptr →
        ∀ e : Error,
          self.errorOf (fieldPath name F.Name) (F.Tag.Get self.config.TagName) F.Typ =
            some e → e.Stack = fieldPath name F.Name := by
  obtain ⟨hr, hsafe, h1, h2⟩ := Initialise_ret self typeString name fields vs hvs _ _ h
  obtain ⟨f1, f2, f3, f4⟩ := flatten_run self fields hsafe
  obtain ⟨order, hperm, herr⟩ := errorOf_struct_flatten self name "" name fields hsafe
  obtain ⟨slots, hslots, herr'⟩ := errorOf_struct self name "" name (flattenFields fields) f1
  have hflat := dispatchOrder_named name (flattenFields fields) f2 slots hslots
  refine ⟨order, self.errorOf name "" (.struct name (flattenFields fields)), h1, ?_,
    hperm, ?_, ?_, ?_⟩
  · rw [Initialise_run self typeString name (flattenFields fields) _ (f4 vs hvs).1,
      if_pos (flatten_runs self false fields vs hvs hsafe hr), (f4 vs hvs).2]
  · rw [h2, herr]
  · rw [herr', ← hflat, List.flatMap_map]
  · intro F _ hns hnp e he
    obtain ⟨n, t, ftag, an⟩ := F
    simp only [StructField.Typ, StructField.Name, StructField.Tag] at hns hnp he ⊢
    cases t with
    | struct name fs => exact absurd rfl hns
    | ptr el => exact absurd rfl hnp
    | string => rw [errorOf_string] at he; cases he
    | other k =>
      rw [errorOf_other] at he
      injection he with he
      rw [← he]
    | int k =>
      rw [errorOf_int] at he
      split at he
      · injection he with he
        rw [← he]
      · cases he
    | uint k =>
      rw [errorOf_uint] at he
      split at he
      · injection he with he
        rw [← he]
      · cases he

end StructInitializer

namespace StructInitializer

/-! ## The dispatches of a walk, recorded -/

theorem Val.modify_id : ∀ (p : List Nat) (root : Val), Val.modify p (fun v => v) root = root := by
  intro p
  induction p with
  | nil => intro root; rfl
  | cons i p ih =>
    intro root
    cases root with
    | struct vs =>
      simp only [Val.modify]
      rw [updateAt_congr _ (fun v => v) i vs (fun v _ => ih v), updateAt_id]
    | _ => rfl

theorem Val.set_get (p : List Nat) (root cur : Val) (h : Val.get p root = some cur) :
    Val.set p cur root = root := by
  have := Val.set_eq_modify (fun v => v) p root cur h
  rw [Val.modify_id] at this
  exact this

/-- With the recording callback the walker leaves the struct as it is and
collects one record per dispatch, in order. -/
theorem dispatchAll_record (self : Initialiser) (s : String) (ro : Bool) :
    ∀ (slots : List Slot) (root : Val) (errors : List Error),
      (∀ sl ∈ slots, ∃ v, Val.get sl.1 root = some v) →
      dispatchAll recordDispatch self s ro slots root errors =
        .ret (root, errors ++ slots.map (self.recordOf s)) := by
  intro slots
  induction slots with
  | nil => intro root errors _; simp [dispatchAll]
  | cons sl rest ih =>
    intro root errors h
    obtain ⟨p, f⟩ := sl
    obtain ⟨v, hv⟩ := h (p, f) (List.mem_cons_self _ _)
    simp only [dispatchAll, hv, recordDispatch, Val.set_get p root v hv]
    rw [ih root _ (fun sl hsl => h sl (List.mem_cons_of_mem _ hsl))]
    simp [Initialiser.recordOf]

/-- The walk of a safe struct: its dispatch order is the breadth-first order,
a rearrangement of the fields reachable through embedded structs, each at its
own place in the struct. -/
theorem levelOrder_run (self : Initialiser) (name : String) (fields : List StructField)
    (hsafe : self.safeFields fields = true) :
    dispatchOrder (Ty.struct name fields).size [([], Ty.struct name fields)] =
      some (levelOrder (Ty.struct name fields).size [([], Ty.struct name fields)]) ∧
    (levelOrder (Ty.struct name fields).size [([], Ty.struct name fields)]).Perm
      (slotsOfFields fields 0) ∧
    ((levelOrder (Ty.struct name fields).size [([], Ty.struct name fields)]).map
      Prod.fst).Nodup := by
  obtain ⟨slots, hslots⟩ := dispatchOrder_isSome self (Ty.struct name fields).size
    [([], Ty.struct name fields)]
    (by
      intro h hh
      rw [List.mem_singleton] at hh
      subst hh
      exact ⟨rfl, by rw [safe_struct]; exact hsafe⟩)
    (by simp [queueSize])
  have hlevel := dispatchOrder_level _ _ _ hslots _ (le_refl _)
  rw [hlevel]
  have hperm := dispatchOrder_perm _ _ _ hslots
  simp only [List.flatMap_cons, List.flatMap_nil, List.append_nil, slotsUnder_root] at hperm
  refine ⟨hslots, hperm, ?_⟩
  rw [(hperm.map Prod.fst).nodup_iff]
  have hpair := slotsOfFields_pairwise fields 0
  rw [List.Nodup, List.pairwise_map]
  refine hpair.imp ?_
  intro a b hab heq
  rw [heq] at hab
  exact hab.1 (List.prefix_refl _)

end StructInitializer

namespace StructInitializer

/-- The recorded walk of a safe struct. -/
theorem structsLoop_record (self : Initialiser) (s name : String) (ro : Bool)
    (fields : List StructField) (vs : List Val) (hsafe : self.safeFields fields = true)
    (hvs : HasTypes vs fields) :
    structsLoop recordDispatch self s ro (Ty.struct name fields).size (.struct vs)
        [([], Ty.struct name fields)] [] =
      .ret (.struct vs,
        (levelOrder (Ty.struct name fields).size [([], Ty.struct name fields)]).map
          (self.recordOf s)) := by
  obtain ⟨hslots, hperm, _⟩ := levelOrder_run self name fields hsafe
  rw [structsLoop_eq_dispatchAll _ _ _ _ _ _ _ _ _ hslots, dispatchAll_record]
  · rfl
  · intro sl hsl
    obtain ⟨_, _, v, hv, _⟩ := slotsOfFields_typed self fields 0 [] vs rfl hvs hsafe sl
      (hperm.mem_iff.1 hsl)
    exact ⟨v, hv⟩

/-- A failing field of a kind with a setter of its own, or without a setter,
is a failing field with the path it was dispatched with. -/
theorem leaves_scalar (self : Initialiser) (t : Ty) (p tag : String)
    (hs : t.Kind ≠ Kind.Struct) (hp : t.Kind ≠ Kind.Ptr) (hf : self.fails t tag = true) :
    ∃ e : Error, e ∈ self.leaves t p tag ∧ e.Stack = p := by
  cases t with
  | struct name fs => exact absurd rfl hs
  | ptr el => exact absurd rfl hp
  | string => simp [Initialiser.fails] at hf
  | other k => exact ⟨_, by rw [Initialiser.leaves]; exact List.mem_singleton.2 rfl, rfl⟩
  | int k =>
    simp only [Initialiser.fails, Bool.and_eq_true, decide_eq_true_eq,
      Option.isNone_iff_eq_none] at hf
    exact ⟨_, by rw [Initialiser.leaves, if_pos hf]; exact List.mem_singleton.2 rfl, rfl⟩
  | uint k =>
    simp only [Initialiser.fails, Bool.and_eq_true, decide_eq_true_eq,
      Option.isNone_iff_eq_none] at hf
    exact ⟨_, by rw [Initialiser.leaves, if_pos hf]; exact List.mem_singleton.2 rfl, rfl⟩

/-! ## Traversal order -/

/-- C16 as stated fails on a struct whose walk does not return:
in `struct { *TStruct; Inner }` with `type Inner struct { X int }` the field
`X` is not anonymous and is reached through the anonymous struct field
`Inner`, yet the walker panics (in `NumField`, on the embedded pointer, which
it takes from the queue before `Inner`) and never dispatches `X`. -/
theorem traversal_order_counterexample :
    (slotsOfFields
        [.mk "TStruct" (.ptr TStruct) [] true,
         .mk "Inner" (.struct "Inner" [.mk "X" (.int .Int) (defaultTag "1") false]) []
           true] 0).map (fun sl => sl.2.Name) = ["X"] ∧
    structsLoop recordDispatch NewStructInitialiser "TPointerThenStruct" false
        TPointerThenStruct.size TPointerThenStruct.zero [([], TPointerThenStruct)] [] =
      .panic ∧
    NewStructInitialiser.initialiseStruct "TPointerThenStruct"
        ⟨TPointerThenStruct, TPointerThenStruct.zero, false⟩ = .panic :=
  ⟨by decide, rfl, rfl⟩

/-- C16, as the code has it.  `initialiseStruct` returns on every instance of
a struct whose walk meets no anonymous field that is not a struct and no write
through a field that is not exported (`runsFields`).  Whenever it returns, its
walker dispatches the fields of the breadth-first order, one record per
dispatch: the fields declared on the struct in declaration order, then those
reached through one level of embedding, then two levels, and so on; this order
lists every field that is not anonymous and is reachable through a chain of
anonymous struct fields exactly once; and the error `initialiseStruct` returns
is the merge of the errors of these dispatches in exactly this order. -/
theorem traversal_order (self : Initialiser) (s name : String) (fields : List StructField)
    (vs : List Val) (ro : Bool) (hvs : HasTypes vs fields) :
    (self.runsFields ro fields vs = true →
      ∃ E : Option Error,
        self.initialiseStruct s ⟨.struct name fields, .struct vs, ro⟩ =
          .ret (.struct (self.fillFields fields vs), E)) ∧
    ∀ (after : Val) (E : Option Error),
      self.initialiseStruct s ⟨.struct name fields, .struct vs, ro⟩ = .ret (after, E) →
      structsLoop recordDispatch self s ro (Ty.struct name fields).size (.struct vs)
          [([], Ty.struct name fields)] [] =
        .ret (.struct vs,
          (levelOrder (Ty.struct name fields).size [([], Ty.struct name fields)]).map
            (self.recordOf s)) ∧
      (∀ depth : Nat, levelOrder (depth + 1) [([], Ty.struct name fields)] =
        namedOf [] fields 0 ++ levelOrder depth (anonymousOf [] fields 0)) ∧
      (levelOrder (Ty.struct name fields).size [([], Ty.struct name fields)]).Perm
        (slotsOfFields fields 0) ∧
      ((levelOrder (Ty.struct name fields).size [([], Ty.struct name fields)]).map
        Prod.fst).Nodup ∧
      after = .struct (self.fillFields fields vs) ∧
      E = mergedError
          ((levelOrder (Ty.struct name fields).size [([], Ty.struct name fields)]).flatMap
            (fun sl => (self.errorOf (fieldPath s sl.2.Name)
              (sl.2.Tag.Get self.config.TagName) sl.2.Typ).toList)) s := by
  constructor
  · intro hr
    exact ⟨_, by rw [initialiseStruct_run self s name fields vs ro hvs, if_pos hr]⟩
  · intro after E h
    obtain ⟨_, hsafe, h1, h2⟩ := initialiseStruct_ret self s name fields vs ro hvs _ _ h
    obtain ⟨hslots, hperm, hnodup⟩ := levelOrder_run self name fields hsafe
    refine ⟨structsLoop_record self s name ro fields vs hsafe hvs, ?_, hperm, hnodup, h1, ?_⟩
    · intro depth
      simp [levelOrder, declaredIn, embeddedIn, Ty.fields?]
    · rw [h2, errorOf_struct_level self s "" name fields hsafe]

/-- C16, witness: `TOuter` embeds `TMiddle`, which embeds `TInner`; its walker
dispatches `A`, `B`, then `M`, then `X`, `Y`. -/
theorem traversal_order_witness :
    structsLoop recordDispatch NewStructInitialiser "Outer" false TOuter.size TOuter.zero
        [([], TOuter)] [] =
      .ret (TOuter.zero,
        [⟨"dispatch", "a", "Outer.A"⟩, ⟨"dispatch", "b", "Outer.B"⟩,
         ⟨"dispatch", "m", "Outer.M"⟩, ⟨"dispatch", "1", "Outer.X"⟩,
         ⟨"dispatch", "y", "Outer.Y"⟩]) :=
  ((traversal_order NewStructInitialiser "Outer" "Outer"
    [.mk "Middle" TMiddle [] true,
     .mk "A" (.int .Int) (defaultTag "a") false,
     .mk "B" .string (defaultTag "b") false]
    (zeroFields
      [.mk "Middle" TMiddle [] true,
       .mk "A" (.int .Int) (defaultTag "a") false,
       .mk "B" .string (defaultTag "b") false])
    false (zeroFields_hasTypes _)).2 _ _ rfl).1

/-! ## Field paths -/

/-- C17 as stated fails on a struct whose run does not return: in
`type T struct { A struct { B int "default:\"x\"" }; *TStruct }` the field `B`
inside the field `A` fails, yet `InitializeStruct` on a pointer to the zero
value panics (in `NumField`, on the embedded pointer) and reports no path. -/
theorem field_paths_counterexample :
    NewStructInitialiser.fails (.int .Int) ((defaultTag "x").Get "default") = true ∧
    TNestedEmbeddedPointer =
      .struct "T"
        [.mk "A" (.struct "" [.mk "B" (.int .Int) (defaultTag "x") false]) [] false,
         .mk "TStruct" (.ptr TStruct) [] true] ∧
    InitializeStruct (fun _ => "T")
        (addressOf TNestedEmbeddedPointer TNestedEmbeddedPointer.zero) = .panic :=
  ⟨by decide, rfl, rfl⟩

/-- C17, as the code has it.  `Initialise` walks the struct with the struct
type's own name as path prefix; the field path of a field `F` below the prefix
`pre` is `pre.F` when `pre` is not empty and `F` when it is; a named nested
struct field is walked with its own field path as prefix.  `Initialise`
returns on every instance whose walk meets no anonymous field that is not a
struct and no write through a field that is not exported (`runsFields`).
Whenever it returns, the walker with prefix `pre` dispatches every field `F`
that is not anonymous with the field path of `F` below `pre`, and when a field
`B` of a kind other than struct or pointer fails inside a field `A` of the
struct `T`, the returned error carries the path of `B` below the path of `A`
below the name of `T` (`T.A.B`): as its own path label when it is the only
failing field, inside the message of the composite error otherwise. -/
theorem field_paths (self : Initialiser) (typeString : Ty → String) (name : String)
    (fields : List StructField) (vs : List Val) (hvs : HasTypes vs fields) :
    (self.Initialise typeString
        (.of (.ptr (.struct name fields)) (.ptr (some (.struct vs)))) =
      match self.initialiseStruct name ⟨.struct name fields, .struct vs, false⟩ with
      | .ret (pointee, err) => .ret (.ptr (some pointee), err)
      | .panic => .panic
      | .diverge => .diverge) ∧
    (∀ pre n : String,
      (pre ≠ "" → fieldPath pre n = pre ++ "." ++ n) ∧ fieldPath "" n = n) ∧
    (∀ (p tag n : String) (fs : List StructField) (d : Val) (ro : Bool),
      self.initialise p tag ⟨.struct n fs, d, ro⟩ =
        self.initialiseStruct p ⟨.struct n fs, d, ro⟩) ∧
    (self.runsFields false fields vs = true →
      ∃ E : Option Error,
        self.Initialise typeString
            (.of (.ptr (.struct name fields)) (.ptr (some (.struct vs)))) =
          .ret (.ptr (some (.struct (self.fillFields fields vs))), E)) ∧
    ∀ (after : Val) (E : Option Error),
      self.Initialise typeString
          (.of (.ptr (.struct name fields)) (.ptr (some (.struct vs)))) = .ret (after, E) →
      (∀ (pre : String) (ro : Bool),
        structsLoop recordDispatch self pre ro (Ty.struct name fields).size (.struct vs)
            [([], Ty.struct name fields)] [] =
          .ret (.struct vs,
            (levelOrder (Ty.struct name fields).size [([], Ty.struct name fields)]).map
              (fun sl => ⟨"dispatch", sl.2.Tag.Get self.config.TagName,
                fieldPath pre sl.2.Name⟩))) ∧
      ∀ (a an : String) (afs : List StructField) (atag : StructTag) (b : String) (bt : Ty)
        (btag : StructTag),
        StructField.mk a (.struct an afs) atag false ∈ fields →
        StructField.mk b bt btag false ∈ afs →
        bt.Kind ≠ Kind.Struct → bt.Kind ≠ Kind.Ptr →
        self.fails bt (btag.Get self.config.TagName) = true →
        ∃ E' : Error, E = some E' ∧
          (E'.Stack = fieldPath (fieldPath name a) b ∨
            (E'.Reason = "MultiErrorsFound" ∧
              Contains E'.Message (fieldPath (fieldPath name a) b))) := by
  refine ⟨Initialise_struct_eq self typeString name fields _, ?_,
    fun p tag n fs d ro => initialise_struct self p tag n fs d ro, ?_, ?_⟩
  · intro pre n
    constructor
    · intro h
      simp [fieldPath, h]
    · simp [fieldPath]
  · intro hr
    exact ⟨_, by rw [Initialise_run self typeString name fields vs hvs, if_pos hr]⟩
  · intro after E h
    obtain ⟨_, hsafe, _, hE⟩ := Initialise_ret self typeString name fields vs hvs _ _ h
    constructor
    · intro pre ro
      exact structsLoop_record self pre name ro fields vs hsafe hvs
    · intro a an afs atag b bt btag ha hb hs hp hf
      obtain ⟨e, he, hstack⟩ := leaves_scalar self bt (fieldPath (fieldPath name a) b)
        (btag.Get self.config.TagName) hs hp hf
      have hleaf : e ∈ self.leavesFields fields name := by
        apply leavesFields_of_mem self name fields _ ha
        rw [leavesField_named, leaves_struct]
        apply leavesFields_of_mem self _ afs _ hb
        rw [leavesField_named]
        exact he
      have hrep := reports_errorOf self _ (.struct name fields) name "" (le_refl _)
        (by rw [safe_struct]; exact hsafe)
      rw [leaves_struct, ← hE] at hrep
      rcases hrep with ⟨h1, _⟩ | ⟨e', h1, h2⟩ | ⟨_, E', h2, h3, h4⟩
      · rw [h1] at hleaf; cases hleaf
      · rw [h1, List.mem_singleton] at hleaf
        exact ⟨e', h2, Or.inl (by rw [← hleaf, hstack])⟩
      · exact ⟨E', h2, Or.inr ⟨h3, by rw [← hstack]; exact h4 _ hleaf⟩⟩

/-- C17, witness: `TNested`, a struct `T` with a field `A` whose field `B`
fails, returns the error of `B` with the path `T.A.B`. -/
theorem field_paths_witness :
    InitializeStruct (fun _ => "T") (addressOf TNested TNested.zero) =
      .ret (.ptr (some (.struct [.struct [.int 0]])),
        some ⟨"TypeConversionFailed", "\"x\" can't convert to int64", "T.A.B"⟩) ∧
    ∃ E' : Error,
      some (Error.mk "TypeConversionFailed" "\"x\" can't convert to int64" "T.A.B") =
        some E' ∧
      (E'.Stack = "T.A.B" ∨ (E'.Reason = "MultiErrorsFound" ∧ Contains E'.Message "T.A.B")) :=
  ⟨rfl,
    ((field_paths NewStructInitialiser (fun _ => "T") "T"
      [.mk "A" (.struct "" [.mk "B" (.int .Int) (defaultTag "x") false]) [] false]
      [.struct [.int 0]]
      (by simp [HasTypes, Val.HasType, inIntRange, IntKind.bits])).2.2.2.2
      (.ptr (some (.struct [.struct [.int 0]])))
      (some ⟨"TypeConversionFailed", "\"x\" can't convert to int64", "T.A.B"⟩) rfl).2
      "A" "" [.mk "B" (.int .Int) (defaultTag "x") false] [] "B" (.int .Int)
      (defaultTag "x") (List.mem_cons_self _ _) (List.mem_cons_self _ _)
      (by decide) (by decide) rfl⟩

end StructInitializer

namespace StructInitializer

/-- C12, witness: `TOuter` embeds `TMiddle`, which embeds `TInner`.  The run on
the struct with `X`, `Y`, `M`, `A`, `B` declared directly leaves the same
values; the errors of `Y`, `M`, `A` carry the paths `Outer.Y`, `Outer.M`,
`Outer.A` in both runs, in the order of each walk. -/
theorem embedding_flatten_witness :
    (∃ E' : Option Error,
      InitializeStruct (fun _ => "T")
          (addressOf
            (.struct "Outer"
              [.mk "X" (.int .Int) (defaultTag "1") false,
               .mk "Y" (.int .Int) (defaultTag "y") false,
               .mk "M" (.uint .Uint) (defaultTag "m") false,
               .mk "A" (.int .Int) (defaultTag "a") false,
               .mk "B" .string (defaultTag "b") false])
            (.struct [.int 0, .int 0, .uint 0, .int 0, .str ""])) =
        .ret (.ptr (some (.struct [.int 1, .int 0, .uint 0, .int 0, .str "b"])), E')) ∧
    InitializeStruct (fun _ => "T") (addressOf TOuter TOuter.zero) =
      .ret (.ptr (some (.struct [.struct [.struct [.int 1, .int 0], .uint 0], .int 0,
          .str "b"])),
        some ⟨"MultiErrorsFound",
          "* TypeConversionFailed:(Outer.A) \"a\" can't convert to int64\n" ++
          "* TypeConversionFailed:(Outer.M) \"m\" can't convert to uint64\n" ++
          "* TypeConversionFailed:(Outer.Y) \"y\" can't convert to int64", "Outer"⟩) ∧
    InitializeStruct (fun _ => "T")
        (addressOf
          (.struct "Outer"
            [.mk "X" (.int .Int) (defaultTag "1") false,
             .mk "Y" (.int .Int) (defaultTag "y") false,
             .mk "M" (.uint .Uint) (defaultTag "m") false,
             .mk "A" (.int .Int) (defaultTag "a") false,
             .mk "B" .string (defaultTag "b") false])
          (.struct [.int 0, .int 0, .uint 0, .int 0, .str ""])) =
      .ret (.ptr (some (.struct [.int 1, .int 0, .uint 0, .int 0, .str "b"])),
        some ⟨"MultiErrorsFound",
          "* TypeConversionFailed:(Outer.Y) \"y\" can't convert to int64\n" ++
          "* TypeConversionFailed:(Outer.M) \"m\" can't convert to uint64\n" ++
          "* TypeConversionFailed:(Outer.A) \"a\" can't convert to int64", "Outer"⟩) :=
  ⟨match embedding_flatten NewStructInitialiser (fun _ => "T") "Outer"
      [.mk "Middle" TMiddle [] true,
       .mk "A" (.int .Int) (defaultTag "a") false,
       .mk "B" .string (defaultTag "b") false]
      (zeroFields
        [.mk "Middle" TMiddle [] true,
         .mk "A" (.int .Int) (defaultTag "a") false,
         .mk "B" .string (defaultTag "b") false])
      (zeroFields_hasTypes _)
      (.ptr (some (.struct [.struct [.struct [.int 1, .int 0], .uint 0], .int 0,
          .str "b"])))
      (some ⟨"MultiErrorsFound",
          "* TypeConversionFailed:(Outer.A) \"a\" can't convert to int64\n" ++
          "* TypeConversionFailed:(Outer.M) \"m\" can't convert to uint64\n" ++
          "* TypeConversionFailed:(Outer.Y) \"y\" can't convert to int64", "Outer"⟩)
      rfl with
    | ⟨_, E', _, h2, _⟩ => ⟨E', h2⟩,
    rfl, rfl⟩

end StructInitializer
